import Mathlib

/-!
Verification development for the 1sat-wallet-toolbox repository.

The development shallowly embeds the sync-queue backends
(`src/sync/SqliteSyncQueue.ts`, `src/sync/IndexedDbSyncQueue.ts`), the
sync orchestrator and storage writer of `OneSatWallet.ts`, and the
status/validation logic of `Bsv21Indexer.ts` and `OriginIndexer.ts`.

Strings of the TypeScript code (outpoints, ids, txids) are modelled as
`List Char`; JavaScript `substring` becomes `List.take` and SQL
`LIKE 'p%'` / `String.startsWith` becomes a take-based test.  Timestamps
(`Date.now()`) and random values are passed in as parameters.  Scores are
JavaScript numbers carrying `blockHeight + txIndex/10^k`; they are
modelled as rationals, and the decimal printing used to build queue ids
is modelled by an explicit injective encoding of the rational.
-/

set_option maxHeartbeats 1000000

namespace OneSat

/-- Character strings of the TypeScript sources, modelled as lists of
characters. -/
abbrev Str := List Char

/-- JavaScript `s.substring(0, 64)`: the first 64 characters (the txid
part of an outpoint string). -/
def txidOf (outpoint : Str) : Str := outpoint.take 64

/-- JavaScript `s.startsWith(p)` and SQL `outpoint LIKE 'p%'`. -/
def strStarts (s p : Str) : Bool := decide (s.take p.length = p)

/-- Status of a sync-queue row (`src/sync/types.ts`,
`SyncQueueItemStatus`). -/
inductive QStatus where
  | pending
  | processing
  | done
  | failed
deriving DecidableEq, Repr

/-- One row of the sync queue (`SyncQueueItem` of `src/sync/types.ts`,
also the `queue` table of `SqliteSyncQueue`). -/
structure QueueRow where
  id : Str
  outpoint : Str
  score : ℚ
  spendTxid : Option Str
  status : QStatus
  attempts : Nat
  lastError : Option Str
  createdAt : Nat
  updatedAt : Nat
deriving DecidableEq, Repr

/-- Input to `enqueue` (`SyncQueueInput` of `src/sync/types.ts`). -/
structure SyncQueueInput where
  outpoint : Str
  score : ℚ
  spendTxid : Option Str
deriving DecidableEq, Repr

/-- Injective textual encoding of a score, standing for the decimal
printing of the JavaScript number in the template string
`` `${item.outpoint}:${item.score}` ``. -/
def scoreStr (s : ℚ) : Str := (toString s.num).data ++ '/' :: (toString s.den).data

/-- The queue id `` `${outpoint}:${score}` `` of both backends. -/
def qid (outpoint : Str) (score : ℚ) : Str := outpoint ++ ':' :: scoreStr score

/-- Key-replace-or-insert on the row store: SQLite
`INSERT OR REPLACE` on primary key `id`, and IndexedDB `store.put` on
keyPath `id`. -/
def putRow (q : List QueueRow) (row : QueueRow) : List QueueRow :=
  if q.any (fun r => decide (r.id = row.id)) then
    q.map (fun r => if r.id = row.id then row else r)
  else
    q ++ [row]

/-- The fresh `pending` row written by `enqueue` for input `item`:
`attempts` and `createdAt` come from the prior row when one exists
(`COALESCE` subselects in SQLite, `existing?.attempts ?? 0` etc. in
IndexedDB); `last_error` is not in the inserted column list, hence
cleared. -/
def enqueuedRow (now : Nat) (item : SyncQueueInput) (attempts createdAt : Nat) : QueueRow :=
  { id := qid item.outpoint item.score
    outpoint := item.outpoint
    score := item.score
    spendTxid := item.spendTxid
    status := QStatus.pending
    attempts := attempts
    lastError := none
    createdAt := createdAt
    updatedAt := now }

namespace SqliteSyncQueue

/-- One iteration of the `enqueue` loop of `SqliteSyncQueue.enqueue`
(`src/sync/SqliteSyncQueue.ts` lines 95-114): look the id up, skip when
the existing row is `done`, otherwise `INSERT OR REPLACE` a `pending` row
preserving `attempts` and `created_at`. -/
def enqueueOne (now : Nat) (q : List QueueRow) (item : SyncQueueInput) : List QueueRow :=
  let id := qid item.outpoint item.score
  match q.find? (fun r => decide (r.id = id)) with
  | some ex =>
      if ex.status = QStatus.done then q
      else putRow q (enqueuedRow now item ex.attempts ex.createdAt)
  | none => putRow q (enqueuedRow now item 0 now)

/-- `SqliteSyncQueue.enqueue` (lines 85-115): the items are processed in
order with a single `Date.now()` timestamp. -/
def enqueue (now : Nat) (q : List QueueRow) (items : List SyncQueueInput) : List QueueRow :=
  items.foldl (enqueueOne now) q

end SqliteSyncQueue

/-- Worker for `jsDedup`, carrying the values seen so far. -/
def jsDedupAux (seen : List Str) : List Str → List Str
  | [] => []
  | a :: rest =>
      if a ∈ seen then jsDedupAux seen rest
      else a :: jsDedupAux (seen ++ [a]) rest

/-- Insertion-order deduplication: the JavaScript `Set` built from the
seed txids in both `claim` implementations keeps the first occurrence of
each value. -/
def jsDedup (l : List Str) : List Str := jsDedupAux [] l

/-- The item returned (and stored) for a claimed row: `rowToItem` with
the `processing`/`attempts + 1`/`updatedAt := now` overrides in SQLite,
and the in-place `markProcessing` mutation in IndexedDB. -/
def claimedItem (now : Nat) (r : QueueRow) : QueueRow :=
  { r with status := QStatus.processing, attempts := r.attempts + 1, updatedAt := now }

/-- Queue statistics (`SyncQueueStats` of `src/sync/types.ts`). -/
structure SyncQueueStats where
  pending : Nat
  processing : Nat
  done : Nat
  failed : Nat
deriving DecidableEq, Repr

/-- The pending rows of the store, in store order:
`SELECT * FROM queue WHERE status = 'pending'`. -/
def pendingRows (q : List QueueRow) : List QueueRow :=
  q.filter (fun r => decide (r.status = QStatus.pending))

/-- The pending rows of one transaction:
`SELECT * FROM queue WHERE outpoint LIKE txid ++ percent AND status = 'pending'`
in SQLite, and the filtered `outpoint` cursor walk of
`IndexedDbSyncQueue.getPendingByTxid`. -/
def pendingRowsOfTxid (q : List QueueRow) (t : Str) : List QueueRow :=
  q.filter (fun r => strStarts r.outpoint t && decide (r.status = QStatus.pending))

/-- Steps 2-3 of both `claim` implementations: for each distinct seed
txid, gather all pending rows of that transaction and return them with
the claim overrides applied. -/
def claimGroups (now : Nat) (q : List QueueRow) (txids : List Str) :
    List (Str × List QueueRow) :=
  txids.filterMap (fun t =>
    let rows := pendingRowsOfTxid q t
    if rows.isEmpty then none else some (t, rows.map (claimedItem now)))

namespace SqliteSyncQueue

/-- `SqliteSyncQueue.claim` (lines 117-161).  Seeds are up to `count`
pending rows in store order (the `SELECT` has no `ORDER BY`); for each
distinct seed txid all pending rows whose outpoint starts with it are
gathered, returned with the `processing` overrides, and the store rows
with the gathered ids are updated accordingly (`UPDATE ... WHERE id IN`). -/
def claimOp (now : Nat) (count : Nat) (q : List QueueRow) :
    List (Str × List QueueRow) × List QueueRow :=
  let seedRows := (pendingRows q).take count
  if seedRows.isEmpty then ([], q)
  else
    let groups := claimGroups now q (jsDedup (seedRows.map (fun r => txidOf r.outpoint)))
    let allIds : List Str := (groups.map (fun g => g.2.map QueueRow.id)).flatten
    let q' := q.map (fun r => if decide (r.id ∈ allIds) then claimedItem now r else r)
    (groups, q')

/-- `SqliteSyncQueue.completeMany` (lines 167-177): set `done` and bump
`updated_at` on every row whose id is listed. -/
def completeMany (now : Nat) (ids : List Str) (q : List QueueRow) : List QueueRow :=
  if ids.isEmpty then q
  else q.map (fun r =>
    if decide (r.id ∈ ids) then { r with status := QStatus.done, updatedAt := now } else r)

/-- `SqliteSyncQueue.fail` (lines 179-186). -/
def failOp (now : Nat) (id : Str) (error : Str) (q : List QueueRow) : List QueueRow :=
  q.map (fun r =>
    if decide (r.id = id) then
      { r with status := QStatus.failed, lastError := some error, updatedAt := now }
    else r)

/-- `SqliteSyncQueue.getStats` (lines 207-230): per-status
`COUNT(DISTINCT substr(outpoint, 1, 64))`. -/
def getStats (q : List QueueRow) : SyncQueueStats :=
  let distinct := fun (s : QStatus) =>
    (jsDedup ((q.filter (fun r => decide (r.status = s))).map (fun r => txidOf r.outpoint))).length
  { pending := distinct QStatus.pending
    processing := distinct QStatus.processing
    done := distinct QStatus.done
    failed := distinct QStatus.failed }

end SqliteSyncQueue

namespace IndexedDbSyncQueue

/-- `IndexedDbSyncQueue.getPendingByTxid` (lines 159-184): all items
whose outpoint starts with the txid and whose status is `pending`. -/
def getPendingByTxid (txid : Str) (q : List QueueRow) : List QueueRow :=
  pendingRowsOfTxid q txid

/-- `IndexedDbSyncQueue.markProcessing` (lines 186-205): each gathered
item is mutated to `processing` with `attempts + 1` and put back into the
store by key. -/
def markProcessing (now : Nat) (items : List QueueRow) (q : List QueueRow) : List QueueRow :=
  items.foldl (fun acc it => putRow acc (claimedItem now it)) q

/-- `IndexedDbSyncQueue.claim` (lines 108-157).  Same grouped-claim
algorithm as the SQLite backend; cursor iteration order is modelled as
store order. -/
def claimOp (now : Nat) (count : Nat) (q : List QueueRow) :
    List (Str × List QueueRow) × List QueueRow :=
  let seedItems := (pendingRows q).take count
  if seedItems.isEmpty then ([], q)
  else
    let txids := jsDedup (seedItems.map (fun r => txidOf r.outpoint))
    let byTxid := txids.filterMap (fun t =>
      let items := getPendingByTxid t q
      if items.isEmpty then none else some (t, items))
    let allItems := (byTxid.map (fun g => g.2)).flatten
    let q' := markProcessing now allItems q
    (byTxid.map (fun g => (g.1, g.2.map (claimedItem now))), q')

/-- `IndexedDbSyncQueue.completeMany` (lines 211-236): fetch each id and
put it back with status `done`. -/
def completeMany (now : Nat) (ids : List Str) (q : List QueueRow) : List QueueRow :=
  if ids.isEmpty then q
  else q.map (fun r =>
    if decide (r.id ∈ ids) then { r with status := QStatus.done, updatedAt := now } else r)

/-- `IndexedDbSyncQueue.fail` (lines 238-260). -/
def failOp (now : Nat) (id : Str) (error : Str) (q : List QueueRow) : List QueueRow :=
  q.map (fun r =>
    if decide (r.id = id) then
      { r with status := QStatus.failed, lastError := some error, updatedAt := now }
    else r)

/-- One JavaScript `Set.add`. -/
def setAdd (s : List Str) (x : Str) : List Str :=
  if x ∈ s then s else s ++ [x]

/-- One step of the `getStats` cursor walk (lines 332-338):
`txidsByStatus[item.status]?.add(txid)`. -/
def statsStep (acc : List Str × List Str × List Str × List Str) (r : QueueRow) :
    List Str × List Str × List Str × List Str :=
  let t := txidOf r.outpoint
  match r.status with
  | QStatus.pending => (setAdd acc.1 t, acc.2.1, acc.2.2.1, acc.2.2.2)
  | QStatus.processing => (acc.1, setAdd acc.2.1 t, acc.2.2.1, acc.2.2.2)
  | QStatus.done => (acc.1, acc.2.1, setAdd acc.2.2.1 t, acc.2.2.2)
  | QStatus.failed => (acc.1, acc.2.1, acc.2.2.1, setAdd acc.2.2.2 t)

/-- `IndexedDbSyncQueue.getStats` (lines 317-350): a cursor walk adds
each row txid to the set of its status; the sizes are returned. -/
def getStats (q : List QueueRow) : SyncQueueStats :=
  let sets := q.foldl statsStep ([], [], [], [])
  { pending := sets.1.length
    processing := sets.2.1.length
    done := sets.2.2.1.length
    failed := sets.2.2.2.length }

end IndexedDbSyncQueue

/-- Number of blocks to wait before considering a score safe from
reorgs (`REORG_SAFE_DEPTH`, `OneSatWallet.ts`). -/
def REORG_SAFE_DEPTH : Int := 6

/-- One event of the owner SSE stream (`SyncOutput`). -/
structure SyncOutputM where
  outpoint : Str
  score : ℚ
  spendTxid : Option Str
deriving DecidableEq, Repr

/-- Persisted sync state (`SyncState` of `src/sync/types.ts`). -/
structure SyncStateM where
  lastQueuedScore : ℚ
  lastSyncedAt : Option Nat
deriving DecidableEq, Repr

/-- The queue store together with its persisted sync state. -/
structure WalletSyncState where
  queue : List QueueRow
  sync : SyncStateM
deriving DecidableEq, Repr

/-- `OneSatWallet.handleSyncOutput` (`OneSatWallet.ts` lines 861-884):
enqueue the delivered output, then persist
`lastQueuedScore := score, lastSyncedAt := now` only when the event block
height `Math.floor(score)` is at least `REORG_SAFE_DEPTH` blocks below
the snapshot tip height; otherwise leave the persisted state intact.
The queue backend is modelled by the shared enqueue semantics. -/
def handleSyncOutput (currentHeight : Int) (now : Nat) (s : WalletSyncState)
    (o : SyncOutputM) : WalletSyncState :=
  let q := SqliteSyncQueue.enqueue now s.queue [⟨o.outpoint, o.score, o.spendTxid⟩]
  if Rat.floor o.score ≤ currentHeight - REORG_SAFE_DEPTH then
    { queue := q, sync := { lastQueuedScore := o.score, lastSyncedAt := some now } }
  else
    { queue := q, sync := s.sync }

/-- Folding a whole sequence of delivered stream events (with their
delivery timestamps) through `handleSyncOutput` at a fixed snapshot tip
height. -/
def runStream (currentHeight : Int) (evs : List (Nat × SyncOutputM))
    (s0 : WalletSyncState) : WalletSyncState :=
  evs.foldl (fun st e => handleSyncOutput currentHeight e.1 st e.2) s0

/-- The txids (first 64 outpoint characters) of the rows currently in a
given status, in store order. -/
def statusTxids (q : List QueueRow) (s : QStatus) : List Str :=
  (q.filter (fun r => decide (r.status = s))).map (fun r => txidOf r.outpoint)

/-- Modelled from the spec: the number of distinct txids among the rows
currently in a given status — the refinement target for `getStats`. -/
def specDistinctTxidCount (q : List QueueRow) (s : QStatus) : Nat :=
  (statusTxids q s).toFinset.card

namespace IndexedDbSyncQueue

/-- One iteration of the `enqueue` loop of `IndexedDbSyncQueue.enqueue`
(`src/sync/IndexedDbSyncQueue.ts` lines 79-104): `store.get(id)`, skip
when the existing item is `done`, otherwise `store.put` a `pending` item
with `attempts := existing?.attempts ?? 0` and
`createdAt := existing?.createdAt ?? now`. -/
def enqueueOne (now : Nat) (q : List QueueRow) (item : SyncQueueInput) : List QueueRow :=
  let id := qid item.outpoint item.score
  match q.find? (fun r => decide (r.id = id)) with
  | some ex =>
      if ex.status = QStatus.done then q
      else putRow q (enqueuedRow now item ex.attempts ex.createdAt)
  | none => putRow q (enqueuedRow now item 0 now)

/-- `IndexedDbSyncQueue.enqueue` (lines 66-106). -/
def enqueue (now : Nat) (q : List QueueRow) (items : List SyncQueueInput) : List QueueRow :=
  items.foldl (enqueueOne now) q

end IndexedDbSyncQueue

/-- Specification of one grouped `claim(n)` call: every returned item is
`processing` with `attempts` bumped by exactly one relative to a stored
pending row, groups are keyed by the distinct txids (first 64 characters
of the outpoint) of their items, and every returned group is complete:
no pending row whose txid is a returned group key remains in the updated
store. -/
def ClaimSpec (now : Nat) (q : List QueueRow)
    (res : List (Str × List QueueRow) × List QueueRow) : Prop :=
  (∀ g ∈ res.1, ∀ it ∈ g.2,
      it.status = QStatus.processing ∧
      (∃ r ∈ q, r.status = QStatus.pending ∧ it = claimedItem now r) ∧
      txidOf it.outpoint = g.1) ∧
  (res.1.map Prod.fst).Nodup ∧
  (∀ g ∈ res.1, ∀ r ∈ res.2, r.status = QStatus.pending → txidOf r.outpoint ≠ g.1)

/-- Sample outpoint `"aa…aa_0"` used by concrete witnesses. -/
def wOutpointA0 : Str := (String.replicate 64 'a').data ++ ['_', '0']

/-- Sample outpoint `"aa…aa_1"` used by concrete witnesses. -/
def wOutpointA1 : Str := (String.replicate 64 'a').data ++ ['_', '1']

/-- Sample outpoint `"bb…bb_0"` used by concrete witnesses. -/
def wOutpointB0 : Str := (String.replicate 64 'b').data ++ ['_', '0']

/-- Sample pending row on outpoint `"aa…aa_0"`. -/
def wRowA0 : QueueRow := enqueuedRow 5 ⟨wOutpointA0, 100, none⟩ 0 5

/-- Sample pending row on outpoint `"aa…aa_1"`. -/
def wRowA1 : QueueRow := enqueuedRow 5 ⟨wOutpointA1, 100, none⟩ 2 3

/-- Sample pending row on outpoint `"bb…bb_0"` carrying a spend. -/
def wRowB0 : QueueRow := enqueuedRow 5 ⟨wOutpointB0, 101, some wOutpointA0⟩ 0 5

/-- Sample enqueue input on outpoint `"aa…aa_0"` with score 100. -/
def wItemA0 : SyncQueueInput := ⟨wOutpointA0, 100, none⟩

/-- Sample failed row with the id of `wItemA0`. -/
def wFailedRow : QueueRow :=
  { enqueuedRow 5 wItemA0 3 2 with
      status := QStatus.failed, lastError := some ['b','o','o','m'] }

/-- Sample processing row with the id of `wItemA0`. -/
def wProcRow : QueueRow :=
  { enqueuedRow 5 wItemA0 3 2 with status := QStatus.processing }

/-- Empty wallet sync state used by concrete witnesses. -/
def wState0 : WalletSyncState := ⟨[], ⟨0, none⟩⟩

/-- Stream event with score 100 used by concrete witnesses. -/
def wOut100 : SyncOutputM := ⟨wOutpointA0, 100, none⟩

/-- Stream event with score 199 (inside the re-org window at tip 200)
used by concrete witnesses. -/
def wOut199 : SyncOutputM := ⟨wOutpointB0, 199, some wOutpointA0⟩

/-- Number of rows of a store carrying a given id. -/
def countId (q : List QueueRow) (i : Str) : Nat :=
  (q.filter (fun r => decide (r.id = i))).length

/-- Specification of `enqueue([item])` for C2: afterwards exactly one row
carries the id `outpoint:score`; a `done` row is left untouched; any
other existing row with that id (in particular a `failed` one) is
replaced in place by a `pending` row that preserves `attempts` and
`createdAt`; a fresh id is appended as a new `pending` row. -/
def EnqueueSpec (now : Nat) (q : List QueueRow) (item : SyncQueueInput)
    (q' : List QueueRow) : Prop :=
  countId q' (qid item.outpoint item.score) = 1 ∧
  (∀ ex ∈ q, ex.id = qid item.outpoint item.score →
      (ex.status = QStatus.done → q' = q) ∧
      (ex.status ≠ QStatus.done →
        enqueuedRow now item ex.attempts ex.createdAt ∈ q' ∧ q'.length = q.length)) ∧
  ((∀ ex ∈ q, ex.id ≠ qid item.outpoint item.score) →
      q' = q ++ [enqueuedRow now item 0 now])

/-- Events emitted by `OneSatWallet` during sync
(`OneSatWalletEvents`). -/
inductive SyncEvent where
  | syncError (message : Str)
  | syncProgress (pending done failed : Nat)
  | syncComplete
deriving DecidableEq, Repr

/-- `OneSatWallet.processTxid` (`OneSatWallet.ts` lines 951-992) at the
queue level.  The wallet-storage work of the try block
(`ingestWithSpendInfo` / `markOutputsSpent`) is abstracted into its
outcome: normal return or a thrown exception message.  On success all
items of the group are completed; on an exception a `sync:error` event
is emitted and every item of the group is marked failed with the error
recorded.  The function is total: the catch block never rethrows. -/
def processTxid (now : Nat) (items : List QueueRow) (outcome : Except Str Unit)
    (q : List QueueRow) : List QueueRow × List SyncEvent :=
  match outcome with
  | Except.ok _ => (SqliteSyncQueue.completeMany now (items.map QueueRow.id) q, [])
  | Except.error msg =>
      (items.foldl (fun acc it => SqliteSyncQueue.failOp now it.id msg acc) q,
       [SyncEvent.syncError msg])

/-- The per-group fan-out of one `processQueueLoop` iteration
(lines 910-915); `Promise.all` over groups with pairwise disjoint id
sets is modelled as sequential processing. -/
def processGroups (now : Nat) (outcomes : Str → Except Str Unit) :
    List (Str × List QueueRow) → List QueueRow × List SyncEvent →
      List QueueRow × List SyncEvent
  | [], acc => acc
  | g :: rest, acc =>
      let pr := processTxid now g.2 (outcomes g.1) acc.1
      processGroups now outcomes rest (pr.1, acc.2 ++ pr.2)

/-- One non-empty iteration of `OneSatWallet.processQueueLoop`
(lines 889-925): claim a batch, process every txid group, then emit a
progress event from `getStats`. -/
def processBatch (now : Nat) (count : Nat) (outcomes : Str → Except Str Unit)
    (q : List QueueRow) : List QueueRow × List SyncEvent :=
  let res := SqliteSyncQueue.claimOp now count q
  let folded := processGroups now outcomes res.1 (res.2, [])
  let stats := SqliteSyncQueue.getStats folded.1
  (folded.1, folded.2 ++ [SyncEvent.syncProgress stats.pending stats.done stats.failed])

/-- Specification of one batch iteration for C5: a failing group emits
`sync:error`; every item of every group ends `done` or `failed` (with the
error recorded) according to that group's own outcome only; unclaimed
rows are untouched; and the loop reaches its progress event regardless of
failures. -/
def ProcessBatchSpec (now count : Nat) (outcomes : Str → Except Str Unit)
    (q : List QueueRow) : Prop :=
  (∀ g ∈ (SqliteSyncQueue.claimOp now count q).1, ∀ msg,
      outcomes g.1 = Except.error msg →
      SyncEvent.syncError msg ∈ (processBatch now count outcomes q).2) ∧
  (∀ g ∈ (SqliteSyncQueue.claimOp now count q).1, ∀ it ∈ g.2,
      ∃ r ∈ (processBatch now count outcomes q).1, r.id = it.id ∧
        (∀ u, outcomes g.1 = Except.ok u → r.status = QStatus.done) ∧
        (∀ msg, outcomes g.1 = Except.error msg →
          r.status = QStatus.failed ∧ r.lastError = some msg)) ∧
  (∀ r ∈ q, (∀ g ∈ (SqliteSyncQueue.claimOp now count q).1, ∀ it ∈ g.2, r.id ≠ it.id) →
      r ∈ (processBatch now count outcomes q).1) ∧
  (∃ p d f, SyncEvent.syncProgress p d f ∈ (processBatch now count outcomes q).2)

/-- Outcome oracle used by the C5 witness: the batch of transaction
`"bb…bb"` throws, the others succeed. -/
def wOutcomes : Str → Except Str Unit := fun t =>
  if t = txidOf wOutpointB0 then Except.error ['b','o','o','m'] else Except.ok ()

/-- Status of a BSV21 token record (`Bsv21.status`,
`src/indexers/Bsv21Indexer.ts`). -/
inductive TokenStatus where
  | valid
  | invalid
  | pending
deriving DecidableEq, Repr

/-- A BSV21 token record (interface `Bsv21` of
`src/indexers/Bsv21Indexer.ts`). -/
structure Bsv21 where
  id : Str
  op : Str
  amt : Int
  dec : Nat
  sym : Option Str
  icon : Option Str
  status : TokenStatus
  fundAddress : Str
deriving DecidableEq, Repr

/-- Result of the external `BSV21.decode` template (package
`@bopen-io/ts-templates`, outside this repository), treated as an
oracle: the decoded token fields of a locking script. -/
structure DecodedBsv21 where
  id : Option Str
  op : Str
  amt : Int
  dec : Nat
  sym : Option Str
  icon : Option Str
deriving DecidableEq, Repr

/-- The parse result returned by `Bsv21Indexer.parse`. -/
structure Bsv21ParseResult where
  data : Bsv21
  tags : List Str
  basket : Str
deriving DecidableEq, Repr

/-- The `"deploy+mint"` op string. -/
def opDeployMint : Str := "deploy+mint".data

/-- The `"transfer"` op string. -/
def opTransfer : Str := "transfer".data

/-- The `"burn"` op string. -/
def opBurn : Str := "burn".data

/-- Textual form of a token status, as interpolated into tags. -/
def tokenStatusStr : TokenStatus → Str
  | TokenStatus.valid => "valid".data
  | TokenStatus.invalid => "invalid".data
  | TokenStatus.pending => "pending".data

/-- `Bsv21Indexer.parse` (lines 50-87).  The external template decode
and the cryptographic fund-address derivation are passed in as oracle
values (`decoded`, `fundAddr`); the owner check and outpoint string come
from the parse context.  Amounts outside `0 < amt ≤ 2^64 - 1` are
rejected. -/
def bsv21Parse (decoded : Option DecodedBsv21) (outpointStr : Str) (fundAddr : Str)
    (owners : List Str) (owner : Option Str) : Option Bsv21ParseResult :=
  match decoded with
  | none => none
  | some d =>
      let bsv21 : Bsv21 := {
        id := match d.id with
              | some s => if s.isEmpty then outpointStr else s
              | none => outpointStr
        op := d.op
        amt := d.amt
        dec := d.dec
        sym := d.sym
        icon := d.icon
        status := if d.op = opDeployMint then TokenStatus.valid else TokenStatus.pending
        fundAddress := fundAddr }
      if bsv21.amt ≤ 0 ∨ 2 ^ 64 - 1 < bsv21.amt then none
      else
        let tags :=
          match owner with
          | some o =>
              if decide (o ∈ owners) then
                ["id:".data ++ bsv21.id,
                 "id:".data ++ bsv21.id ++ ":".data ++ tokenStatusStr bsv21.status,
                 "amt:".data ++ (toString bsv21.amt).data]
              else []
          | none => []
        some { data := bsv21, tags := tags, basket := "bsv21".data }

/-- Per-vout token data returned by the BSV21 overlay
(`outputData?.data.bsv21`). -/
structure OverlayTok where
  sym : Option Str
  icon : Option Str
  dec : Nat
deriving DecidableEq, Repr

/-- Outcome of one `services.bsv21.getTokenByTxid` call: the overlay
outputs, an HTTP 404, or another failure (which rethrows). -/
inductive OverlayResult where
  | found (outputs : List (Nat × Option OverlayTok))
  | notFound
  | fail
deriving DecidableEq, Repr

/-- One transaction input as seen by `Bsv21Indexer.summarize`: its
source outpoint (txid, vout), its owner, and its parsed token data. -/
structure SpendTok where
  txid : Str
  vout : Nat
  owner : Option Str
  bsv21 : Option Bsv21
deriving DecidableEq, Repr

/-- One transaction output as seen by `Bsv21Indexer.summarize`. -/
structure OutTok where
  owner : Option Str
  bsv21 : Option Bsv21
deriving DecidableEq, Repr

/-- Per-token accumulator of `Bsv21Indexer.summarize` (the values of the
`tokens` object, lines 90-99). -/
structure TokenAcc where
  sym : Option Str
  icon : Option Str
  dec : Nat
  status : Option TokenStatus
  tokensIn : Int
  tokensOut : Int
deriving DecidableEq, Repr

/-- The fresh accumulator installed when a token id is first seen
(lines 111-120). -/
def initTokenAcc : TokenAcc := ⟨none, none, 0, none, 0, 0⟩

/-- Association-list lookup, modelling JavaScript object property
access `tokens[id]`. -/
def alLookup {β : Type} : List (Str × β) → Str → Option β
  | [], _ => none
  | p :: rest, i => if p.1 = i then some p.2 else alLookup rest i

/-- In-place update of a token accumulator, modelling mutation of the
object stored under a key. -/
def updateTok (tokens : List (Str × TokenAcc)) (i : Str) (f : TokenAcc → TokenAcc) :
    List (Str × TokenAcc) :=
  tokens.map (fun p => if p.1 = i then (p.1, f p.2) else p)

/-- The catch-block mutation of one spend iteration (lines 141-151):
HTTP 404 marks the token `pending`; `tokensIn` accumulates. -/
def bsv21SpendUpdate404 (amt : Int) (t : TokenAcc) : TokenAcc :=
  { t with
      status := some TokenStatus.pending
      tokensIn := t.tokensIn + amt }

/-- The successful-overlay mutation of one spend iteration
(lines 136-151): the first response with `sym` still unset fills
`sym`/`icon`/`dec` (`bsv21OverlayData?.dec || 0`); `tokensIn`
accumulates. -/
def bsv21SpendUpdateFound (odata : Option OverlayTok) (amt : Int) (t : TokenAcc) : TokenAcc :=
  let t1 := if t.sym = none then
      { t with
          sym := odata.bind OverlayTok.sym
          icon := odata.bind OverlayTok.icon
          dec := (odata.map OverlayTok.dec).getD 0 }
    else t
  { t1 with tokensIn := t1.tokensIn + amt }

/-- The input phase of `Bsv21Indexer.summarize` (lines 104-164): for
each input carrying token data, install the accumulator if absent,
consult the overlay (404 marks the token `pending`, other failures
rethrow; the first successful response fills `sym`/`icon`/`dec`) and
accumulate `tokensIn`. -/
def bsv21ProcessSpends (overlay : Str → Str → OverlayResult) :
    List SpendTok → List (Str × TokenAcc) → Except Unit (List (Str × TokenAcc))
  | [], tokens => Except.ok tokens
  | s :: rest, tokens =>
      match s.bsv21 with
      | none => bsv21ProcessSpends overlay rest tokens
      | some d =>
          let tokens1 := if (alLookup tokens d.id).isNone
            then tokens ++ [(d.id, initTokenAcc)] else tokens
          match overlay d.id s.txid with
          | OverlayResult.fail => Except.error ()
          | OverlayResult.notFound =>
              bsv21ProcessSpends overlay rest
                (updateTok tokens1 d.id (bsv21SpendUpdate404 d.amt))
          | OverlayResult.found outputs =>
              let odata := (outputs.find? (fun p => decide (p.1 = s.vout))).bind Prod.snd
              bsv21ProcessSpends overlay rest
                (updateTok tokens1 d.id (bsv21SpendUpdateFound odata d.amt))

/-- The `token.tokensOut += tokenData.amt` mutation (line 176). -/
def bsv21OutUpdate (amt : Int) (t : TokenAcc) : TokenAcc :=
  { t with tokensOut := t.tokensOut + amt }

/-- The first output phase of `Bsv21Indexer.summarize` (lines 167-194):
for each `transfer`/`burn` output, accumulate `tokensOut` and copy the
overlay metadata when its token has inputs, else mark the output
`invalid`. -/
def bsv21ProcessTxos : List OutTok → List (Str × TokenAcc) →
    List (Str × TokenAcc) × List OutTok
  | [], tokens => (tokens, [])
  | o :: rest, tokens =>
      match o.bsv21 with
      | none =>
          let r := bsv21ProcessTxos rest tokens
          (r.1, o :: r.2)
      | some d =>
          if d.op = opTransfer ∨ d.op = opBurn then
            match alLookup tokens d.id with
            | some t =>
                let tokens1 := updateTok tokens d.id (bsv21OutUpdate d.amt)
                let o1 : OutTok :=
                  { o with bsv21 := some { d with sym := t.sym, icon := t.icon, dec := t.dec } }
                let r := bsv21ProcessTxos rest tokens1
                (r.1, o1 :: r.2)
            | none =>
                let o1 : OutTok := { o with bsv21 := some { d with status := TokenStatus.invalid } }
                let r := bsv21ProcessTxos rest tokens
                (r.1, o1 :: r.2)
          else
            let r := bsv21ProcessTxos rest tokens
            (r.1, o :: r.2)

/-- The finalization of one token accumulator (lines 199-205): an
undetermined status becomes `valid` iff `tokensIn ≥ tokensOut`. -/
def bsv21FinalizeAcc (t : TokenAcc) : TokenAcc :=
  if t.status.isNone then
    if t.tokensIn ≥ t.tokensOut then { t with status := some TokenStatus.valid }
    else { t with status := some TokenStatus.invalid }
  else t

/-- The finalization phase of `Bsv21Indexer.summarize` (lines 197-206):
every tracked token accumulator is finalized in place. -/
def bsv21Finalize (tokens : List (Str × TokenAcc)) : List (Str × TokenAcc) :=
  tokens.map (fun p => (p.1, bsv21FinalizeAcc p.2))

/-- The final output phase of `Bsv21Indexer.summarize` (lines 209-220):
`transfer`/`burn` outputs whose tokens were tracked adopt the token
status (`token.status || "pending"`). -/
def bsv21ApplyStatus (tokens : List (Str × TokenAcc)) (txos : List OutTok) : List OutTok :=
  txos.map (fun o =>
    match o.bsv21 with
    | none => o
    | some d =>
        if d.op = opTransfer ∨ d.op = opBurn then
          match alLookup tokens d.id with
          | some t => { o with bsv21 := some { d with status := t.status.getD TokenStatus.pending } }
          | none => o
        else o)

/-- The status/validation logic of `Bsv21Indexer.summarize`
(lines 89-229), composed of its four phases; the overlay service is an
oracle.  The returned `IndexSummary` (owner balance scaled by a
floating-point power of ten) is outside the claim and not modelled; the
function yields the outputs with their final token statuses. -/
def bsv21Summarize (overlay : Str → Str → OverlayResult) (spends : List SpendTok)
    (txos : List OutTok) : Except Unit (List OutTok) :=
  match bsv21ProcessSpends overlay spends [] with
  | Except.error e => Except.error e
  | Except.ok tokens =>
      let r := bsv21ProcessTxos txos tokens
      Except.ok (bsv21ApplyStatus (bsv21Finalize r.1) r.2)

/-- `tokensIn` of the spec: sum of the input token amounts of one id. -/
def bsv21TokensIn (spends : List SpendTok) (i : Str) : Int :=
  (((spends.filterMap SpendTok.bsv21).filter (fun d => decide (d.id = i))).map Bsv21.amt).sum

/-- `tokensOut` of the spec: sum of the `transfer`/`burn` output token
amounts of one id. -/
def bsv21TokensOut (txos : List OutTok) (i : Str) : Int :=
  (((txos.filterMap OutTok.bsv21).filter (fun d =>
      decide (d.id = i) && (decide (d.op = opTransfer) || decide (d.op = opBurn)))).map
    Bsv21.amt).sum

/-- Whether some input of the transaction carries the given token id. -/
def bsv21HasInput (spends : List SpendTok) (i : Str) : Bool :=
  spends.any (fun s => match s.bsv21 with
    | some d => decide (d.id = i)
    | none => false)

/-- Whether the overlay returned 404 for some input carrying the given
token id. -/
def bsv21Had404 (overlay : Str → Str → OverlayResult) (spends : List SpendTok)
    (i : Str) : Bool :=
  spends.any (fun s => match s.bsv21 with
    | some d => decide (d.id = i) && decide (overlay i s.txid = OverlayResult.notFound)
    | none => false)

/-- Token-accumulator presence projection. -/
def tokPresent (tokens : List (Str × TokenAcc)) (i : Str) : Bool :=
  (alLookup tokens i).isSome

/-- Token-accumulator status projection. -/
def tokStatus (tokens : List (Str × TokenAcc)) (i : Str) : Option TokenStatus :=
  (alLookup tokens i).bind TokenAcc.status

/-- Token-accumulator `tokensIn` projection (0 when absent). -/
def tokIn (tokens : List (Str × TokenAcc)) (i : Str) : Int :=
  ((alLookup tokens i).map TokenAcc.tokensIn).getD 0

/-- Token-accumulator `tokensOut` projection (0 when absent). -/
def tokOut (tokens : List (Str × TokenAcc)) (i : Str) : Int :=
  ((alLookup tokens i).map TokenAcc.tokensOut).getD 0

/-- Out-of-range decode result (amount 0) used by the C10 witness. -/
def wDecodedBad : DecodedBsv21 := ⟨some ['t','o','k'], opTransfer, 0, 0, none, none⟩

/-- In-range decode result (amount 5) used by the C10 witness. -/
def wDecodedGood : DecodedBsv21 := ⟨some ['t','o','k'], opTransfer, 5, 0, none, none⟩

/-- Fund address oracle value used by the C10 witness. -/
def wFund : Str := ['f','a','d','d','r']

/-- The parse result of `wDecodedGood` on `wOutpointA0` with no owner. -/
def wParsedRes : Bsv21ParseResult :=
  { data := {
      id := ['t','o','k']
      op := opTransfer
      amt := 5
      dec := 0
      sym := none
      icon := none
      status := TokenStatus.pending
      fundAddress := wFund }
    tags := []
    basket := "bsv21".data }

/-- Overlay oracle for the C6 witness: every call succeeds with no
matching output data. -/
def wOverlay : Str → Str → OverlayResult := fun _ _ => OverlayResult.found []

/-- Token id of the C6 witness. -/
def wTokId : Str := ['t','o','k']

/-- Input token record of the C6 witness (amount 10). -/
def wBsvIn : Bsv21 :=
  { id := wTokId
    op := opTransfer
    amt := 10
    dec := 0
    sym := none
    icon := none
    status := TokenStatus.pending
    fundAddress := [] }

/-- The single spend of the C6 witness. -/
def wSpendTok : SpendTok := { txid := ['x'], vout := 0, owner := none, bsv21 := some wBsvIn }

/-- First output token record of the C6 witness: same id, amount 7. -/
def wBsvOut1 : Bsv21 := { wBsvIn with amt := 7 }

/-- Second output token record of the C6 witness: an id with no inputs. -/
def wBsvOut2 : Bsv21 := { wBsvIn with id := ['n','o'], amt := 1 }

/-- The outputs of the C6 witness. -/
def wTokTxos : List OutTok :=
  [{ owner := none, bsv21 := some wBsvOut1 }, { owner := none, bsv21 := some wBsvOut2 }]

/-- First output token record after summarize: `valid` (10 ≥ 7). -/
def wBsvOut1Fin : Bsv21 := { wBsvOut1 with status := TokenStatus.valid }

/-- Second output token record after summarize: `invalid` (no inputs). -/
def wBsvOut2Fin : Bsv21 := { wBsvOut2 with status := TokenStatus.invalid }

/-- The summarize result of the C6 witness. -/
def wTokTxosFin : List OutTok :=
  [{ owner := none, bsv21 := some wBsvOut1Fin }, { owner := none, bsv21 := some wBsvOut2Fin }]

/-- Inscription file metadata (interface `File` of
`InscriptionIndexer.ts`): hash, size, type and raw content bytes. -/
structure InscFileM where
  hash : Str
  size : Nat
  type : Str
  content : List Nat
deriving DecidableEq, Repr

/-- An inscription (interface `Inscription`), restricted to the fields
`OriginIndexer.resolveOrigins` reads or writes: the file and the claimed
parent outpoint. -/
structure InscM where
  file : Option InscFileM
  parent : Option Str
deriving DecidableEq, Repr

/-- Origin data (interface `Origin` of `OriginIndexer.ts`): outpoint,
nonce, inscription and MAP data.  MAP values are modelled as strings and
the opaque `sigma` field, which `resolveOrigins` never touches, is
omitted. -/
structure OriginM where
  outpoint : Str
  nonce : Nat
  insc : Option InscM
  map : Option (List (Str × Str))
deriving DecidableEq, Repr

/-- The `IndexData` entry stored under the `origin` tag of a txo: parsed
data, tags and cached content. -/
structure OriginEntry where
  data : OriginM
  tags : List Str
  content : Option Str
deriving DecidableEq, Repr

/-- One transaction output as seen by `OriginIndexer.resolveOrigins`:
its outpoint string, satoshis, owner and the `origin`/`insc` data
entries. -/
structure OTxo where
  outpoint : Str
  satoshis : Nat
  owner : Option Str
  origin : Option OriginEntry
  insc : Option InscM
deriving DecidableEq, Repr

/-- One transaction input as seen by `resolveOrigins`: outpoint string
and satoshis. -/
structure OSpend where
  outpoint : Str
  satoshis : Nat
deriving DecidableEq, Repr

/-- OrdFS metadata (`services.ordfs.getMetadata`): origin outpoint,
sequence number, content type/length, parent and MAP data. -/
structure OrdfsMetaM where
  origin : Option Str
  sequence : Nat
  contentType : Str
  contentLength : Nat
  parent : Option Str
  map : Option (List (Str × Str))
deriving DecidableEq, Repr

/-- Outcome of one `ordfs.getMetadata` call: metadata, an HTTP 404, or
another failure (which rethrows). -/
inductive OrdfsRes where
  | ok (m : OrdfsMetaM)
  | notFound
  | fail
deriving DecidableEq, Repr

/-- Sum of the satoshis of a list of inputs. -/
def sumSpendSats (l : List OSpend) : Nat := (l.map OSpend.satoshis).sum

/-- Sum of the satoshis of a list of outputs. -/
def sumTxoSats (l : List OTxo) : Nat := (l.map OTxo.satoshis).sum

/-- `satPositions[vout]` of `resolveOrigins` (lines 142-147): the
cumulative satoshis of all outputs before `vout`. -/
def satsBefore (txos : List OTxo) (vout : Nat) : Nat := sumTxoSats (txos.take vout)

/-- The source-input search loop of `resolveOrigins` (lines 159-176):
walk the inputs accumulating `satsIn`; an input aligned to `outSat` with
exactly 1 satoshi is the source; stop as soon as `satsIn` passes
`outSat`. -/
def findSourceAux : List OSpend → Nat → Nat → Option Str
  | [], _, _ => none
  | sp :: rest, outSat, satsIn =>
      if satsIn = outSat ∧ sp.satoshis = 1 then some sp.outpoint
      else if satsIn + sp.satoshis > outSat then none
      else findSourceAux rest outSat (satsIn + sp.satoshis)

/-- JavaScript `a || b` on an optional string: `b` when `a` is absent or
empty. -/
def jsOrStr (a : Option Str) (b : Str) : Str :=
  match a with
  | none => b
  | some s => if s.isEmpty then b else s

/-- JavaScript object spread `{ ...a, ...b }` on MAP data (line 188):
keys of `a` in order with values overridden by `b`, then keys of `b` not
in `a`. -/
def mergeMaps (a b : List (Str × Str)) : List (Str × Str) :=
  a.map (fun p =>
    match alLookup b p.1 with
    | some v => (p.1, v)
    | none => p) ++
    b.filter (fun p => (alLookup a p.1).isNone)

/-- Lower-casing of a string (`toLowerCase`). -/
def toLowerStr (s : Str) : Str := s.map Char.toLower

/-- Whether OrdFS content qualifies as text (lines 204-207). -/
def isTextType (t : Str) : Bool :=
  strStarts (toLowerStr t) "text/".data || decide (toLowerStr t = "application/json".data)

/-- The transfer mutation of `resolveOrigins` (lines 183-189):
`origin.outpoint = metadata.origin || sourceOutpoint`,
`origin.nonce = metadata.sequence + 1`, and MAP merge when the metadata
carries MAP data. -/
def originTransferUpdate (m : OrdfsMetaM) (src : Str) (origin0 : OriginM) : OriginM :=
  { origin0 with
      outpoint := jsOrStr m.origin src
      nonce := m.sequence + 1
      map := match m.map with
        | some im => some (mergeMaps im (origin0.map.getD []))
        | none => origin0.map }

/-- The placeholder inscription built from OrdFS metadata when the
output has none of its own (lines 194-201). -/
def inscFromMeta (m : OrdfsMetaM) : InscM :=
  { file := some { hash := [], size := m.contentLength, type := m.contentType, content := [] }
    parent := none }

/-- The inscription/content handling of the transfer branch
(lines 193-220): when the output has no inscription, install one from
the metadata and, for small text content, fetch it (errors ignored). -/
def resolveInsc (ordfsContent : Str → Option Str) (m : OrdfsMetaM) (src : Str)
    (o1 : OriginM) (oldContent : Option Str) : OriginM × Option Str :=
  match o1.insc with
  | some _ => (o1, oldContent)
  | none =>
      let o2 := { o1 with insc := some (inscFromMeta m) }
      if isTextType m.contentType = true ∧ m.contentLength ≤ 1000 then
        match ordfsContent (if o1.outpoint.isEmpty then src else o1.outpoint) with
        | some s => (o2, some s)
        | none => (o2, oldContent)
      else (o2, oldContent)

/-- The transfer/new-origin phase of one output (lines 159-232): find an
aligned 1-satoshi source input; on success consult OrdFS (404 falls back
to a new origin, other failures rethrow); otherwise the output is its
own origin. -/
def resolveStep1 (ordfsMeta : Str → OrdfsRes) (ordfsContent : Str → Option Str)
    (spends : List OSpend) (outSat : Nat) (ownOutpoint : Str) (origin0 : OriginM)
    (oldContent : Option Str) : Except Unit (OriginM × Option Str) :=
  match findSourceAux spends outSat 0 with
  | some src =>
      match ordfsMeta src with
      | OrdfsRes.fail => Except.error ()
      | OrdfsRes.notFound => Except.ok ({ origin0 with outpoint := ownOutpoint }, oldContent)
      | OrdfsRes.ok m =>
          Except.ok (resolveInsc ordfsContent m src (originTransferUpdate m src origin0)
            oldContent)
  | none => Except.ok ({ origin0 with outpoint := ownOutpoint }, oldContent)

/-- Clearing of an unverifiable parent claim (lines 243-252). -/
def clearParent (o : OriginM) : OriginM :=
  match o.insc with
  | some i => { o with insc := some { i with parent := none } }
  | none => o

/-- The parent-validation phase (lines 234-257): when the output's own
inscription claims a parent, check it against the OrdFS metadata of this
outpoint; a mismatch or a 404 clears the parent, other failures
rethrow. -/
def originParentCheck (ordfsMeta : Str → OrdfsRes) (ownOutpoint : Str)
    (inscParent : Option Str) (o1 : OriginM) : Except Unit OriginM :=
  match inscParent with
  | some p =>
      if p.isEmpty then Except.ok o1
      else
        match ordfsMeta ownOutpoint with
        | OrdfsRes.fail => Except.error ()
        | OrdfsRes.notFound => Except.ok (clearParent o1)
        | OrdfsRes.ok m2 => if m2.parent = some p then Except.ok o1 else Except.ok (clearParent o1)
  | none => Except.ok o1

/-- Clearing of large file content (lines 259-262). -/
def clearLargeContent (o : OriginM) : OriginM :=
  match o.insc with
  | some i =>
      match i.file with
      | some f =>
          if f.size > 4096 then
            { o with insc := some { i with file := some { f with content := [] } } }
          else o
      | none => o
  | none => o

/-- Splitting of a string at a separator character (`split`). -/
def splitOnCharAux (c : Char) : Str → Str → List Str
  | [], acc => [acc.reverse]
  | x :: xs, acc =>
      if x = c then acc.reverse :: splitOnCharAux c xs []
      else splitOnCharAux c xs (x :: acc)

/-- `s.split(sep)` for a single-character separator. -/
def splitOnChar (c : Char) (s : Str) : List Str := splitOnCharAux c s []

/-- `trim`: strip leading and trailing whitespace. -/
def trimStr (s : Str) : Str :=
  ((s.dropWhile Char.isWhitespace).reverse.dropWhile Char.isWhitespace).reverse

/-- The tag computation for owned outputs (lines 265-282): the origin
tag, content-type tags and a name tag from MAP data (the nested
`subTypeData` name fallback is outside the string-valued MAP model). -/
def originTags (owners : List Str) (txo : OTxo) (o : OriginM) : List Str :=
  match txo.owner with
  | some ow =>
      if ow ∈ owners then
        ("origin:".data ++ o.outpoint) ::
          ((match o.insc with
            | some i =>
                match i.file with
                | some f =>
                    if f.type.isEmpty then []
                    else
                      ("type:".data ++
                          ((splitOnChar '/' (trimStr ((splitOnChar ';' f.type).headD f.type))).headD
                            (trimStr ((splitOnChar ';' f.type).headD f.type)))) ::
                        [("type:".data ++ trimStr ((splitOnChar ';' f.type).headD f.type))]
                | none => []
            | none => []) ++
            (match o.map with
              | some mp =>
                  match alLookup mp "name".data with
                  | some nm => if nm.isEmpty then [] else [("name:".data ++ nm)]
                  | none => []
              | none => []))
      else []
  | none => []

/-- Processing of one output by `resolveOrigins` (lines 150-283): the
transfer/new-origin phase, parent validation, large-content clearing and
tagging.  Outputs without origin data are skipped (line 153). -/
def resolveOne (ordfsMeta : Str → OrdfsRes) (ordfsContent : Str → Option Str)
    (owners : List Str) (spends : List OSpend) (outSat : Nat) (txo : OTxo) :
    Except Unit OTxo :=
  match txo.origin with
  | none => Except.ok txo
  | some od =>
      match resolveStep1 ordfsMeta ordfsContent spends outSat txo.outpoint od.data od.content with
      | Except.error e => Except.error e
      | Except.ok (o1, c1) =>
          match originParentCheck ordfsMeta txo.outpoint (txo.insc.bind InscM.parent) o1 with
          | Except.error e => Except.error e
          | Except.ok o2 =>
              let o3 := clearLargeContent o2
              let od' : OriginEntry :=
                { data := o3, tags := od.tags ++ originTags owners txo o3, content := c1 }
              Except.ok { txo with origin := some od' }

/-- The output loop of `resolveOrigins` with the cumulative satoshi
position threaded through. -/
def resolveOriginsAux (ordfsMeta : Str → OrdfsRes) (ordfsContent : Str → Option Str)
    (owners : List Str) (spends : List OSpend) : List OTxo → Nat → Except Unit (List OTxo)
  | [], _ => Except.ok []
  | txo :: rest, cum =>
      match resolveOne ordfsMeta ordfsContent owners spends cum txo with
      | Except.error e => Except.error e
      | Except.ok txo' =>
          match resolveOriginsAux ordfsMeta ordfsContent owners spends rest
            (cum + txo.satoshis) with
          | Except.error e => Except.error e
          | Except.ok rest' => Except.ok (txo' :: rest')

/-- `OriginIndexer.resolveOrigins` (lines 140-284) over a parse context
given as the spend and output lists, with the OrdFS services as oracles
(`getContent` returns the decoded text or nothing). -/
def resolveOrigins (ordfsMeta : Str → OrdfsRes) (ordfsContent : Str → Option Str)
    (owners : List Str) (spends : List OSpend) (txos : List OTxo) :
    Except Unit (List OTxo) :=
  resolveOriginsAux ordfsMeta ordfsContent owners spends txos 0

/-- The single 1-satoshi input of the C7 witness. -/
def wOSpends : List OSpend := [{ outpoint := ['i','0'], satoshis := 1 }]

/-- MAP data of the C7 witness output (key `b`). -/
def wOrigMap : List (Str × Str) := [(['b'], ['9'])]

/-- Origin placeholder of the C7 witness output, as left by `parse`. -/
def wOrigM : OriginM := { outpoint := [], nonce := 0, insc := none, map := some wOrigMap }

/-- Origin entry of the C7 witness output. -/
def wOrigEntry : OriginEntry := { data := wOrigM, tags := [], content := none }

/-- The C7 witness output: one satoshi at position 0. -/
def wOTxo : OTxo :=
  { outpoint := ['o','0'], satoshis := 1, owner := none, origin := some wOrigEntry, insc := none }

/-- Output list of the C7 witness. -/
def wOTxos : List OTxo := [wOTxo]

/-- OrdFS metadata of the C7 witness source outpoint: origin `OG`,
sequence 4, inherited MAP with keys `a` and `b`. -/
def wOrdfsM : OrdfsMetaM :=
  { origin := some ['O','G']
    sequence := 4
    contentType := ['i','m','g']
    contentLength := 10
    parent := none
    map := some [(['a'], ['1']), (['b'], ['2'])] }

/-- OrdFS metadata oracle of the C7 witness. -/
def wOrdfsMeta : Str → OrdfsRes :=
  fun s => if s = ['i','0'] then OrdfsRes.ok wOrdfsM else OrdfsRes.notFound

/-- OrdFS content oracle of the C7 witness: nothing fetched. -/
def wOrdfsContent : Str → Option Str := fun _ => none

/-- Resolved origin data of the C7 witness output: a transfer with
outpoint `OG`, nonce 5, an inscription from the metadata and the merged
MAP (`b` overridden by the current output). -/
def wOrigMFin : OriginM :=
  { outpoint := ['O','G']
    nonce := 5
    insc := some { file := some { hash := [], size := 10, type := ['i','m','g'], content := [] }
                   parent := none }
    map := some [(['a'], ['1']), (['b'], ['9'])] }

/-- Resolved origin entry of the C7 witness output. -/
def wOrigEntryFin : OriginEntry := { data := wOrigMFin, tags := [], content := none }

/-- The `resolveOrigins` result of the C7 witness. -/
def wOTxosFin : List OTxo := [{ wOTxo with origin := some wOrigEntryFin }]

/-- A row of the `transactions` table, with the fields
`OneSatWallet.ingestTransaction` writes. -/
structure TransactionRow where
  transactionId : Nat
  userId : Nat
  txid : Str
  status : Str
  reference : Str
  isOutgoing : Bool
  satoshis : Int
  description : Str
  version : Nat
  lockTime : Nat
  rawTx : List Nat
  createdAt : Nat
  updatedAt : Nat
deriving DecidableEq, Repr

/-- A row of the `outputs` table. -/
structure OutputRow where
  outputId : Nat
  userId : Nat
  transactionId : Nat
  basketId : Nat
  spendable : Bool
  change : Bool
  outputDescription : Str
  vout : Nat
  satoshis : Nat
  providedBy : Str
  purpose : Str
  type : Str
  txid : Str
  lockingScript : List Nat
  spentBy : Option Nat
  customInstructions : Option Str
  createdAt : Nat
  updatedAt : Nat
deriving DecidableEq, Repr

/-- A row of the `output_baskets` table. -/
structure BasketRow where
  basketId : Nat
  userId : Nat
  name : Str
deriving DecidableEq, Repr

/-- A row of the `output_tags` table. -/
structure TagRow where
  outputTagId : Nat
  userId : Nat
  tag : Str
deriving DecidableEq, Repr

/-- A row of the `output_tags_map` table. -/
structure TagMapRow where
  outputId : Nat
  outputTagId : Nat
deriving DecidableEq, Repr

/-- A row of the `tx_labels` table. -/
structure LabelRow where
  txLabelId : Nat
  userId : Nat
  label : Str
deriving DecidableEq, Repr

/-- A row of the `tx_labels_map` table. -/
structure LabelMapRow where
  transactionId : Nat
  txLabelId : Nat
deriving DecidableEq, Repr

/-- The wallet storage tables touched by `ingestTransaction`, with a
single id counter standing for the databases' auto-increment ids. -/
structure Storage where
  txs : List TransactionRow
  outputs : List OutputRow
  baskets : List BasketRow
  outputTags : List TagRow
  outputTagMaps : List TagMapRow
  txLabels : List LabelRow
  txLabelMaps : List LabelMapRow
  nextId : Nat
deriving DecidableEq, Repr

mutual
inductive TxM where
  | mk (txid : Str) (version : Nat) (lockTime : Nat) (raw : List Nat) (inputs : List TxInM)
inductive TxInM where
  | mk (sourceTXID : Option Str) (sourceOutputIndex : Nat) (sourceTransaction : Option TxM)
end

def TxM.txid : TxM → Str
  | TxM.mk t _ _ _ _ => t

def TxM.version : TxM → Nat
  | TxM.mk _ v _ _ _ => v

def TxM.lockTime : TxM → Nat
  | TxM.mk _ _ l _ _ => l

def TxM.raw : TxM → List Nat
  | TxM.mk _ _ _ r _ => r

def TxM.inputs : TxM → List TxInM
  | TxM.mk _ _ _ _ i => i

def TxInM.sourceTXID : TxInM → Option Str
  | TxInM.mk s _ _ => s

def TxInM.sourceOutputIndex : TxInM → Nat
  | TxInM.mk _ v _ => v

def TxInM.sourceTransaction : TxInM → Option TxM
  | TxInM.mk _ _ s => s

mutual
def txMSize : TxM → Nat
  | TxM.mk _ _ _ _ inputs => 1 + txInListSize inputs
def txInSize : TxInM → Nat
  | TxInM.mk _ _ none => 1
  | TxInM.mk _ _ (some s) => 1 + txMSize s
def txInListSize : List TxInM → Nat
  | [] => 0
  | i :: rest => txInSize i + txInListSize rest
end

/-- One indexer data entry of a parsed output (tags and cached
content). -/
structure TxIndexData where
  tags : List Str
  content : Option Str
deriving DecidableEq, Repr

/-- A parsed output as consumed by the storage-writing phase of
`ingestTransaction`: vout, satoshis, owner, locking script, basket and
per-indexer data.  The parse phase itself (indexers and services) is
outside the claim and supplied as this context. -/
structure TxoM where
  vout : Nat
  satoshis : Nat
  owner : Option Str
  lockingScript : List Nat
  basket : Option Str
  data : List TxIndexData
deriving DecidableEq, Repr

/-- `sp.findTransactions({partial: {userId, txid}})`. -/
def findTransactions (st : Storage) (u : Nat) (t : Str) : List TransactionRow :=
  st.txs.filter (fun r => decide (r.userId = u) && decide (r.txid = t))

/-- `sp.insertTransaction`: append the row with a fresh id, returning
it. -/
def insertTx (st : Storage) (row : TransactionRow) : Storage × Nat :=
  ({ st with
      txs := st.txs ++ [{ row with transactionId := st.nextId }]
      nextId := st.nextId + 1 }, st.nextId)

/-- `sp.findOutputs({partial: {userId, txid, vout}})`. -/
def findOutputs (st : Storage) (u : Nat) (t : Str) (v : Nat) : List OutputRow :=
  st.outputs.filter (fun r =>
    decide (r.userId = u) && decide (r.txid = t) && decide (r.vout = v))

/-- `sp.insertOutput`: append the row with a fresh id, returning it. -/
def insertOutput (st : Storage) (row : OutputRow) : Storage × Nat :=
  ({ st with
      outputs := st.outputs ++ [{ row with outputId := st.nextId }]
      nextId := st.nextId + 1 }, st.nextId)

/-- `sp.updateOutput(outputId, {spendable: false, spentBy})`. -/
def updateOutput (st : Storage) (oid : Nat) (spentBy : Nat) : Storage :=
  { st with outputs := st.outputs.map (fun r =>
      if r.outputId = oid then { r with spendable := false, spentBy := some spentBy } else r) }

/-- `sp.findOrInsertOutputBasket(userId, name)`. -/
def findOrInsertBasket (st : Storage) (u : Nat) (name : Str) : Storage × Nat :=
  match st.baskets.find? (fun b => decide (b.userId = u) && decide (b.name = name)) with
  | some b => (st, b.basketId)
  | none =>
      ({ st with
          baskets := st.baskets ++ [{ basketId := st.nextId, userId := u, name := name }]
          nextId := st.nextId + 1 }, st.nextId)

/-- `sp.findOrInsertOutputTag(userId, tag)`. -/
def findOrInsertTag (st : Storage) (u : Nat) (tg : Str) : Storage × Nat :=
  match st.outputTags.find? (fun b => decide (b.userId = u) && decide (b.tag = tg)) with
  | some b => (st, b.outputTagId)
  | none =>
      ({ st with
          outputTags := st.outputTags ++ [{ outputTagId := st.nextId, userId := u, tag := tg }]
          nextId := st.nextId + 1 }, st.nextId)

/-- `sp.findOrInsertOutputTagMap(outputId, outputTagId)`. -/
def findOrInsertTagMap (st : Storage) (oid tid : Nat) : Storage :=
  if st.outputTagMaps.any (fun m => decide (m.outputId = oid) && decide (m.outputTagId = tid))
  then st
  else { st with outputTagMaps := st.outputTagMaps ++ [{ outputId := oid, outputTagId := tid }] }

/-- `sp.findOrInsertTxLabel(userId, label)`. -/
def findOrInsertTxLabel (st : Storage) (u : Nat) (l : Str) : Storage × Nat :=
  match st.txLabels.find? (fun b => decide (b.userId = u) && decide (b.label = l)) with
  | some b => (st, b.txLabelId)
  | none =>
      ({ st with
          txLabels := st.txLabels ++ [{ txLabelId := st.nextId, userId := u, label := l }]
          nextId := st.nextId + 1 }, st.nextId)

/-- `sp.findOrInsertTxLabelMap(transactionId, txLabelId)`. -/
def findOrInsertTxLabelMap (st : Storage) (tid lid : Nat) : Storage :=
  if st.txLabelMaps.any (fun m => decide (m.transactionId = tid) && decide (m.txLabelId = lid))
  then st
  else { st with txLabelMaps := st.txLabelMaps ++ [{ transactionId := tid, txLabelId := lid }] }

/-- The outgoing check of `ingestTransaction` (lines 533-551): scan
inputs with a stored source outpoint row, accumulating `isOutgoing` and
`satoshisSpent`. -/
def computeOutgoing (st : Storage) (u : Nat) : List TxInM → Bool → Nat → Bool × Nat
  | [], og, sp => (og, sp)
  | i :: rest, og, sp =>
      match i.sourceTXID with
      | none => computeOutgoing st u rest og sp
      | some stx =>
          if stx.isEmpty then computeOutgoing st u rest og sp
          else
            match findOutputs st u stx i.sourceOutputIndex with
            | [] => computeOutgoing st u rest og sp
            | o :: _ => computeOutgoing st u rest true (sp + o.satoshis)

/-- The transaction row built for a persisted source transaction
(lines 600-617). -/
def sourceTxRow (u : Nat) (now : Nat) (ref : Str) (s : TxM) : TransactionRow :=
  { transactionId := 0
    userId := u
    txid := s.txid
    status := "completed".data
    reference := ref
    isOutgoing := false
    satoshis := 0
    description := "source transaction".data
    version := s.version
    lockTime := s.lockTime
    rawTx := s.raw
    createdAt := now
    updatedAt := now }

/-- The source-transaction persistence queue of `ingestTransaction`
(lines 587-621): inputs carrying a source transaction are inserted when
missing and their own inputs appended to the queue; the randomness
oracle `refs` is keyed by the id counter. -/
def persistSources (u : Nat) (now : Nat) (refs : Nat → Str) :
    List TxInM → Storage → Storage
  | [], st => st
  | TxInM.mk _ _ none :: rest, st => persistSources u now refs rest st
  | TxInM.mk _ _ (some s) :: rest, st =>
      if (findTransactions st u s.txid).length > 0 then
        persistSources u now refs rest st
      else
        persistSources u now refs (rest ++ s.inputs)
          (insertTx st (sourceTxRow u now (refs st.nextId) s)).1
termination_by q _ => txInListSize q
decreasing_by
  · simp only [txInListSize, txInSize]
    omega
  · simp only [txInListSize, txInSize]
    omega
  · have happ : ∀ a b : List TxInM, txInListSize (a ++ b) = txInListSize a + txInListSize b := by
      intro a b
      induction a with
      | nil => simp [txInListSize]
      | cons x xs ihx =>
          rw [List.cons_append, txInListSize, txInListSize, ihx, Nat.add_assoc]
    cases s with
    | mk t v l r inputs =>
        rw [happ]
        simp only [txInListSize, txInSize, txMSize, TxM.inputs]
        omega


/-- The label loop of `ingestTransaction` (lines 624-634). -/
def applyLabels (u : Nat) (txId : Nat) : List Str → Storage → Storage
  | [], st => st
  | l :: rest, st =>
      let r := findOrInsertTxLabel st u l
      if r.2 ≠ 0 then applyLabels u txId rest (findOrInsertTxLabelMap r.1 txId r.2)
      else applyLabels u txId rest r.1

/-- The spent-input patch loop of `ingestTransaction` (lines 637-664),
run only for newly inserted transactions. -/
def flipSpends (u : Nat) (txId : Nat) : List TxInM → Storage → Storage
  | [], st => st
  | i :: rest, st =>
      match i.sourceTXID with
      | none => flipSpends u txId rest st
      | some stx =>
          if stx.isEmpty then flipSpends u txId rest st
          else
            match findOutputs st u stx i.sourceOutputIndex with
            | [] => flipSpends u txId rest st
            | o :: _ =>
                if o.outputId ≠ 0 then flipSpends u txId rest (updateOutput st o.outputId txId)
                else flipSpends u txId rest st

/-- Whether a parsed output is owned (line 508: truthy owner contained
in the wallet's owner set). -/
def isOwned (owners : List Str) (t : TxoM) : Bool :=
  match t.owner with
  | some ow => !ow.isEmpty && decide (ow ∈ owners)
  | none => false

/-- `txo.basket || "default"` (line 698). -/
def basketNameOf (t : TxoM) : Str :=
  match t.basket with
  | some b => if b.isEmpty then "default".data else b
  | none => "default".data

/-- The `own:` tag plus the tags of all indexer data entries
(lines 683-696). -/
def txoTags (t : TxoM) : List Str :=
  (match t.owner with
    | some ow => if ow.isEmpty then [] else [("own:".data ++ ow)]
    | none => []) ++
    (t.data.map TxIndexData.tags).flatten

/-- The first truthy content among the indexer data entries
(lines 692-695). -/
def firstContent : List TxIndexData → Option Str
  | [] => none
  | d :: rest =>
      match d.content with
      | some c => if c.isEmpty then firstContent rest else some c
      | none => firstContent rest

/-- The tag loop run after inserting an output (lines 731-745). -/
def applyTags (u : Nat) (oid : Nat) : List Str → Storage → Storage
  | [], st => st
  | tg :: rest, st =>
      let r := findOrInsertTag st u tg
      if r.2 ≠ 0 then applyTags u oid rest (findOrInsertTagMap r.1 oid r.2)
      else applyTags u oid rest r.1

/-- The output row built for an owned output (lines 705-726). -/
def newOutputRow (u : Nat) (txid : Str) (txId : Nat) (now : Nat) (bname : Str)
    (bid : Nat) (t : TxoM) : OutputRow :=
  { outputId := 0
    userId := u
    transactionId := txId
    basketId := bid
    spendable := true
    change := decide (bname = "default".data)
    outputDescription := []
    vout := t.vout
    satoshis := t.satoshis
    providedBy := "you".data
    purpose := if bname = "default".data then "change".data else []
    type := "custom".data
    txid := txid
    lockingScript := t.lockingScript
    spentBy := none
    customInstructions := (firstContent t.data).map (List.take 1000)
    createdAt := now
    updatedAt := now }

/-- The owned-output loop of `ingestTransaction` (lines 667-748):
outputs whose `(userId, txid, vout)` row exists are skipped; otherwise
basket, output row and tags are written and the counter incremented. -/
def processOwned (u : Nat) (txid : Str) (txId : Nat) (now : Nat) :
    List TxoM → Storage → Nat → Storage × Nat
  | [], st, acc => (st, acc)
  | t :: rest, st, acc =>
      if (findOutputs st u txid t.vout).length > 0 then
        processOwned u txid txId now rest st acc
      else
        let bname := basketNameOf t
        let rb := findOrInsertBasket st u bname
        let ri := insertOutput rb.1 (newOutputRow u txid txId now bname rb.2 t)
        let st2 := applyTags u ri.2 (txoTags t) ri.1
        processOwned u txid txId now rest st2 (acc + 1)

/-- The transaction row built for the ingested transaction
(lines 567-585). -/
def newTxRow (u : Nat) (txid : Str) (now : Nat) (ref : Str) (isBroadcasted : Bool)
    (isOutgoing : Bool) (satoshis : Int) (description : Str) (tx : TxM) : TransactionRow :=
  { transactionId := 0
    userId := u
    txid := txid
    status := if isBroadcasted then "completed".data else "unproven".data
    reference := ref
    isOutgoing := isOutgoing
    satoshis := satoshis
    description := description
    version := tx.version
    lockTime := tx.lockTime
    rawTx := tx.raw
    createdAt := now
    updatedAt := now }

/-- The storage-writing phase of `OneSatWallet.ingestTransaction`
(lines 497-758): reuse or insert the transaction row (computing
outgoing state, persisting sources and labels only on insert), patch
spent inputs only for a new row, then write the owned outputs.  The
parse context, clock and randomness are parameters; the result pairs
the storage with `internalizedCount`. -/
def ingestTransaction (u : Nat) (owners : List Str) (tx : TxM) (ctx : List TxoM)
    (description : Str) (labels : Option (List Str)) (isBroadcasted : Bool)
    (now : Nat) (refs : Nat → Str) (st0 : Storage) : Storage × Nat :=
  let txid := tx.txid
  let ownedTxos := ctx.filter (isOwned owners)
  match findTransactions st0 u txid with
  | r :: _ => processOwned u txid r.transactionId now ownedTxos st0 0
  | [] =>
      let og := computeOutgoing st0 u tx.inputs false 0
      let received : Nat := (ownedTxos.map TxoM.satoshis).sum
      let satoshis : Int := (received : Int) - (og.2 : Int)
      let ri := insertTx st0
        (newTxRow u txid now (refs st0.nextId) isBroadcasted og.1 satoshis description tx)
      let st1 := persistSources u now refs tx.inputs ri.1
      let st2 := applyLabels u ri.2 (labels.getD []) st1
      let st3 := flipSpends u ri.2 tx.inputs st2
      processOwned u txid ri.2 now ownedTxos st3 0

theorem strStarts_iff {s p : Str} : strStarts s p = true ↔ s.take p.length = p := by
  simp [strStarts]

theorem strStarts_txidOf (o : Str) : strStarts o (txidOf o) = true := by
  rw [strStarts_iff, txidOf, List.length_take, List.take_eq_take]
  rw [min_assoc, min_self]

theorem txidOf_eq_of_starts {o t : Str} (ht : t.length = 64) (h : strStarts o t = true) :
    txidOf o = t := by
  rw [strStarts_iff] at h
  rw [txidOf, ← ht, h]

theorem length_txidOf_of_le {o : Str} (h : 64 ≤ o.length) : (txidOf o).length = 64 := by
  simp [txidOf, List.length_take]
  omega

theorem claimedItem_id (now : Nat) (r : QueueRow) : (claimedItem now r).id = r.id := rfl

theorem claimedItem_outpoint (now : Nat) (r : QueueRow) :
    (claimedItem now r).outpoint = r.outpoint := rfl

theorem mem_jsDedupAux {a : Str} :
    ∀ {l seen : List Str}, a ∈ jsDedupAux seen l ↔ a ∈ l ∧ a ∉ seen := by
  intro l
  induction l with
  | nil => intro seen; simp [jsDedupAux]
  | cons b rest ih =>
      intro seen
      by_cases hb : b ∈ seen
      · rw [jsDedupAux, if_pos hb, ih]
        simp only [List.mem_cons]
        constructor
        · rintro ⟨hr, hs⟩; exact ⟨Or.inr hr, hs⟩
        · rintro ⟨hba, hs⟩
          rcases hba with hba | hr
          · exact absurd (hba ▸ hb) hs
          · exact ⟨hr, hs⟩
      · rw [jsDedupAux, if_neg hb]
        simp only [List.mem_cons, ih, List.mem_append, List.mem_singleton]
        constructor
        · rintro (rfl | ⟨hr, hs⟩)
          · exact ⟨Or.inl rfl, hb⟩
          · exact ⟨Or.inr hr, fun hx => hs (Or.inl hx)⟩
        · rintro ⟨hba, hs⟩
          rcases hba with rfl | hr
          · exact Or.inl rfl
          · by_cases hab : a = b
            · exact Or.inl hab
            · refine Or.inr ⟨hr, fun hx => ?_⟩
              rcases hx with hx | hx
              · exact hs hx
              · rcases hx with hx | hx
                · exact hab hx
                · simp at hx

theorem nodup_jsDedupAux : ∀ (l seen : List Str), (jsDedupAux seen l).Nodup := by
  intro l
  induction l with
  | nil => intro seen; simp [jsDedupAux]
  | cons b rest ih =>
      intro seen
      by_cases hb : b ∈ seen
      · rw [jsDedupAux, if_pos hb]; exact ih seen
      · rw [jsDedupAux, if_neg hb, List.nodup_cons]
        refine ⟨fun hmem => ?_, ih _⟩
        rcases mem_jsDedupAux.mp hmem with ⟨_, hs⟩
        exact hs (by simp)

theorem mem_jsDedup {a : Str} {l : List Str} : a ∈ jsDedup l ↔ a ∈ l := by
  unfold jsDedup
  rw [mem_jsDedupAux]
  simp

theorem nodup_jsDedup (l : List Str) : (jsDedup l).Nodup := nodup_jsDedupAux l []

theorem map_fst_filterMap_sublist {β : Type} (f : Str → Option (Str × β)) (l : List Str)
    (hf : ∀ t p, f t = some p → p.1 = t) : ((l.filterMap f).map Prod.fst).Sublist l := by
  induction l with
  | nil => simp
  | cons a l ih =>
      cases hfa : f a with
      | none =>
          rw [List.filterMap_cons, hfa]
          exact ih.cons a
      | some p =>
          rw [List.filterMap_cons, hfa, List.map_cons]
          have := hf a p hfa
          rw [this]
          exact ih.cons₂ a

theorem mem_putRow {q : List QueueRow} {row r : QueueRow} (h : r ∈ putRow q row) :
    r = row ∨ (r ∈ q ∧ r.id ≠ row.id) := by
  unfold putRow at h
  by_cases hany : q.any (fun x => decide (x.id = row.id)) = true
  · rw [if_pos hany] at h
    rcases List.mem_map.mp h with ⟨x, hx, hxr⟩
    by_cases hid : x.id = row.id
    · rw [if_pos hid] at hxr; exact Or.inl hxr.symm
    · rw [if_neg hid] at hxr; exact Or.inr ⟨hxr ▸ hx, hxr ▸ hid⟩
  · rw [if_neg hany] at h
    rcases List.mem_append.mp h with hq | hr
    · refine Or.inr ⟨hq, fun hid => hany ?_⟩
      exact List.any_eq_true.mpr ⟨r, hq, by simp [hid]⟩
    · exact Or.inl (List.mem_singleton.mp hr)

theorem mem_markProcessing {now : Nat} :
    ∀ {items q : List QueueRow} {r : QueueRow},
      r ∈ IndexedDbSyncQueue.markProcessing now items q →
      (∃ it ∈ items, r = claimedItem now it) ∨
        (r ∈ q ∧ ∀ it ∈ items, r.id ≠ it.id) := by
  intro items
  induction items with
  | nil => intro q r h; exact Or.inr ⟨h, by simp⟩
  | cons it rest ih =>
      intro q r h
      have h' : r ∈ IndexedDbSyncQueue.markProcessing now rest (putRow q (claimedItem now it)) := h
      rcases ih h' with ⟨it', hit', hr⟩ | ⟨hmem, hids⟩
      · exact Or.inl ⟨it', List.mem_cons_of_mem _ hit', hr⟩
      · rcases mem_putRow hmem with hr | ⟨hq, hid⟩
        · exact Or.inl ⟨it, List.mem_cons_self _ _, hr⟩
        · refine Or.inr ⟨hq, fun x hx => ?_⟩
          rcases List.mem_cons.mp hx with rfl | hx'
          · exact fun he => hid (by rw [he, claimedItem_id])
          · exact hids x hx'

theorem mem_pendingRowsOfTxid {q : List QueueRow} {t : Str} {r : QueueRow} :
    r ∈ pendingRowsOfTxid q t ↔
      r ∈ q ∧ strStarts r.outpoint t = true ∧ r.status = QStatus.pending := by
  simp [pendingRowsOfTxid, List.mem_filter]

theorem mem_claimGroups {now : Nat} {q : List QueueRow} {txids : List Str}
    {g : Str × List QueueRow} :
    g ∈ claimGroups now q txids ↔
      g.1 ∈ txids ∧ ¬(pendingRowsOfTxid q g.1).isEmpty = true ∧
        g = (g.1, (pendingRowsOfTxid q g.1).map (claimedItem now)) := by
  unfold claimGroups
  rw [List.mem_filterMap]
  constructor
  · rintro ⟨t, ht, hft⟩
    by_cases he : (pendingRowsOfTxid q t).isEmpty = true
    · rw [if_pos he] at hft; cases hft
    · rw [if_neg he] at hft
      have hg : (t, (pendingRowsOfTxid q t).map (claimedItem now)) = g :=
        Option.some.injEq _ _ ▸ hft
      have h1 : g.1 = t := by rw [← hg]
      subst h1
      exact ⟨ht, he, hg.symm⟩
  · rintro ⟨ht, he, hg⟩
    exact ⟨g.1, ht, by rw [if_neg he, ← hg]⟩

theorem claimGroups_item_spec {now : Nat} {q : List QueueRow} {txids : List Str}
    (hlen : ∀ t ∈ txids, t.length = 64) :
    ∀ g ∈ claimGroups now q txids, ∀ it ∈ g.2,
      it.status = QStatus.processing ∧
      (∃ r ∈ q, r.status = QStatus.pending ∧ it = claimedItem now r) ∧
      txidOf it.outpoint = g.1 := by
  intro g hg it hit
  rcases mem_claimGroups.mp hg with ⟨ht, _, hgdef⟩
  rw [hgdef] at hit
  rcases List.mem_map.mp hit with ⟨r, hr, rfl⟩
  rcases mem_pendingRowsOfTxid.mp hr with ⟨hrq, hstart, hpend⟩
  refine ⟨rfl, ⟨r, hrq, hpend, rfl⟩, ?_⟩
  rw [claimedItem_outpoint]
  exact txidOf_eq_of_starts (hlen _ ht) hstart

theorem claimGroups_keys_nodup {now : Nat} {q : List QueueRow} {txids : List Str}
    (hnd : txids.Nodup) : ((claimGroups now q txids).map Prod.fst).Nodup := by
  refine hnd.sublist (map_fst_filterMap_sublist _ _ ?_)
  intro t p hfp
  by_cases he : (pendingRowsOfTxid q t).isEmpty = true
  · rw [if_pos he] at hfp; cases hfp
  · rw [if_neg he] at hfp
    have : (t, (pendingRowsOfTxid q t).map (claimedItem now)) = p :=
      Option.some.injEq _ _ ▸ hfp
    rw [← this]

theorem claimGroups_complete {now : Nat} {q : List QueueRow} {txids : List Str}
    {g : Str × List QueueRow} {r : QueueRow} (hg : g ∈ claimGroups now q txids)
    (hrq : r ∈ q) (hpend : r.status = QStatus.pending)
    (ht : txidOf r.outpoint = g.1) : claimedItem now r ∈ g.2 := by
  rcases mem_claimGroups.mp hg with ⟨_, _, hgdef⟩
  rw [hgdef]
  refine List.mem_map.mpr ⟨r, ?_, rfl⟩
  exact mem_pendingRowsOfTxid.mpr ⟨hrq, ht ▸ strStarts_txidOf r.outpoint, hpend⟩

theorem seed_txids_len {count : Nat} {q : List QueueRow}
    (hwf : ∀ r ∈ q, 64 ≤ r.outpoint.length) :
    ∀ t ∈ jsDedup (((pendingRows q).take count).map (fun r => txidOf r.outpoint)),
      t.length = 64 := by
  intro t ht
  rcases List.mem_map.mp (mem_jsDedup.mp ht) with ⟨s, hs, rfl⟩
  have hsq : s ∈ q := List.mem_of_mem_filter (List.mem_of_mem_take hs)
  exact length_txidOf_of_le (hwf s hsq)

theorem sqlite_claimOp_spec (now count : Nat) (q : List QueueRow)
    (hwf : ∀ r ∈ q, 64 ≤ r.outpoint.length) :
    ClaimSpec now q (SqliteSyncQueue.claimOp now count q) := by
  rw [SqliteSyncQueue.claimOp]
  by_cases hempty : ((pendingRows q).take count).isEmpty = true
  · rw [if_pos hempty]
    exact ⟨by simp, by simp, by simp⟩
  · rw [if_neg hempty]
    refine ⟨claimGroups_item_spec (seed_txids_len hwf),
      claimGroups_keys_nodup (nodup_jsDedup _), ?_⟩
    intro g hg r' hr' hpend heq
    rcases List.mem_map.mp hr' with ⟨r, hrq, hr⟩
    by_cases hid : r.id ∈
        (((claimGroups now q
            (jsDedup (((pendingRows q).take count).map (fun r => txidOf r.outpoint)))).map
          (fun g => g.2.map QueueRow.id)).flatten : List Str)
    · rw [if_pos (by exact decide_eq_true hid)] at hr
      rw [← hr] at hpend
      cases hpend
    · rw [if_neg (by simpa using hid)] at hr
      subst hr
      have hin : claimedItem now r ∈ g.2 := claimGroups_complete hg hrq hpend heq
      apply hid
      refine List.mem_flatten.mpr ⟨g.2.map QueueRow.id, List.mem_map_of_mem _ hg, ?_⟩
      rw [← claimedItem_id now r]
      exact List.mem_map_of_mem _ hin

theorem idb_groups_eq (now : Nat) (q : List QueueRow) (txids : List Str) :
    ((txids.filterMap (fun t =>
        let items := IndexedDbSyncQueue.getPendingByTxid t q
        if items.isEmpty then none else some (t, items))).map
      (fun g => (g.1, g.2.map (claimedItem now)))) = claimGroups now q txids := by
  unfold claimGroups
  rw [List.map_filterMap]
  congr 1
  funext t
  by_cases he : (pendingRowsOfTxid q t).isEmpty = true
  · simp [IndexedDbSyncQueue.getPendingByTxid, he]
  · simp [IndexedDbSyncQueue.getPendingByTxid, he]

theorem idb_claimOp_spec (now count : Nat) (q : List QueueRow)
    (hwf : ∀ r ∈ q, 64 ≤ r.outpoint.length) :
    ClaimSpec now q (IndexedDbSyncQueue.claimOp now count q) := by
  rw [IndexedDbSyncQueue.claimOp]
  by_cases hempty : ((pendingRows q).take count).isEmpty = true
  · rw [if_pos hempty]
    exact ⟨by simp, by simp, by simp⟩
  · rw [if_neg hempty]
    dsimp only
    rw [idb_groups_eq]
    refine ⟨claimGroups_item_spec (seed_txids_len hwf),
      claimGroups_keys_nodup (nodup_jsDedup _), ?_⟩
    intro g hg r' hr' hpend heq
    rcases mem_markProcessing hr' with ⟨it, _, hr⟩ | ⟨hrq, hids⟩
    · rw [hr] at hpend
      cases hpend
    · have hin : claimedItem now r' ∈ g.2 := claimGroups_complete hg hrq hpend heq
      rcases mem_claimGroups.mp hg with ⟨ht, he, hgdef⟩
      have hitems : claimedItem now r' ∈ (pendingRowsOfTxid q g.1).map (claimedItem now) := by
        rw [hgdef] at hin
        exact hin
      rcases List.mem_map.mp hitems with ⟨r0, hr0, hr0eq⟩
      refine hids r0 ?_ ?_
      · refine List.mem_flatten.mpr ⟨pendingRowsOfTxid q g.1, ?_, hr0⟩
        refine List.mem_map.mpr ⟨(g.1, pendingRowsOfTxid q g.1), ?_, rfl⟩
        refine List.mem_filterMap.mpr ⟨g.1, ht, ?_⟩
        rw [if_neg (by simpa [IndexedDbSyncQueue.getPendingByTxid] using he)]
        rfl
      · have : r0.id = r'.id := by
          have := congrArg QueueRow.id hr0eq
          rwa [claimedItem_id, claimedItem_id] at this
        rw [this]

/-- C1: for every `claim(n)` call on either sync queue backend (SQLite or
IndexedDB), every item in the returned map has status `processing` with
its `attempts` counter increased by exactly 1 relative to its stored
value before the call, the returned ids are partitioned into groups keyed
by the first 64 characters of the outpoint (the txid), and each returned
group is complete: after the call no row with status `pending` and that
txid remains in the store. -/
theorem claim_processing_grouped_complete (now count : Nat) (q : List QueueRow)
    (hwf : ∀ r ∈ q, 64 ≤ r.outpoint.length) :
    ClaimSpec now q (SqliteSyncQueue.claimOp now count q) ∧
      ClaimSpec now q (IndexedDbSyncQueue.claimOp now count q) :=
  ⟨sqlite_claimOp_spec now count q hwf, idb_claimOp_spec now count q hwf⟩

/-- Concrete witness for the C1 theorem: a three-row store with two
transactions, claimed with one seed. -/
theorem claim_processing_grouped_complete_witness :
    ClaimSpec 9 [wRowA0, wRowA1, wRowB0]
        (SqliteSyncQueue.claimOp 9 1 [wRowA0, wRowA1, wRowB0]) ∧
      ClaimSpec 9 [wRowA0, wRowA1, wRowB0]
        (IndexedDbSyncQueue.claimOp 9 1 [wRowA0, wRowA1, wRowB0]) :=
  claim_processing_grouped_complete 9 1 [wRowA0, wRowA1, wRowB0] (by decide)

theorem countId_append (q1 q2 : List QueueRow) (i : Str) :
    countId (q1 ++ q2) i = countId q1 i + countId q2 i := by
  simp [countId, List.filter_append]

theorem countId_eq_zero {q : List QueueRow} {i : Str} (h : ∀ r ∈ q, r.id ≠ i) :
    countId q i = 0 := by
  rw [countId, List.length_eq_zero, List.filter_eq_nil_iff]
  intro r hr
  simpa using h r hr

theorem countId_eq_one {q : List QueueRow} {i : Str}
    (hids : (q.map QueueRow.id).Nodup) {ex : QueueRow} (hex : ex ∈ q)
    (hid : ex.id = i) : countId q i = 1 := by
  induction q with
  | nil => cases hex
  | cons r rest ih =>
      rw [List.map_cons, List.nodup_cons] at hids
      by_cases hr : r.id = i
      · have hrest : ∀ x ∈ rest, x.id ≠ i := by
          intro x hx he
          exact hids.1 (hr ▸ he ▸ List.mem_map_of_mem QueueRow.id hx)
        rw [countId, List.filter_cons, if_pos (decide_eq_true hr)]
        have h0 := countId_eq_zero hrest
        rw [countId] at h0
        simp [h0]
      · rcases List.mem_cons.mp hex with rfl | hmem
        · exact absurd hid hr
        · rw [countId, List.filter_cons, if_neg (by simpa using hr)]
          exact ih hids.2 hmem

theorem countId_replace {q : List QueueRow} {row : QueueRow} {i : Str}
    (hrow : row.id = i) :
    countId (q.map (fun r => if r.id = row.id then row else r)) i = countId q i := by
  induction q with
  | nil => rfl
  | cons r rest ih =>
      rw [List.map_cons]
      by_cases hr : r.id = row.id
      · rw [if_pos hr, countId, List.filter_cons, if_pos (decide_eq_true hrow), countId,
          List.filter_cons, if_pos (decide_eq_true (hr.trans hrow))]
        simp only [List.length_cons]
        rw [countId] at ih
        rw [countId] at ih
        omega
      · rw [if_neg hr]
        by_cases hri : r.id = i
        · exact absurd (hri.trans hrow.symm) hr
        · rw [countId, List.filter_cons, if_neg (by simpa using hri), countId,
            List.filter_cons, if_neg (by simpa using hri)]
          exact ih

theorem enqueueOne_spec (now : Nat) (q : List QueueRow) (item : SyncQueueInput)
    (hids : (q.map QueueRow.id).Nodup) :
    EnqueueSpec now q item (SqliteSyncQueue.enqueueOne now q item) := by
  unfold SqliteSyncQueue.enqueueOne
  dsimp only
  cases hfind : q.find? (fun r => decide (r.id = qid item.outpoint item.score)) with
  | none =>
      have hnone : ∀ r ∈ q, r.id ≠ qid item.outpoint item.score := by
        intro r hr he
        have := List.find?_eq_none.mp hfind r hr
        simp [he] at this
      have hany : q.any (fun x =>
          decide (x.id = (enqueuedRow now item 0 now).id)) = false := by
        rw [Bool.eq_false_iff]
        intro hx
        rcases List.any_eq_true.mp hx with ⟨r, hr, hrid⟩
        exact hnone r hr (by simpa [enqueuedRow] using hrid)
      refine ⟨?_, ?_, ?_⟩
      · rw [putRow, if_neg (by simp [hany]), countId_append, countId_eq_zero hnone]
        simp [countId, enqueuedRow, qid]
      · intro ex hex hid
        exact absurd hid (hnone ex hex)
      · intro _
        rw [putRow, if_neg (by simp [hany])]
  | some ex0 =>
      dsimp only
      have hex0 : ex0 ∈ q := List.mem_of_find?_eq_some hfind
      have hid0 : ex0.id = qid item.outpoint item.score := by
        simpa using List.find?_some hfind
      by_cases hdone : ex0.status = QStatus.done
      · rw [if_pos hdone]
        refine ⟨countId_eq_one hids hex0 hid0, ?_, ?_⟩
        · intro ex hex hid
          have hexeq : ex = ex0 :=
            List.inj_on_of_nodup_map hids hex hex0 (by rw [hid, hid0])
          subst hexeq
          exact ⟨fun _ => rfl, fun hnd => absurd hdone hnd⟩
        · intro hall
          exact absurd hid0 (hall ex0 hex0)
      · rw [if_neg hdone]
        have hrowid : (enqueuedRow now item ex0.attempts ex0.createdAt).id =
            qid item.outpoint item.score := rfl
        have hany : q.any (fun x =>
            decide (x.id = (enqueuedRow now item ex0.attempts ex0.createdAt).id)) = true :=
          List.any_eq_true.mpr ⟨ex0, hex0, by simp [hrowid, hid0]⟩
        rw [putRow, if_pos hany]
        refine ⟨?_, ?_, ?_⟩
        · rw [countId_replace hrowid]
          exact countId_eq_one hids hex0 hid0
        · intro ex hex hid
          have hexeq : ex = ex0 :=
            List.inj_on_of_nodup_map hids hex hex0 (by rw [hid, hid0])
          subst hexeq
          refine ⟨fun hd => absurd hd hdone, fun _ => ⟨?_, by simp⟩⟩
          refine List.mem_map.mpr ⟨ex, hex0, ?_⟩
          rw [if_pos (by rw [hid0, hrowid])]
        · intro hall
          exact absurd hid0 (hall ex0 hex0)

/-- C2: for every queue backend and every enqueue of a single item, the
queue afterwards contains exactly one row with id `outpoint:score`; if a
row with that id already existed with status `done`, enqueue leaves the
store unchanged; otherwise the row is upserted to status `pending` while
preserving the prior row's `attempts` and `createdAt` — in particular a
`failed` row returns to `pending` when the same id is re-enqueued. -/
theorem enqueue_single_row_upsert (now : Nat) (q : List QueueRow)
    (item : SyncQueueInput) (hids : (q.map QueueRow.id).Nodup) :
    EnqueueSpec now q item (SqliteSyncQueue.enqueue now q [item]) ∧
      EnqueueSpec now q item (IndexedDbSyncQueue.enqueue now q [item]) := by
  have h1 : SqliteSyncQueue.enqueue now q [item] =
      SqliteSyncQueue.enqueueOne now q item := rfl
  have h2 : IndexedDbSyncQueue.enqueue now q [item] =
      SqliteSyncQueue.enqueueOne now q item := rfl
  rw [h1, h2]
  exact ⟨enqueueOne_spec now q item hids, enqueueOne_spec now q item hids⟩

/-- Concrete witness for the C2 theorem: re-enqueueing the id of a
`failed` row. -/
theorem enqueue_single_row_upsert_witness :
    EnqueueSpec 9 [wFailedRow] wItemA0 (SqliteSyncQueue.enqueue 9 [wFailedRow] [wItemA0]) ∧
      EnqueueSpec 9 [wFailedRow] wItemA0
        (IndexedDbSyncQueue.enqueue 9 [wFailedRow] [wItemA0]) :=
  enqueue_single_row_upsert 9 [wFailedRow] wItemA0 (by decide)

/-- C9: in both queue backends, `enqueue` protects only rows whose
status is `done`: enqueueing an id whose existing row has status
`processing` resets that row to a `pending` row whose `spendTxid` and
`updatedAt` come from the new delivery while `attempts` and `createdAt`
are preserved (and `lastError` is cleared), so the in-flight item becomes
claimable a second time. -/
theorem enqueue_resets_processing_row (now : Nat) (q : List QueueRow)
    (item : SyncQueueInput) (hids : (q.map QueueRow.id).Nodup) (ex : QueueRow)
    (hex : ex ∈ q) (hid : ex.id = qid item.outpoint item.score)
    (hproc : ex.status = QStatus.processing) :
    (enqueuedRow now item ex.attempts ex.createdAt).status = QStatus.pending ∧
      (enqueuedRow now item ex.attempts ex.createdAt).spendTxid = item.spendTxid ∧
      (enqueuedRow now item ex.attempts ex.createdAt).updatedAt = now ∧
      enqueuedRow now item ex.attempts ex.createdAt ∈ SqliteSyncQueue.enqueue now q [item] ∧
      enqueuedRow now item ex.attempts ex.createdAt ∈
        IndexedDbSyncQueue.enqueue now q [item] := by
  have hx := ((enqueueOne_spec now q item hids).2.1 ex hex hid).2 (by rw [hproc]; intro hc; cases hc)
  have h1 : SqliteSyncQueue.enqueue now q [item] =
      SqliteSyncQueue.enqueueOne now q item := rfl
  have h2 : IndexedDbSyncQueue.enqueue now q [item] =
      SqliteSyncQueue.enqueueOne now q item := rfl
  exact ⟨rfl, rfl, rfl, h1 ▸ hx.1, h2 ▸ hx.1⟩

theorem jsDedup_toFinset (l : List Str) : (jsDedup l).toFinset = l.toFinset := by
  ext a
  simp [List.mem_toFinset, mem_jsDedup]

theorem length_jsDedup_eq_card (l : List Str) : (jsDedup l).length = l.toFinset.card := by
  rw [← jsDedup_toFinset, List.toFinset_card_of_nodup (nodup_jsDedup l)]

theorem foldl_setAdd_eq (l : List Str) :
    ∀ seen : List Str, List.foldl IndexedDbSyncQueue.setAdd seen l = seen ++ jsDedupAux seen l := by
  induction l with
  | nil => intro seen; simp [jsDedupAux]
  | cons x rest ih =>
      intro seen
      rw [List.foldl_cons, jsDedupAux]
      by_cases hx : x ∈ seen
      · rw [if_pos hx, show IndexedDbSyncQueue.setAdd seen x = seen from if_pos hx, ih]
      · rw [if_neg hx, show IndexedDbSyncQueue.setAdd seen x = seen ++ [x] from if_neg hx,
          ih (seen ++ [x]), List.append_assoc]
        rfl

theorem foldl_statsStep_eq (q : List QueueRow) :
    ∀ a b c d : List Str,
      q.foldl IndexedDbSyncQueue.statsStep (a, b, c, d) =
        (List.foldl IndexedDbSyncQueue.setAdd a (statusTxids q QStatus.pending),
         List.foldl IndexedDbSyncQueue.setAdd b (statusTxids q QStatus.processing),
         List.foldl IndexedDbSyncQueue.setAdd c (statusTxids q QStatus.done),
         List.foldl IndexedDbSyncQueue.setAdd d (statusTxids q QStatus.failed)) := by
  induction q with
  | nil => intro a b c d; simp [statusTxids]
  | cons r rest ih =>
      intro a b c d
      rw [List.foldl_cons]
      cases hs : r.status with
      | pending =>
          rw [show IndexedDbSyncQueue.statsStep (a, b, c, d) r =
              (IndexedDbSyncQueue.setAdd a (txidOf r.outpoint), b, c, d) from by
            simp [IndexedDbSyncQueue.statsStep, hs]]
          rw [ih]
          simp [statusTxids, List.filter_cons, hs]
      | processing =>
          rw [show IndexedDbSyncQueue.statsStep (a, b, c, d) r =
              (a, IndexedDbSyncQueue.setAdd b (txidOf r.outpoint), c, d) from by
            simp [IndexedDbSyncQueue.statsStep, hs]]
          rw [ih]
          simp [statusTxids, List.filter_cons, hs]
      | done =>
          rw [show IndexedDbSyncQueue.statsStep (a, b, c, d) r =
              (a, b, IndexedDbSyncQueue.setAdd c (txidOf r.outpoint), d) from by
            simp [IndexedDbSyncQueue.statsStep, hs]]
          rw [ih]
          simp [statusTxids, List.filter_cons, hs]
      | failed =>
          rw [show IndexedDbSyncQueue.statsStep (a, b, c, d) r =
              (a, b, c, IndexedDbSyncQueue.setAdd d (txidOf r.outpoint)) from by
            simp [IndexedDbSyncQueue.statsStep, hs]]
          rw [ih]
          simp [statusTxids, List.filter_cons, hs]

theorem length_foldl_setAdd_nil (l : List Str) :
    (List.foldl IndexedDbSyncQueue.setAdd [] l).length = l.toFinset.card := by
  rw [foldl_setAdd_eq l [], List.nil_append]
  exact length_jsDedup_eq_card l

/-- C8: for every queue backend and every queue content, `getStats`
returns, for each of the four statuses, the number of distinct txids
(first 64 characters of the outpoint) among rows currently in that
status; a transaction with several queued outputs in one status
contributes exactly 1 to that status count. -/
theorem getStats_counts_distinct_txids (q : List QueueRow) :
    SqliteSyncQueue.getStats q =
      { pending := specDistinctTxidCount q QStatus.pending
        processing := specDistinctTxidCount q QStatus.processing
        done := specDistinctTxidCount q QStatus.done
        failed := specDistinctTxidCount q QStatus.failed } ∧
    IndexedDbSyncQueue.getStats q =
      { pending := specDistinctTxidCount q QStatus.pending
        processing := specDistinctTxidCount q QStatus.processing
        done := specDistinctTxidCount q QStatus.done
        failed := specDistinctTxidCount q QStatus.failed } := by
  constructor
  · simp only [SqliteSyncQueue.getStats, specDistinctTxidCount, statusTxids,
      length_jsDedup_eq_card, SyncQueueStats.mk.injEq]
  · simp only [IndexedDbSyncQueue.getStats, foldl_statsStep_eq q ([] : List Str) [] [] [],
      length_foldl_setAdd_nil, specDistinctTxidCount, SyncQueueStats.mk.injEq]

/-- Concrete witness for the C9 theorem: re-enqueueing the id of a
`processing` row. -/
theorem enqueue_resets_processing_row_witness :
    (enqueuedRow 9 wItemA0 wProcRow.attempts wProcRow.createdAt).status = QStatus.pending ∧
      (enqueuedRow 9 wItemA0 wProcRow.attempts wProcRow.createdAt).spendTxid =
        wItemA0.spendTxid ∧
      (enqueuedRow 9 wItemA0 wProcRow.attempts wProcRow.createdAt).updatedAt = 9 ∧
      enqueuedRow 9 wItemA0 wProcRow.attempts wProcRow.createdAt ∈
        SqliteSyncQueue.enqueue 9 [wProcRow] [wItemA0] ∧
      enqueuedRow 9 wItemA0 wProcRow.attempts wProcRow.createdAt ∈
        IndexedDbSyncQueue.enqueue 9 [wProcRow] [wItemA0] :=
  enqueue_resets_processing_row 9 [wProcRow] wItemA0 (by decide) wProcRow (by decide)
    (by decide) (by decide)

/-- C4: the stream handler persists `lastQueuedScore = score` (with
`lastSyncedAt = now`) exactly when `floor(score) ≤ H - REORG_SAFE_DEPTH`
for the snapshot tip height `H`; consequently over any sequence of
delivered events the persisted `lastQueuedScore` either retains its
initial value (when no eligible score was delivered) or equals one of
the delivered eligible scores, hence is bounded by their maximum. -/
theorem handle_sync_output_reorg_safe (H : Int) (now : Nat) (s : WalletSyncState)
    (o : SyncOutputM) (evs : List (Nat × SyncOutputM)) (s0 : WalletSyncState) :
    (Rat.floor o.score ≤ H - REORG_SAFE_DEPTH →
      (handleSyncOutput H now s o).sync = ⟨o.score, some now⟩) ∧
    (¬ Rat.floor o.score ≤ H - REORG_SAFE_DEPTH →
      (handleSyncOutput H now s o).sync = s.sync) ∧
    ((runStream H evs s0).sync.lastQueuedScore = s0.sync.lastQueuedScore ∨
      ∃ e ∈ evs, Rat.floor e.2.score ≤ H - REORG_SAFE_DEPTH ∧
        (runStream H evs s0).sync.lastQueuedScore = e.2.score) ∧
    (∀ b : ℚ,
      (∀ e ∈ evs, Rat.floor e.2.score ≤ H - REORG_SAFE_DEPTH → e.2.score ≤ b) →
      (runStream H evs s0).sync.lastQueuedScore = s0.sync.lastQueuedScore ∨
        (runStream H evs s0).sync.lastQueuedScore ≤ b) := by
  have hmain : ∀ (evs : List (Nat × SyncOutputM)) (s0 : WalletSyncState),
      (runStream H evs s0).sync.lastQueuedScore = s0.sync.lastQueuedScore ∨
        ∃ e ∈ evs, Rat.floor e.2.score ≤ H - REORG_SAFE_DEPTH ∧
          (runStream H evs s0).sync.lastQueuedScore = e.2.score := by
    intro evs
    induction evs with
    | nil => intro s0; exact Or.inl rfl
    | cons e rest ih =>
        intro s0
        have hstep : runStream H (e :: rest) s0 =
            runStream H rest (handleSyncOutput H e.1 s0 e.2) := rfl
        rcases ih (handleSyncOutput H e.1 s0 e.2) with h | ⟨e', he', hc', heq'⟩
        · by_cases hc : Rat.floor e.2.score ≤ H - REORG_SAFE_DEPTH
          · refine Or.inr ⟨e, List.mem_cons_self _ _, hc, ?_⟩
            rw [hstep, h]
            simp [handleSyncOutput, hc]
          · refine Or.inl ?_
            rw [hstep, h]
            simp [handleSyncOutput, hc]
        · exact Or.inr ⟨e', List.mem_cons_of_mem _ he', hc', by rw [hstep, heq']⟩
  refine ⟨?_, ?_, hmain evs s0, ?_⟩
  · intro hc
    simp [handleSyncOutput, hc]
  · intro hc
    simp [handleSyncOutput, hc]
  · intro b hb
    rcases hmain evs s0 with h | ⟨e, he, hc, heq⟩
    · exact Or.inl h
    · exact Or.inr (heq ▸ hb e he hc)

theorem txidOf_qid {o : Str} (h : 64 ≤ o.length) (s : ℚ) :
    txidOf (qid o s) = txidOf o := by
  unfold txidOf qid
  exact List.take_append_of_le_length h

theorem mem_completeMany_of_not {now : Nat} {ids : List Str} {q : List QueueRow}
    {r : QueueRow} (hr : r ∈ q) (h : r.id ∉ ids) :
    r ∈ SqliteSyncQueue.completeMany now ids q := by
  unfold SqliteSyncQueue.completeMany
  by_cases he : ids.isEmpty = true
  · rw [if_pos he]; exact hr
  · rw [if_neg he]
    exact List.mem_map.mpr ⟨r, hr, by rw [if_neg (by simpa using h)]⟩

theorem mem_completeMany_done {now : Nat} {ids : List Str} {q : List QueueRow}
    {r : QueueRow} (hr : r ∈ q) (h : r.id ∈ ids) :
    { r with status := QStatus.done, updatedAt := now } ∈
      SqliteSyncQueue.completeMany now ids q := by
  unfold SqliteSyncQueue.completeMany
  have hne : ¬ ids.isEmpty = true := by
    cases ids
    · cases h
    · simp
  rw [if_neg hne]
  exact List.mem_map.mpr ⟨r, hr, by rw [if_pos (by simpa using h)]⟩

theorem mem_failOp_of_ne {now : Nat} {i msg : Str} {q : List QueueRow} {r : QueueRow}
    (hr : r ∈ q) (h : r.id ≠ i) : r ∈ SqliteSyncQueue.failOp now i msg q :=
  List.mem_map.mpr ⟨r, hr, by rw [if_neg (by simpa using h)]⟩

theorem exists_id_failOp {now : Nat} {j msg i : Str} {q : List QueueRow}
    (h : ∃ r ∈ q, r.id = i) :
    ∃ r' ∈ SqliteSyncQueue.failOp now j msg q, r'.id = i := by
  rcases h with ⟨r, hr, hid⟩
  by_cases hj : r.id = j
  · refine ⟨{ r with status := QStatus.failed, lastError := some msg, updatedAt := now },
      List.mem_map.mpr ⟨r, hr, by rw [if_pos (by simpa using hj)]⟩, hid⟩
  · exact ⟨r, mem_failOp_of_ne hr hj, hid⟩

theorem failfold_mem_of_not {now : Nat} {msg : Str} :
    ∀ {items q : List QueueRow} {r : QueueRow}, r ∈ q →
      (∀ it ∈ items, r.id ≠ it.id) →
      r ∈ items.foldl (fun acc it => SqliteSyncQueue.failOp now it.id msg acc) q := by
  intro items
  induction items with
  | nil => intro q r hr _; exact hr
  | cons it rest ih =>
      intro q r hr hne
      rw [List.foldl_cons]
      exact ih (mem_failOp_of_ne hr (hne it (List.mem_cons_self _ _)))
        (fun x hx => hne x (List.mem_cons_of_mem _ hx))

theorem exists_id_failfold {now : Nat} {msg : Str} :
    ∀ {items q : List QueueRow} {i : Str}, (∃ r ∈ q, r.id = i) →
      ∃ r' ∈ items.foldl (fun acc it => SqliteSyncQueue.failOp now it.id msg acc) q,
        r'.id = i := by
  intro items
  induction items with
  | nil => intro q i h; exact h
  | cons it rest ih =>
      intro q i h
      rw [List.foldl_cons]
      exact ih (exists_id_failOp h)

theorem failfold_failed {now : Nat} {msg : Str} :
    ∀ {items q : List QueueRow} {i : Str}, (∃ r ∈ q, r.id = i) →
      (∃ it ∈ items, it.id = i) →
      ∃ r' ∈ items.foldl (fun acc it => SqliteSyncQueue.failOp now it.id msg acc) q,
        r'.id = i ∧ r'.status = QStatus.failed ∧ r'.lastError = some msg := by
  intro items
  induction items with
  | nil =>
      intro q i _ h
      rcases h with ⟨_, h, _⟩
      cases h
  | cons it rest ih =>
      intro q i hex hit
      rw [List.foldl_cons]
      by_cases hil : ∃ it' ∈ rest, it'.id = i
      · exact ih (exists_id_failOp hex) hil
      · rcases hit with ⟨it0, hit0, hid0⟩
        have hit0eq : it0 = it := by
          rcases List.mem_cons.mp hit0 with h | h
          · exact h
          · exact absurd ⟨it0, h, hid0⟩ hil
        subst hit0eq
        rcases hex with ⟨r, hr, hid⟩
        have hf : ({ r with status := QStatus.failed, lastError := some msg, updatedAt := now } : QueueRow) ∈ SqliteSyncQueue.failOp now it0.id msg q :=
          List.mem_map.mpr ⟨r, hr, by rw [if_pos (by simp [hid, hid0])]⟩
        refine ⟨_, failfold_mem_of_not hf ?_, hid, rfl, rfl⟩
        intro x hx he
        exact hil ⟨x, hx, by rw [← he, hid]⟩

theorem exists_id_processTxid {now : Nat} {items : List QueueRow}
    {outc : Except Str Unit} {q : List QueueRow} {i : Str}
    (h : ∃ r ∈ q, r.id = i) :
    ∃ r' ∈ (processTxid now items outc q).1, r'.id = i := by
  cases outc with
  | ok u =>
      rcases h with ⟨r, hr, hid⟩
      by_cases hm : r.id ∈ items.map QueueRow.id
      · exact ⟨_, mem_completeMany_done hr hm, hid⟩
      · exact ⟨r, mem_completeMany_of_not hr hm, hid⟩
  | error msg => exact exists_id_failfold h

theorem mem_processTxid_of_not {now : Nat} {items : List QueueRow}
    {outc : Except Str Unit} {q : List QueueRow} {r : QueueRow} (hr : r ∈ q)
    (hne : ∀ it ∈ items, r.id ≠ it.id) : r ∈ (processTxid now items outc q).1 := by
  cases outc with
  | ok u =>
      refine mem_completeMany_of_not hr ?_
      intro hm
      rcases List.mem_map.mp hm with ⟨it, hit, hid⟩
      exact hne it hit hid.symm
  | error msg => exact failfold_mem_of_not hr hne

theorem processGroups_preserves_row {now : Nat} {outcomes : Str → Except Str Unit} :
    ∀ {groups : List (Str × List QueueRow)} {q : List QueueRow} {evs : List SyncEvent}
      {r : QueueRow}, r ∈ q → (∀ g ∈ groups, ∀ it ∈ g.2, r.id ≠ it.id) →
      r ∈ (processGroups now outcomes groups (q, evs)).1 := by
  intro groups
  induction groups with
  | nil => intro q evs r hr _; exact hr
  | cons g rest ih =>
      intro q evs r hr hne
      exact ih (mem_processTxid_of_not hr (hne g (List.mem_cons_self _ _)))
        (fun g' hg' it hit => hne g' (List.mem_cons_of_mem _ hg') it hit)

theorem processGroups_events_mono {now : Nat} {outcomes : Str → Except Str Unit} :
    ∀ {groups : List (Str × List QueueRow)} {q : List QueueRow} {evs : List SyncEvent}
      {x : SyncEvent}, x ∈ evs → x ∈ (processGroups now outcomes groups (q, evs)).2 := by
  intro groups
  induction groups with
  | nil => intro q evs x hx; exact hx
  | cons g rest ih =>
      intro q evs x hx
      exact ih (List.mem_append_left _ hx)

theorem processGroups_spec {now : Nat} {outcomes : Str → Except Str Unit} :
    ∀ (groups : List (Str × List QueueRow)) (q : List QueueRow) (evs : List SyncEvent),
      List.Pairwise (fun g g' => ∀ it ∈ g.2, ∀ it' ∈ g'.2, it.id ≠ it'.id) groups →
      (∀ g ∈ groups, ∀ it ∈ g.2, ∃ r ∈ q, r.id = it.id) →
      (∀ g ∈ groups, ∀ it ∈ g.2,
        ∃ r ∈ (processGroups now outcomes groups (q, evs)).1, r.id = it.id ∧
          (∀ u, outcomes g.1 = Except.ok u → r.status = QStatus.done) ∧
          (∀ msg, outcomes g.1 = Except.error msg →
            r.status = QStatus.failed ∧ r.lastError = some msg)) ∧
      (∀ g ∈ groups, ∀ msg, outcomes g.1 = Except.error msg →
        SyncEvent.syncError msg ∈ (processGroups now outcomes groups (q, evs)).2) := by
  intro groups
  induction groups with
  | nil => intro q evs _ _; exact ⟨by simp, by simp⟩
  | cons g0 rest ih =>
      intro q evs hpw hex
      rw [List.pairwise_cons] at hpw
      obtain ⟨hg0rest, hpwrest⟩ := hpw
      have hstep : processGroups now outcomes (g0 :: rest) (q, evs) =
          processGroups now outcomes rest
            ((processTxid now g0.2 (outcomes g0.1) q).1,
              evs ++ (processTxid now g0.2 (outcomes g0.1) q).2) := rfl
      have hexrest : ∀ g ∈ rest, ∀ it ∈ g.2,
          ∃ r ∈ (processTxid now g0.2 (outcomes g0.1) q).1, r.id = it.id :=
        fun g hg it hit => exists_id_processTxid (hex g (List.mem_cons_of_mem _ hg) it hit)
      obtain ⟨ihA, ihB⟩ := ih ((processTxid now g0.2 (outcomes g0.1) q).1)
        (evs ++ (processTxid now g0.2 (outcomes g0.1) q).2) hpwrest hexrest
      constructor
      · intro g hg it hit
        rcases List.mem_cons.mp hg with rfl | hgr
        · have hpres : ∀ r' : QueueRow, r'.id = it.id →
              r' ∈ (processTxid now g.2 (outcomes g.1) q).1 →
              r' ∈ (processGroups now outcomes (g :: rest) (q, evs)).1 := by
            intro r' hid hmem
            rw [hstep]
            refine processGroups_preserves_row hmem ?_
            intro g' hg' it' hit' he
            exact hg0rest g' hg' it hit it' hit' (by rw [← hid, he])
          cases ho : outcomes g.1 with
          | ok u =>
              rcases hex g (List.mem_cons_self _ _) it hit with ⟨r, hr, hid⟩
              have hm : r.id ∈ g.2.map QueueRow.id :=
                hid ▸ List.mem_map_of_mem QueueRow.id hit
              refine ⟨{ r with status := QStatus.done, updatedAt := now },
                hpres _ hid ?_, hid, ?_, ?_⟩
              · rw [ho]
                exact mem_completeMany_done hr hm
              · intro _ _
                rfl
              · intro msg hmsg
                cases hmsg
          | error m =>
              have hff := @failfold_failed now m _ _ _
                (hex g (List.mem_cons_self _ _) it hit) ⟨it, hit, rfl⟩
              rcases hff with ⟨r', hr', hid', hst', hle'⟩
              refine ⟨r', hpres r' hid' ?_, hid', ?_, ?_⟩
              · rw [ho]
                exact hr'
              · intro u hu
                cases hu
              · intro msg hmsg
                cases hmsg
                exact ⟨hst', hle'⟩
        · rw [hstep]
          exact ihA g hgr it hit
      · intro g hg msg hmsg
        rcases List.mem_cons.mp hg with rfl | hgr
        · rw [hstep]
          apply processGroups_events_mono
          have h2 : (processTxid now g.2 (outcomes g.1) q).2 = [SyncEvent.syncError msg] := by
            rw [hmsg]
            rfl
          rw [h2]
          exact List.mem_append_right _ (List.mem_singleton_self _)
        · rw [hstep]
          exact ihB g hgr msg hmsg

theorem claimOp_groups_pairwise (now count : Nat) (q : List QueueRow)
    (hwf : ∀ r ∈ q, 64 ≤ r.outpoint.length)
    (hq : ∀ r ∈ q, r.id = qid r.outpoint r.score) :
    List.Pairwise (fun g g' => ∀ it ∈ g.2, ∀ it' ∈ g'.2, it.id ≠ it'.id)
      (SqliteSyncQueue.claimOp now count q).1 := by
  obtain ⟨hitems, hnodup, _⟩ := sqlite_claimOp_spec now count q hwf
  have hkey : List.Pairwise (fun g g' : Str × List QueueRow => g.1 ≠ g'.1)
      (SqliteSyncQueue.claimOp now count q).1 := List.pairwise_map.mp hnodup
  refine hkey.imp_of_mem ?_
  intro g g' hgmem hg'mem hne it hit it' hit' he
  obtain ⟨_, ⟨r, hrq, _, hre⟩, htx⟩ := hitems g hgmem it hit
  obtain ⟨_, ⟨r', hrq', _, hre'⟩, htx'⟩ := hitems g' hg'mem it' hit'
  have hid1 : txidOf it.id = g.1 := by
    rw [hre, claimedItem_id, hq r hrq, txidOf_qid (hwf r hrq),
      ← claimedItem_outpoint now r, ← hre]
    exact htx
  have hid2 : txidOf it'.id = g'.1 := by
    rw [hre', claimedItem_id, hq r' hrq', txidOf_qid (hwf r' hrq'),
      ← claimedItem_outpoint now r', ← hre']
    exact htx'
  apply hne
  rw [← hid1, ← hid2, he]

theorem claimOp_store_ids (now count : Nat) (q : List QueueRow) {r : QueueRow}
    (hr : r ∈ q) :
    ∃ rr ∈ (SqliteSyncQueue.claimOp now count q).2, rr.id = r.id := by
  rw [SqliteSyncQueue.claimOp]
  by_cases hempty : ((pendingRows q).take count).isEmpty = true
  · rw [if_pos hempty]
    exact ⟨r, hr, rfl⟩
  · rw [if_neg hempty]
    dsimp only
    refine ⟨_, List.mem_map.mpr ⟨r, hr, rfl⟩, ?_⟩
    have hgen : ∀ (b : Bool) (x : QueueRow),
        (if b = true then claimedItem now x else x).id = x.id := by
      intro b x
      cases b
      · simp
      · simp [claimedItem_id]
    exact hgen _ r

theorem claimOp_exists_id (now count : Nat) (q : List QueueRow)
    (hwf : ∀ r ∈ q, 64 ≤ r.outpoint.length) :
    ∀ g ∈ (SqliteSyncQueue.claimOp now count q).1, ∀ it ∈ g.2,
      ∃ rr ∈ (SqliteSyncQueue.claimOp now count q).2, rr.id = it.id := by
  intro g hg it hit
  obtain ⟨_, ⟨r, hrq, _, hre⟩, _⟩ := (sqlite_claimOp_spec now count q hwf).1 g hg it hit
  obtain ⟨rr, hrr, hrrid⟩ := claimOp_store_ids now count q hrq
  exact ⟨rr, hrr, by rw [hrrid, hre, claimedItem_id]⟩

theorem claimCore_untouched {now : Nat} {q : List QueueRow} {txids : List Str}
    {r : QueueRow} (hr : r ∈ q)
    (hne : ∀ g ∈ claimGroups now q txids, ∀ it ∈ g.2, r.id ≠ it.id) :
    r ∈ q.map (fun rr =>
      if decide (rr.id ∈
          (((claimGroups now q txids).map (fun g => g.2.map QueueRow.id)).flatten : List Str))
      then claimedItem now rr else rr) := by
  refine List.mem_map.mpr ⟨r, hr, ?_⟩
  have hnid : r.id ∉
      (((claimGroups now q txids).map (fun g => g.2.map QueueRow.id)).flatten : List Str) := by
    intro hmem
    rcases List.mem_flatten.mp hmem with ⟨ids, hids, hrid⟩
    rcases List.mem_map.mp hids with ⟨g, hgmem, hgeq⟩
    rcases List.mem_map.mp (hgeq ▸ hrid) with ⟨it, hit, hitid⟩
    exact hne g hgmem it hit hitid.symm
  rw [if_neg (by simpa using hnid)]

theorem claimOp_untouched (now count : Nat) (q : List QueueRow) {r : QueueRow}
    (hr : r ∈ q)
    (hne : ∀ g ∈ (SqliteSyncQueue.claimOp now count q).1, ∀ it ∈ g.2, r.id ≠ it.id) :
    r ∈ (SqliteSyncQueue.claimOp now count q).2 := by
  by_cases hempty : ((pendingRows q).take count).isEmpty = true
  · have h2 : (SqliteSyncQueue.claimOp now count q).2 = q := by
      rw [SqliteSyncQueue.claimOp, if_pos hempty]
    rw [h2]
    exact hr
  · rw [SqliteSyncQueue.claimOp, if_neg hempty] at hne ⊢
    dsimp only at hne ⊢
    exact claimCore_untouched hr hne

/-- C5: when processing one claimed txid group throws, exactly the items
of that group are marked `failed` with the error recorded, a `sync:error`
event is emitted, and the batch iteration runs to completion: every
other group is settled according to its own outcome only, unclaimed rows
are untouched, and the progress event at the end of the loop body is
still emitted — the exception never propagates out of `processTxid` and
never terminates `processQueueLoop`. -/
theorem batch_error_isolated (now count : Nat) (outcomes : Str → Except Str Unit)
    (q : List QueueRow) (hwf : ∀ r ∈ q, 64 ≤ r.outpoint.length)
    (hq : ∀ r ∈ q, r.id = qid r.outpoint r.score) :
    ProcessBatchSpec now count outcomes q := by
  have hpw := claimOp_groups_pairwise now count q hwf hq
  have hex := claimOp_exists_id now count q hwf
  obtain ⟨hA, hB⟩ := @processGroups_spec now outcomes
    (SqliteSyncQueue.claimOp now count q).1 (SqliteSyncQueue.claimOp now count q).2 [] hpw hex
  have hb1 : (processBatch now count outcomes q).1 =
      (processGroups now outcomes (SqliteSyncQueue.claimOp now count q).1
        ((SqliteSyncQueue.claimOp now count q).2, [])).1 := rfl
  have hb2 : ∀ x ∈ (processGroups now outcomes (SqliteSyncQueue.claimOp now count q).1
      ((SqliteSyncQueue.claimOp now count q).2, [])).2,
      x ∈ (processBatch now count outcomes q).2 := by
    intro x hx
    exact List.mem_append_left _ hx
  refine ⟨?_, ?_, ?_, ?_⟩
  · intro g hg msg hmsg
    exact hb2 _ (hB g hg msg hmsg)
  · intro g hg it hit
    rcases hA g hg it hit with ⟨r, hrmem, hrest⟩
    exact ⟨r, hb1 ▸ hrmem, hrest⟩
  · intro r hr hne
    rw [hb1]
    exact processGroups_preserves_row (claimOp_untouched now count q hr hne) hne
  · exact ⟨_, _, _, List.mem_append_right _ (List.mem_singleton_self _)⟩

/-- Concrete witness for the C5 theorem: a three-row store whose
`"bb…bb"` group throws while the `"aa…aa"` group succeeds. -/
theorem batch_error_isolated_witness :
    ProcessBatchSpec 9 20 wOutcomes [wRowA0, wRowA1, wRowB0] :=
  batch_error_isolated 9 20 wOutcomes [wRowA0, wRowA1, wRowB0] (by decide) (by decide)

/-- C10: the Bsv21 decoder's `parse` returns no result whenever the
decoded token amount satisfies `amt ≤ 0` or `amt > 2^64 - 1`; hence every
stored Bsv21 record has an amount in the exact-integer range
`0 < amt ≤ 2^64 - 1`. -/
theorem bsv21_parse_amount_range (decoded : Option DecodedBsv21)
    (outpointStr fundAddr : Str) (owners : List Str) (owner : Option Str) :
    (∀ d, decoded = some d → (d.amt ≤ 0 ∨ 2 ^ 64 - 1 < d.amt) →
      bsv21Parse decoded outpointStr fundAddr owners owner = none) ∧
    (∀ res, bsv21Parse decoded outpointStr fundAddr owners owner = some res →
      0 < res.data.amt ∧ res.data.amt ≤ 2 ^ 64 - 1) := by
  constructor
  · rintro d rfl hrange
    unfold bsv21Parse
    dsimp only
    rw [if_pos hrange]
  · intro res hres
    cases decoded with
    | none => cases hres
    | some d =>
        unfold bsv21Parse at hres
        dsimp only at hres
        by_cases hr : d.amt ≤ 0 ∨ 2 ^ 64 - 1 < d.amt
        · rw [if_pos hr] at hres
          cases hres
        · rw [if_neg hr] at hres
          push_neg at hr
          have hamt : res.data.amt = d.amt := by
            cases hres
            rfl
          rw [hamt]
          exact hr

theorem alLookup_updateTok (tokens : List (Str × TokenAcc)) (d : Str)
    (f : TokenAcc → TokenAcc) (i : Str) :
    alLookup (updateTok tokens d f) i =
      if i = d then (alLookup tokens d).map f else alLookup tokens i := by
  induction tokens with
  | nil => by_cases h : i = d <;> simp [updateTok, alLookup, h]
  | cons p rest ih =>
      rw [updateTok, List.map_cons]
      by_cases hpd : p.1 = d
      · by_cases hid : i = d
        · subst hid
          rw [if_pos hpd, if_pos rfl]
          rw [alLookup, if_pos hpd, alLookup, if_pos hpd]
          rfl
        · rw [if_pos hpd, if_neg hid]
          rw [alLookup, if_neg (hpd ▸ fun he => hid he.symm), alLookup,
            if_neg (by rw [hpd]; exact fun he => hid he.symm)]
          rw [updateTok] at ih
          rw [ih, if_neg hid]
      · by_cases hpi : p.1 = i
        · have hid : ¬ i = d := fun he => hpd (by rw [hpi, he])
          rw [if_neg hpd, if_neg hid]
          rw [alLookup, if_pos hpi, alLookup, if_pos hpi]
        · rw [if_neg hpd]
          rw [alLookup, if_neg hpi]
          rw [updateTok] at ih
          rw [ih]
          by_cases hid : i = d
          · rw [if_pos hid, if_pos hid]
            rw [alLookup, if_neg hpd]
          · rw [if_neg hid, if_neg hid]
            rw [alLookup, if_neg hpi]

theorem alLookup_append_single (tokens : List (Str × TokenAcc)) (d i : Str)
    (v : TokenAcc) :
    alLookup (tokens ++ [(d, v)]) i =
      match alLookup tokens i with
      | some t => some t
      | none => if d = i then some v else none := by
  induction tokens with
  | nil =>
      rw [List.nil_append]
      by_cases h : d = i <;> simp [alLookup, h]
  | cons p rest ih =>
      rw [List.cons_append]
      by_cases hpi : p.1 = i
      · rw [alLookup, if_pos hpi, alLookup, if_pos hpi]
      · rw [alLookup, if_neg hpi, alLookup, if_neg hpi, ih]

theorem alLookup_step (tokens : List (Str × TokenAcc)) (d : Str)
    (f : TokenAcc → TokenAcc) (i : Str) :
    alLookup (updateTok
        (if (alLookup tokens d).isNone then tokens ++ [(d, initTokenAcc)] else tokens)
        d f) i =
      if i = d then some (f ((alLookup tokens d).getD initTokenAcc))
      else alLookup tokens i := by
  by_cases habs : (alLookup tokens d).isNone
  · rw [if_pos habs, alLookup_updateTok]
    have hd : alLookup tokens d = none := Option.isNone_iff_eq_none.mp habs
    by_cases hid : i = d
    · subst hid
      rw [if_pos rfl, if_pos rfl, alLookup_append_single, hd]
      simp
    · rw [if_neg hid, if_neg hid, alLookup_append_single]
      cases hl : alLookup tokens i with
      | some t => rfl
      | none =>
          rw [if_neg (fun he => hid he.symm)]
  · rw [if_neg habs, alLookup_updateTok]
    cases hl : alLookup tokens d with
    | none => exact absurd (by rw [hl]; rfl) habs
    | some t =>
        by_cases hid : i = d
        · subst hid
          rw [if_pos rfl, if_pos rfl]
          rfl
        · rw [if_neg hid, if_neg hid]

theorem tokProj_nil (i : Str) :
    tokPresent [] i = false ∧ tokStatus [] i = none ∧ tokIn [] i = 0 ∧ tokOut [] i = 0 := by
  refine ⟨rfl, rfl, rfl, rfl⟩

theorem tokPresent_step (tokens : List (Str × TokenAcc)) (d : Str)
    (f : TokenAcc → TokenAcc) (i : Str) :
    tokPresent (updateTok
        (if (alLookup tokens d).isNone then tokens ++ [(d, initTokenAcc)] else tokens)
        d f) i = (decide (d = i) || tokPresent tokens i) := by
  rw [tokPresent, alLookup_step]
  by_cases hid : i = d
  · rw [if_pos hid]
    simp [hid.symm]
  · rw [if_neg hid]
    have : ¬ d = i := fun he => hid he.symm
    simp [this, tokPresent]

theorem tokIn_step (tokens : List (Str × TokenAcc)) (d : Str)
    (f : TokenAcc → TokenAcc) (i : Str) (amt : Int)
    (hf : ∀ t, (f t).tokensIn = t.tokensIn + amt) :
    tokIn (updateTok
        (if (alLookup tokens d).isNone then tokens ++ [(d, initTokenAcc)] else tokens)
        d f) i = tokIn tokens i + (if d = i then amt else 0) := by
  rw [tokIn, alLookup_step]
  by_cases hid : i = d
  · rw [if_pos hid, if_pos hid.symm]
    subst hid
    cases hl : alLookup tokens i with
    | none => simp [tokIn, hl, hf, initTokenAcc]
    | some t => simp [tokIn, hl, hf]
  · rw [if_neg hid, if_neg (fun he => hid he.symm)]
    rw [tokIn]
    ring

theorem tokStatus_step_set (tokens : List (Str × TokenAcc)) (d : Str)
    (f : TokenAcc → TokenAcc) (i : Str) (st : TokenStatus)
    (hf : ∀ t, (f t).status = some st) :
    tokStatus (updateTok
        (if (alLookup tokens d).isNone then tokens ++ [(d, initTokenAcc)] else tokens)
        d f) i = if d = i then some st else tokStatus tokens i := by
  rw [tokStatus, alLookup_step]
  by_cases hid : i = d
  · rw [if_pos hid, if_pos hid.symm]
    simp [hf]
  · rw [if_neg hid, if_neg (fun he => hid he.symm)]
    rfl

theorem tokStatus_step_keep (tokens : List (Str × TokenAcc)) (d : Str)
    (f : TokenAcc → TokenAcc) (i : Str)
    (hf : ∀ t, (f t).status = t.status) :
    tokStatus (updateTok
        (if (alLookup tokens d).isNone then tokens ++ [(d, initTokenAcc)] else tokens)
        d f) i = tokStatus tokens i := by
  rw [tokStatus, alLookup_step]
  by_cases hid : i = d
  · rw [if_pos hid]
    subst hid
    cases hl : alLookup tokens i with
    | none => simp [tokStatus, hl, hf, initTokenAcc]
    | some t => simp [tokStatus, hl, hf]
  · rw [if_neg hid]
    rfl

theorem tokOut_step (tokens : List (Str × TokenAcc)) (d : Str)
    (f : TokenAcc → TokenAcc) (i : Str)
    (hf : ∀ t, (f t).tokensOut = t.tokensOut) :
    tokOut (updateTok
        (if (alLookup tokens d).isNone then tokens ++ [(d, initTokenAcc)] else tokens)
        d f) i = tokOut tokens i := by
  rw [tokOut, alLookup_step]
  by_cases hid : i = d
  · rw [if_pos hid]
    subst hid
    cases hl : alLookup tokens i with
    | none => simp [tokOut, hl, hf, initTokenAcc]
    | some t => simp [tokOut, hl, hf]
  · rw [if_neg hid]
    rfl

theorem bsv21ProcessSpends_spec (overlay : Str → Str → OverlayResult) :
    ∀ (spends : List SpendTok) (tokens tokens' : List (Str × TokenAcc)),
      bsv21ProcessSpends overlay spends tokens = Except.ok tokens' →
      ∀ i : Str,
        tokPresent tokens' i = (tokPresent tokens i || bsv21HasInput spends i) ∧
        tokIn tokens' i = tokIn tokens i + bsv21TokensIn spends i ∧
        tokStatus tokens' i =
          (if bsv21Had404 overlay spends i = true then some TokenStatus.pending
           else tokStatus tokens i) ∧
        tokOut tokens' i = tokOut tokens i := by
  intro spends
  induction spends with
  | nil =>
      intro tokens tokens' h i
      cases h
      simp [bsv21HasInput, bsv21TokensIn, bsv21Had404]
  | cons s rest ih =>
      intro tokens tokens' h i
      unfold bsv21ProcessSpends at h
      cases hb : s.bsv21 with
      | none =>
          rw [hb] at h
          obtain ⟨hp, hin, hst, hout⟩ := ih tokens tokens' h i
          refine ⟨?_, ?_, ?_, hout⟩
          · rw [hp]
            simp [bsv21HasInput, List.any_cons, hb]
          · rw [hin]
            simp [bsv21TokensIn, List.filterMap_cons, hb]
          · rw [hst]
            simp [bsv21Had404, List.any_cons, hb]
      | some d =>
          rw [hb] at h
          dsimp only at h
          have hhas : bsv21HasInput (s :: rest) i =
              (decide (d.id = i) || bsv21HasInput rest i) := by
            simp [bsv21HasInput, List.any_cons, hb]
          have hsum : bsv21TokensIn (s :: rest) i =
              (if d.id = i then d.amt else 0) + bsv21TokensIn rest i := by
            rw [bsv21TokensIn, List.filterMap_cons, hb]
            by_cases hdi : d.id = i
            · rw [if_pos hdi, List.filter_cons, if_pos (by simpa using hdi),
                List.map_cons, List.sum_cons]
              rfl
            · rw [if_neg hdi, List.filter_cons, if_neg (by simpa using hdi)]
              simp [bsv21TokensIn]
          have h404 : bsv21Had404 overlay (s :: rest) i =
              ((decide (d.id = i) && decide (overlay i s.txid = OverlayResult.notFound)) ||
                bsv21Had404 overlay rest i) := by
            simp [bsv21Had404, List.any_cons, hb]
          cases hov : overlay d.id s.txid with
          | fail =>
              rw [hov] at h
              cases h
          | notFound =>
              rw [hov] at h
              dsimp only at h
              obtain ⟨hp, hin, hst, hout⟩ := ih _ _ h i
              refine ⟨?_, ?_, ?_, ?_⟩
              · rw [hp, hhas, tokPresent_step]
                cases hdi : decide (d.id = i) <;>
                  cases hpt : tokPresent tokens i <;>
                  cases hrest : bsv21HasInput rest i <;> rfl
              · rw [hin, hsum,
                  tokIn_step tokens d.id (bsv21SpendUpdate404 d.amt) i d.amt (fun t => rfl)]
                by_cases hdi : d.id = i
                · rw [if_pos hdi]
                  ring
                · rw [if_neg hdi]
                  ring
              · rw [hst, h404, tokStatus_step_set tokens d.id (bsv21SpendUpdate404 d.amt) i
                  TokenStatus.pending (fun t => rfl)]
                by_cases hdi : d.id = i
                · have hnot : decide (overlay i s.txid = OverlayResult.notFound) = true := by
                    rw [← hdi, hov]
                    simp
                  by_cases h4r : bsv21Had404 overlay rest i = true
                  · simp [hdi, hnot, h4r]
                  · simp [hdi, hnot, h4r]
                · by_cases h4r : bsv21Had404 overlay rest i = true
                  · simp [hdi, h4r]
                  · simp [hdi, h4r]
              · rw [hout, tokOut_step tokens d.id (bsv21SpendUpdate404 d.amt) i (fun t => rfl)]
          | found outputs =>
              rw [hov] at h
              dsimp only at h
              obtain ⟨hp, hin, hst, hout⟩ := ih _ _ h i
              have hfin : ∀ t : TokenAcc,
                  (bsv21SpendUpdateFound
                    ((outputs.find? (fun p => decide (p.1 = s.vout))).bind Prod.snd)
                    d.amt t).tokensIn = t.tokensIn + d.amt := by
                intro t
                unfold bsv21SpendUpdateFound
                by_cases hsym : t.sym = none <;> simp [hsym]
              have hfst : ∀ t : TokenAcc,
                  (bsv21SpendUpdateFound
                    ((outputs.find? (fun p => decide (p.1 = s.vout))).bind Prod.snd)
                    d.amt t).status = t.status := by
                intro t
                unfold bsv21SpendUpdateFound
                by_cases hsym : t.sym = none <;> simp [hsym]
              have hfout : ∀ t : TokenAcc,
                  (bsv21SpendUpdateFound
                    ((outputs.find? (fun p => decide (p.1 = s.vout))).bind Prod.snd)
                    d.amt t).tokensOut = t.tokensOut := by
                intro t
                unfold bsv21SpendUpdateFound
                by_cases hsym : t.sym = none <;> simp [hsym]
              refine ⟨?_, ?_, ?_, ?_⟩
              · rw [hp, hhas, tokPresent_step]
                cases hdi : decide (d.id = i) <;>
                  cases hpt : tokPresent tokens i <;>
                  cases hrest : bsv21HasInput rest i <;> rfl
              · rw [hin, hsum, tokIn_step tokens d.id _ i d.amt hfin]
                by_cases hdi : d.id = i
                · rw [if_pos hdi]
                  ring
                · rw [if_neg hdi]
                  ring
              · rw [hst, h404, tokStatus_step_keep tokens d.id _ i hfst]
                by_cases hdi : d.id = i
                · have hnot : decide (overlay i s.txid = OverlayResult.notFound) = false := by
                    rw [← hdi, hov]
                    simp
                  simp [hnot]
                · simp [hdi]
              · rw [hout, tokOut_step tokens d.id _ i hfout]

theorem tokPresent_updateTok (tokens : List (Str × TokenAcc)) (d : Str)
    (f : TokenAcc → TokenAcc) (i : Str) :
    tokPresent (updateTok tokens d f) i = tokPresent tokens i := by
  rw [tokPresent, alLookup_updateTok]
  by_cases hid : i = d
  · rw [if_pos hid]
    subst hid
    cases hl : alLookup tokens i <;> simp [tokPresent, hl]
  · rw [if_neg hid]
    rfl

theorem tokStatus_updateTok_keep (tokens : List (Str × TokenAcc)) (d : Str)
    (f : TokenAcc → TokenAcc) (i : Str) (hf : ∀ t, (f t).status = t.status) :
    tokStatus (updateTok tokens d f) i = tokStatus tokens i := by
  rw [tokStatus, alLookup_updateTok]
  by_cases hid : i = d
  · rw [if_pos hid]
    subst hid
    cases hl : alLookup tokens i <;> simp [tokStatus, hl, hf]
  · rw [if_neg hid]
    rfl

theorem tokIn_updateTok_keep (tokens : List (Str × TokenAcc)) (d : Str)
    (f : TokenAcc → TokenAcc) (i : Str) (hf : ∀ t, (f t).tokensIn = t.tokensIn) :
    tokIn (updateTok tokens d f) i = tokIn tokens i := by
  rw [tokIn, alLookup_updateTok]
  by_cases hid : i = d
  · rw [if_pos hid]
    subst hid
    cases hl : alLookup tokens i <;> simp [tokIn, hl, hf]
  · rw [if_neg hid]
    rfl

theorem tokOut_updateTok_add (tokens : List (Str × TokenAcc)) (d : Str)
    (f : TokenAcc → TokenAcc) (i : Str) (amt : Int)
    (hf : ∀ t, (f t).tokensOut = t.tokensOut + amt)
    (hpres : tokPresent tokens d = true) :
    tokOut (updateTok tokens d f) i =
      tokOut tokens i + (if d = i then amt else 0) := by
  rw [tokOut, alLookup_updateTok]
  by_cases hid : i = d
  · rw [if_pos hid, if_pos hid.symm]
    subst hid
    cases hl : alLookup tokens i with
    | none =>
        rw [tokPresent, hl] at hpres
        exact Bool.noConfusion hpres
    | some t => simp [tokOut, hl, hf]
  · rw [if_neg hid, if_neg (fun he => hid he.symm)]
    simp [tokOut]

theorem bsv21TokensOut_cons (o : OutTok) (rest : List OutTok) (i : Str) :
    bsv21TokensOut (o :: rest) i =
      (match o.bsv21 with
       | some d =>
           if d.id = i ∧ (d.op = opTransfer ∨ d.op = opBurn) then d.amt else 0
       | none => 0) + bsv21TokensOut rest i := by
  cases hb : o.bsv21 with
  | none => simp [bsv21TokensOut, List.filterMap_cons, hb]
  | some d =>
      dsimp only
      rw [bsv21TokensOut, List.filterMap_cons, hb]
      by_cases hc : d.id = i ∧ (d.op = opTransfer ∨ d.op = opBurn)
      · have hcond : (decide (d.id = i) &&
            (decide (d.op = opTransfer) || decide (d.op = opBurn))) = true := by
          obtain ⟨h1, h2⟩ := hc
          cases h2 with
          | inl h2 => simp [h1, h2]
          | inr h2 => simp [h1, h2]
        rw [if_pos hc, List.filter_cons, if_pos hcond, List.map_cons, List.sum_cons]
        rfl
      · have hcond : (decide (d.id = i) &&
            (decide (d.op = opTransfer) || decide (d.op = opBurn))) = false := by
          by_cases h1 : d.id = i
          · by_cases h2 : d.op = opTransfer
            · exact absurd ⟨h1, Or.inl h2⟩ hc
            · by_cases h3 : d.op = opBurn
              · exact absurd ⟨h1, Or.inr h3⟩ hc
              · simp [h2, h3]
          · simp [h1]
        rw [if_neg hc, List.filter_cons, if_neg (by simp [hcond])]
        simp [bsv21TokensOut]

theorem bsv21ProcessTxos_tokens :
    ∀ (txos : List OutTok) (tokens : List (Str × TokenAcc)) (i : Str),
      tokPresent (bsv21ProcessTxos txos tokens).1 i = tokPresent tokens i ∧
      tokStatus (bsv21ProcessTxos txos tokens).1 i = tokStatus tokens i ∧
      tokIn (bsv21ProcessTxos txos tokens).1 i = tokIn tokens i ∧
      tokOut (bsv21ProcessTxos txos tokens).1 i =
        tokOut tokens i +
          (if tokPresent tokens i = true then bsv21TokensOut txos i else 0) := by
  intro txos
  induction txos with
  | nil =>
      intro tokens i
      refine ⟨rfl, rfl, rfl, ?_⟩
      have hz : bsv21TokensOut [] i = 0 := rfl
      have h0 : (bsv21ProcessTxos [] tokens).1 = tokens := rfl
      rw [h0, hz]
      by_cases hp : tokPresent tokens i = true
      · rw [if_pos hp]
        ring
      · rw [if_neg hp]
        ring
  | cons o rest ih =>
      intro tokens i
      cases hb : o.bsv21 with
      | none =>
          have hstep : (bsv21ProcessTxos (o :: rest) tokens).1 =
              (bsv21ProcessTxos rest tokens).1 := by
            rw [bsv21ProcessTxos]
            rw [hb]
          have hdecomp : bsv21TokensOut (o :: rest) i = bsv21TokensOut rest i := by
            rw [bsv21TokensOut_cons, hb]
            simp
          rw [hstep, hdecomp]
          exact ih tokens i
      | some d =>
          by_cases hop : d.op = opTransfer ∨ d.op = opBurn
          · cases hl : alLookup tokens d.id with
            | some t =>
                have hpres : tokPresent tokens d.id = true := by
                  rw [tokPresent, hl]
                  rfl
                have hstep : (bsv21ProcessTxos (o :: rest) tokens).1 =
                    (bsv21ProcessTxos rest
                      (updateTok tokens d.id (bsv21OutUpdate d.amt))).1 := by
                  rw [bsv21ProcessTxos]
                  rw [hb]
                  dsimp only
                  rw [if_pos hop, hl]
                have hdecomp : bsv21TokensOut (o :: rest) i =
                    (if d.id = i then d.amt else 0) + bsv21TokensOut rest i := by
                  rw [bsv21TokensOut_cons, hb]
                  dsimp only
                  by_cases hdi : d.id = i
                  · rw [if_pos (And.intro hdi hop), if_pos hdi]
                  · rw [if_neg (fun hc => hdi hc.1), if_neg hdi]
                obtain ⟨h1, h2, h3, h4⟩ := ih (updateTok tokens d.id (bsv21OutUpdate d.amt)) i
                rw [hstep]
                refine ⟨?_, ?_, ?_, ?_⟩
                · rw [h1, tokPresent_updateTok]
                · rw [h2, tokStatus_updateTok_keep]
                  intro u
                  rfl
                · rw [h3, tokIn_updateTok_keep]
                  intro u
                  rfl
                · rw [h4, tokPresent_updateTok,
                    tokOut_updateTok_add tokens d.id (bsv21OutUpdate d.amt) i d.amt
                      (fun u => rfl) hpres, hdecomp]
                  by_cases hpt : tokPresent tokens i = true
                  · rw [if_pos hpt, if_pos hpt]
                    ring
                  · rw [if_neg hpt, if_neg hpt]
                    have hdi : ¬ d.id = i := by
                      intro he
                      rw [he] at hpres
                      exact hpt hpres
                    rw [if_neg hdi]
                    ring
            | none =>
                have habs : tokPresent tokens d.id = false := by
                  rw [tokPresent, hl]
                  rfl
                have hstep : (bsv21ProcessTxos (o :: rest) tokens).1 =
                    (bsv21ProcessTxos rest tokens).1 := by
                  rw [bsv21ProcessTxos]
                  rw [hb]
                  dsimp only
                  rw [if_pos hop, hl]
                have hdecomp : bsv21TokensOut (o :: rest) i =
                    (if d.id = i then d.amt else 0) + bsv21TokensOut rest i := by
                  rw [bsv21TokensOut_cons, hb]
                  dsimp only
                  by_cases hdi : d.id = i
                  · rw [if_pos (And.intro hdi hop), if_pos hdi]
                  · rw [if_neg (fun hc => hdi hc.1), if_neg hdi]
                obtain ⟨h1, h2, h3, h4⟩ := ih tokens i
                rw [hstep]
                refine ⟨h1, h2, h3, ?_⟩
                rw [h4, hdecomp]
                by_cases hpt : tokPresent tokens i = true
                · rw [if_pos hpt, if_pos hpt]
                  have hdi : ¬ d.id = i := by
                    intro he
                    rw [he] at habs
                    rw [hpt] at habs
                    exact Bool.noConfusion habs
                  rw [if_neg hdi]
                  ring
                · rw [if_neg hpt, if_neg hpt]
          · have hstep : (bsv21ProcessTxos (o :: rest) tokens).1 =
                (bsv21ProcessTxos rest tokens).1 := by
              rw [bsv21ProcessTxos]
              rw [hb]
              dsimp only
              rw [if_neg hop]
            have hdecomp : bsv21TokensOut (o :: rest) i = bsv21TokensOut rest i := by
              rw [bsv21TokensOut_cons, hb]
              dsimp only
              rw [if_neg (fun hc => hop hc.2)]
              simp
            rw [hstep, hdecomp]
            exact ih tokens i

theorem bsv21ProcessTxos_outputs :
    ∀ (txos : List OutTok) (tokens : List (Str × TokenAcc)),
      ∀ o' ∈ (bsv21ProcessTxos txos tokens).2, ∀ d',
        o'.bsv21 = some d' → (d'.op = opTransfer ∨ d'.op = opBurn) →
        tokPresent tokens d'.id = false → d'.status = TokenStatus.invalid := by
  intro txos
  induction txos with
  | nil =>
      intro tokens o' ho'
      have hnil : (bsv21ProcessTxos [] tokens).2 = [] := rfl
      rw [hnil] at ho'
      exact absurd ho' (List.not_mem_nil o')
  | cons o rest ih =>
      intro tokens o' ho' d' hb' hop' habs
      cases hb : o.bsv21 with
      | none =>
          have hstep : (bsv21ProcessTxos (o :: rest) tokens).2 =
              o :: (bsv21ProcessTxos rest tokens).2 := by
            rw [bsv21ProcessTxos]
            rw [hb]
          rw [hstep] at ho'
          cases List.mem_cons.mp ho' with
          | inl he =>
              rw [he, hb] at hb'
              exact Option.noConfusion hb'
          | inr hmem => exact ih tokens o' hmem d' hb' hop' habs
      | some d =>
          by_cases hop : d.op = opTransfer ∨ d.op = opBurn
          · cases hl : alLookup tokens d.id with
            | some t =>
                have hpres : tokPresent tokens d.id = true := by
                  rw [tokPresent, hl]
                  rfl
                have hstep : (bsv21ProcessTxos (o :: rest) tokens).2 =
                    ({ o with bsv21 := some { d with sym := t.sym, icon := t.icon, dec := t.dec } } : OutTok) ::
                      (bsv21ProcessTxos rest
                        (updateTok tokens d.id (bsv21OutUpdate d.amt))).2 := by
                  rw [bsv21ProcessTxos]
                  rw [hb]
                  dsimp only
                  rw [if_pos hop, hl]
                rw [hstep] at ho'
                cases List.mem_cons.mp ho' with
                | inl he =>
                    rw [he] at hb'
                    have hd' : some { d with sym := t.sym, icon := t.icon, dec := t.dec } =
                        some d' := hb'
                    injection hd' with hd'
                    have hid : d'.id = d.id := by rw [← hd']
                    rw [hid, hpres] at habs
                    exact Bool.noConfusion habs
                | inr hmem =>
                    refine ih _ o' hmem d' hb' hop' ?_
                    rw [tokPresent_updateTok]
                    exact habs
            | none =>
                have hstep : (bsv21ProcessTxos (o :: rest) tokens).2 =
                    ({ o with bsv21 := some { d with status := TokenStatus.invalid } } : OutTok) ::
                      (bsv21ProcessTxos rest tokens).2 := by
                  rw [bsv21ProcessTxos]
                  rw [hb]
                  dsimp only
                  rw [if_pos hop, hl]
                rw [hstep] at ho'
                cases List.mem_cons.mp ho' with
                | inl he =>
                    rw [he] at hb'
                    have hd' : some { d with status := TokenStatus.invalid } = some d' := hb'
                    injection hd' with hd'
                    rw [← hd']
                | inr hmem => exact ih tokens o' hmem d' hb' hop' habs
          · have hstep : (bsv21ProcessTxos (o :: rest) tokens).2 =
                o :: (bsv21ProcessTxos rest tokens).2 := by
              rw [bsv21ProcessTxos]
              rw [hb]
              dsimp only
              rw [if_neg hop]
            rw [hstep] at ho'
            cases List.mem_cons.mp ho' with
            | inl he =>
                rw [he, hb] at hb'
                injection hb' with hd'
                rw [← hd'] at hop'
                exact absurd hop' hop
            | inr hmem => exact ih tokens o' hmem d' hb' hop' habs

theorem alLookup_finalize (tokens : List (Str × TokenAcc)) (i : Str) :
    alLookup (bsv21Finalize tokens) i = (alLookup tokens i).map bsv21FinalizeAcc := by
  induction tokens with
  | nil => rfl
  | cons p rest ih =>
      simp only [bsv21Finalize, List.map_cons, alLookup]
      by_cases hpi : p.1 = i
      · rw [if_pos hpi, if_pos hpi]
        rfl
      · rw [if_neg hpi, if_neg hpi]
        exact ih

/-- C6: in `Bsv21Indexer.summarize`, every `transfer`/`burn` output whose
token id has no input of that id ends up `invalid`; if some input of that
id got a 404 from the overlay the output ends up `pending`; otherwise the
output is `valid` iff the summed input amounts of the id are at least the
summed `transfer`/`burn` output amounts of the id. -/
theorem bsv21_status_rules (overlay : Str → Str → OverlayResult)
    (spends : List SpendTok) (txos txos' : List OutTok)
    (h : bsv21Summarize overlay spends txos = Except.ok txos') :
    ∀ o' ∈ txos', ∀ d', o'.bsv21 = some d' →
      (d'.op = opTransfer ∨ d'.op = opBurn) →
      (bsv21HasInput spends d'.id = false → d'.status = TokenStatus.invalid) ∧
      (bsv21HasInput spends d'.id = true →
        bsv21Had404 overlay spends d'.id = true → d'.status = TokenStatus.pending) ∧
      (bsv21HasInput spends d'.id = true →
        bsv21Had404 overlay spends d'.id = false →
        d'.status = if bsv21TokensIn spends d'.id ≥ bsv21TokensOut txos d'.id
          then TokenStatus.valid else TokenStatus.invalid) := by
  intro o' ho' d' hb' hop'
  rw [bsv21Summarize] at h
  cases hps : bsv21ProcessSpends overlay spends [] with
  | error e =>
      rw [hps] at h
      cases h
  | ok tokens =>
      rw [hps] at h
      dsimp only at h
      cases h
      have hph1 := bsv21ProcessSpends_spec overlay spends [] tokens hps
      have hph2 := bsv21ProcessTxos_tokens txos tokens
      simp only [bsv21ApplyStatus, List.mem_map] at ho'
      obtain ⟨o2, hmem2, heq2⟩ := ho'
      cases hb2 : o2.bsv21 with
      | none =>
          rw [hb2] at heq2
          dsimp only at heq2
          rw [← heq2, hb2] at hb'
          exact Option.noConfusion hb'
      | some d2 =>
          rw [hb2] at heq2
          dsimp only at heq2
          by_cases hop2 : d2.op = opTransfer ∨ d2.op = opBurn
          · rw [if_pos hop2] at heq2
            obtain ⟨hp1, hi1, hs1, ho1⟩ := hph1 d2.id
            rw [(tokProj_nil d2.id).1, Bool.false_or] at hp1
            rw [(tokProj_nil d2.id).2.1] at hs1
            rw [(tokProj_nil d2.id).2.2.1, zero_add] at hi1
            rw [(tokProj_nil d2.id).2.2.2] at ho1
            obtain ⟨hP, hS, hI, hO⟩ := hph2 d2.id
            cases hlf : alLookup (bsv21Finalize (bsv21ProcessTxos txos tokens).1) d2.id with
            | none =>
                rw [hlf] at heq2
                dsimp only at heq2
                rw [← heq2, hb2] at hb'
                injection hb' with hd
                rw [alLookup_finalize] at hlf
                have hl1 : alLookup (bsv21ProcessTxos txos tokens).1 d2.id = none := by
                  cases hx : alLookup (bsv21ProcessTxos txos tokens).1 d2.id with
                  | none => rfl
                  | some u =>
                      rw [hx] at hlf
                      exact Option.noConfusion hlf
                have hprT : tokPresent tokens d2.id = false := by
                  rw [← hP, tokPresent, hl1]
                  rfl
                have hHI : bsv21HasInput spends d2.id = false := by
                  rw [← hp1]
                  exact hprT
                have hinv : d2.status = TokenStatus.invalid :=
                  bsv21ProcessTxos_outputs txos tokens o2 hmem2 d2 hb2 hop2 hprT
                have hid : d'.id = d2.id := by rw [← hd]
                refine ⟨?_, ?_, ?_⟩
                · intro _
                  rw [← hd]
                  exact hinv
                · intro hT _
                  rw [hid, hHI] at hT
                  exact Bool.noConfusion hT
                · intro hT _
                  rw [hid, hHI] at hT
                  exact Bool.noConfusion hT
            | some t =>
                rw [hlf] at heq2
                dsimp only at heq2
                rw [← heq2] at hb'
                have hb'' : some ({ d2 with status := t.status.getD TokenStatus.pending } : Bsv21) =
                    some d' := hb'
                injection hb'' with hd
                have hid : d'.id = d2.id := by rw [← hd]
                have hst' : d'.status = t.status.getD TokenStatus.pending := by rw [← hd]
                rw [alLookup_finalize] at hlf
                cases hl1 : alLookup (bsv21ProcessTxos txos tokens).1 d2.id with
                | none =>
                    rw [hl1] at hlf
                    exact Option.noConfusion hlf
                | some t2 =>
                    rw [hl1] at hlf
                    have hlf2 : some (bsv21FinalizeAcc t2) = some t := hlf
                    injection hlf2 with hlf2
                    have hprR : tokPresent (bsv21ProcessTxos txos tokens).1 d2.id = true := by
                      rw [tokPresent, hl1]
                      rfl
                    have hstR : tokStatus (bsv21ProcessTxos txos tokens).1 d2.id = t2.status := by
                      rw [tokStatus, hl1]
                      rfl
                    have hinR : tokIn (bsv21ProcessTxos txos tokens).1 d2.id = t2.tokensIn := by
                      rw [tokIn, hl1]
                      rfl
                    have houR : tokOut (bsv21ProcessTxos txos tokens).1 d2.id = t2.tokensOut := by
                      rw [tokOut, hl1]
                      rfl
                    have hprT : tokPresent tokens d2.id = true := by
                      rw [← hP]
                      exact hprR
                    have hstT : t2.status = tokStatus tokens d2.id := by
                      rw [← hstR, hS]
                    have hin2 : t2.tokensIn = bsv21TokensIn spends d2.id := by
                      rw [← hinR, hI, hi1]
                    have hout2 : t2.tokensOut = bsv21TokensOut txos d2.id := by
                      rw [← houR, hO, if_pos hprT, ho1, zero_add]
                    have hHI : bsv21HasInput spends d2.id = true := by
                      rw [← hp1]
                      exact hprT
                    refine ⟨?_, ?_, ?_⟩
                    · intro hF
                      rw [hid, hHI] at hF
                      exact Bool.noConfusion hF
                    · intro _ h4
                      rw [hid] at h4
                      have hstp : t2.status = some TokenStatus.pending := by
                        rw [hstT, hs1, if_pos h4]
                      have hfin : (bsv21FinalizeAcc t2).status = some TokenStatus.pending := by
                        rw [bsv21FinalizeAcc, hstp, if_neg (by simp)]
                        exact hstp
                      rw [hst', ← hlf2, hfin]
                      rfl
                    · intro _ h4
                      rw [hid] at h4 ⊢
                      have hn4 : ¬ bsv21Had404 overlay spends d2.id = true := by
                        rw [h4]
                        exact fun hx => Bool.noConfusion hx
                      have hstn : t2.status = none := by
                        rw [hstT, hs1, if_neg hn4]
                      have hfin : (bsv21FinalizeAcc t2).status =
                          (if t2.tokensIn ≥ t2.tokensOut then some TokenStatus.valid
                            else some TokenStatus.invalid) := by
                        rw [bsv21FinalizeAcc, hstn,
                          if_pos (show (none : Option TokenStatus).isNone = true from rfl)]
                        by_cases hge : t2.tokensIn ≥ t2.tokensOut
                        · rw [if_pos hge, if_pos hge]
                        · rw [if_neg hge, if_neg hge]
                      rw [hst', ← hlf2, hfin, hin2, hout2]
                      by_cases hge : bsv21TokensIn spends d2.id ≥ bsv21TokensOut txos d2.id
                      · rw [if_pos hge, if_pos hge]
                        rfl
                      · rw [if_neg hge, if_neg hge]
                        rfl
          · rw [if_neg hop2] at heq2
            rw [← heq2, hb2] at hb'
            injection hb' with hd
            rw [← hd] at hop'
            exact absurd hop' hop2

/-- Concrete witness for the C6 theorem: a transfer output of a token
with a 10-unit input and 7 units out ends `valid`; an output of a token
with no inputs ends `invalid`. -/
theorem bsv21_status_rules_witness :
    wBsvOut1Fin.status =
      (if bsv21TokensIn [wSpendTok] wBsvOut1Fin.id ≥ bsv21TokensOut wTokTxos wBsvOut1Fin.id
        then TokenStatus.valid else TokenStatus.invalid) ∧
    wBsvOut2Fin.status = TokenStatus.invalid :=
  ⟨(bsv21_status_rules wOverlay [wSpendTok] wTokTxos wTokTxosFin rfl
      { owner := none, bsv21 := some wBsvOut1Fin } (by decide) wBsvOut1Fin rfl
      (Or.inl rfl)).2.2 (by decide) (by decide),
   (bsv21_status_rules wOverlay [wSpendTok] wTokTxos wTokTxosFin rfl
      { owner := none, bsv21 := some wBsvOut2Fin } (by decide) wBsvOut2Fin rfl
      (Or.inl rfl)).1 (by decide)⟩

theorem alLookup_append {β : Type} (xs ys : List (Str × β)) (k : Str) :
    alLookup (xs ++ ys) k =
      match alLookup xs k with
      | some v => some v
      | none => alLookup ys k := by
  induction xs with
  | nil => rfl
  | cons p rest ih =>
      rw [List.cons_append]
      by_cases hpk : p.1 = k
      · rw [alLookup, if_pos hpk, alLookup, if_pos hpk]
      · rw [alLookup, if_neg hpk, alLookup, if_neg hpk, ih]

theorem alLookup_mapOverride (a b : List (Str × Str)) (k : Str) :
    alLookup (a.map (fun p =>
      match alLookup b p.1 with
      | some v => (p.1, v)
      | none => p)) k =
      match alLookup a k with
      | none => none
      | some v =>
          some (match alLookup b k with
            | some w => w
            | none => v) := by
  induction a with
  | nil => rfl
  | cons p rest ih =>
      rw [List.map_cons]
      by_cases hpk : p.1 = k
      · subst hpk
        cases hbl : alLookup b p.1 with
        | some w => simp [alLookup, hbl]
        | none => simp [alLookup, hbl]
      · cases hbl : alLookup b p.1 with
        | some w =>
            dsimp only
            rw [alLookup, if_neg hpk, alLookup, if_neg hpk, ih]
        | none =>
            dsimp only
            rw [alLookup, if_neg hpk, alLookup, if_neg hpk, ih]

theorem alLookup_filter_of_none (g : Str × Str → Bool) (b : List (Str × Str)) (k : Str)
    (h : alLookup b k = none) : alLookup (b.filter g) k = none := by
  induction b with
  | nil => rfl
  | cons p rest ih =>
      rw [alLookup] at h
      by_cases hpk : p.1 = k
      · rw [if_pos hpk] at h
        exact Option.noConfusion h
      · rw [if_neg hpk] at h
        rw [List.filter_cons]
        by_cases hg : g p = true
        · rw [if_pos hg, alLookup, if_neg hpk]
          exact ih h
        · rw [if_neg hg]
          exact ih h

theorem alLookup_filter_keep (a b : List (Str × Str)) (k : Str)
    (hk : (alLookup a k).isNone = true) :
    alLookup (b.filter (fun p => (alLookup a p.1).isNone)) k = alLookup b k := by
  induction b with
  | nil => rfl
  | cons p rest ih =>
      rw [List.filter_cons]
      by_cases hpk : p.1 = k
      · have hg : (fun p : Str × Str => (alLookup a p.1).isNone) p = true := by
          dsimp only
          rw [hpk]
          exact hk
        rw [if_pos hg, alLookup, if_pos hpk, alLookup, if_pos hpk]
      · by_cases hg : (fun p : Str × Str => (alLookup a p.1).isNone) p = true
        · rw [if_pos hg, alLookup, if_neg hpk, alLookup, if_neg hpk]
          exact ih
        · rw [if_neg hg, alLookup, if_neg hpk]
          exact ih

theorem alLookup_mergeMaps (a b : List (Str × Str)) (k : Str) :
    alLookup (mergeMaps a b) k =
      match alLookup b k with
      | some v => some v
      | none => alLookup a k := by
  rw [mergeMaps, alLookup_append, alLookup_mapOverride]
  cases hak : alLookup a k with
  | none =>
      dsimp only
      cases hbk : alLookup b k with
      | none =>
          dsimp only
          exact alLookup_filter_of_none _ b k hbk
      | some v =>
          dsimp only
          rw [alLookup_filter_keep a b k (by rw [hak]; rfl), hbk]
  | some v =>
      cases hbk : alLookup b k with
      | none => rfl
      | some w => rfl

theorem findSourceAux_some :
    ∀ (spends : List OSpend) (outSat s : Nat) (src : Str),
      findSourceAux spends outSat s = some src →
      ∃ j, ∃ hj : j < spends.length,
        s + sumSpendSats (spends.take j) = outSat ∧
        (spends.get ⟨j, hj⟩).satoshis = 1 ∧ (spends.get ⟨j, hj⟩).outpoint = src := by
  intro spends
  induction spends with
  | nil =>
      intro outSat s src h
      exact Option.noConfusion h
  | cons sp rest ih =>
      intro outSat s src h
      rw [findSourceAux] at h
      by_cases hA : s = outSat ∧ sp.satoshis = 1
      · rw [if_pos hA] at h
        injection h with h
        refine ⟨0, Nat.succ_pos _, ?_, hA.2, h⟩
        have hz : sumSpendSats ((sp :: rest).take 0) = 0 := rfl
        rw [hz, Nat.add_zero]
        exact hA.1
      · rw [if_neg hA] at h
        by_cases hB : s + sp.satoshis > outSat
        · rw [if_pos hB] at h
          exact Option.noConfusion h
        · rw [if_neg hB] at h
          obtain ⟨j, hj, hsum, hsat, hout⟩ := ih outSat (s + sp.satoshis) src h
          refine ⟨j + 1, Nat.succ_lt_succ hj, ?_, hsat, hout⟩
          have hsum' : sumSpendSats ((sp :: rest).take (j + 1)) =
              sp.satoshis + sumSpendSats (rest.take j) := by
            rw [List.take_succ_cons, sumSpendSats, List.map_cons, List.sum_cons]
            rfl
          rw [hsum', ← Nat.add_assoc]
          exact hsum

theorem findSourceAux_none :
    ∀ (spends : List OSpend) (outSat s : Nat),
      findSourceAux spends outSat s = none →
      ∀ j (hj : j < spends.length),
        ¬(s + sumSpendSats (spends.take j) = outSat ∧ (spends.get ⟨j, hj⟩).satoshis = 1) := by
  intro spends
  induction spends with
  | nil =>
      intro outSat s _ j hj
      exact absurd hj (Nat.not_lt_zero j)
  | cons sp rest ih =>
      intro outSat s h j hj hand
      obtain ⟨hsum, hsat⟩ := hand
      rw [findSourceAux] at h
      by_cases hA : s = outSat ∧ sp.satoshis = 1
      · rw [if_pos hA] at h
        exact Option.noConfusion h
      · rw [if_neg hA] at h
        cases j with
        | zero =>
            have hz : sumSpendSats ((sp :: rest).take 0) = 0 := rfl
            rw [hz, Nat.add_zero] at hsum
            exact hA ⟨hsum, hsat⟩
        | succ j =>
            have hsum' : sumSpendSats ((sp :: rest).take (j + 1)) =
                sp.satoshis + sumSpendSats (rest.take j) := by
              rw [List.take_succ_cons, sumSpendSats, List.map_cons, List.sum_cons]
              rfl
            rw [hsum'] at hsum
            by_cases hB : s + sp.satoshis > outSat
            · rw [if_pos hB] at h
              omega
            · rw [if_neg hB] at h
              refine ih outSat (s + sp.satoshis) h j (Nat.lt_of_succ_lt_succ hj) ⟨?_, hsat⟩
              rw [Nat.add_assoc]
              exact hsum

theorem clearParent_core (o : OriginM) :
    (clearParent o).outpoint = o.outpoint ∧ (clearParent o).nonce = o.nonce ∧
      (clearParent o).map = o.map := by
  rw [clearParent]
  cases o.insc with
  | none => exact ⟨rfl, rfl, rfl⟩
  | some i => exact ⟨rfl, rfl, rfl⟩

theorem clearLargeContent_core (o : OriginM) :
    (clearLargeContent o).outpoint = o.outpoint ∧ (clearLargeContent o).nonce = o.nonce ∧
      (clearLargeContent o).map = o.map := by
  rw [clearLargeContent]
  cases o.insc with
  | none => exact ⟨rfl, rfl, rfl⟩
  | some i =>
      dsimp only
      cases i.file with
      | none => exact ⟨rfl, rfl, rfl⟩
      | some f =>
          dsimp only
          by_cases hs : f.size > 4096
          · rw [if_pos hs]
            exact ⟨rfl, rfl, rfl⟩
          · rw [if_neg hs]
            exact ⟨rfl, rfl, rfl⟩

theorem resolveInsc_core (ordfsContent : Str → Option Str) (m : OrdfsMetaM) (src : Str)
    (o1 : OriginM) (c : Option Str) :
    (resolveInsc ordfsContent m src o1 c).1.outpoint = o1.outpoint ∧
    (resolveInsc ordfsContent m src o1 c).1.nonce = o1.nonce ∧
    (resolveInsc ordfsContent m src o1 c).1.map = o1.map := by
  rw [resolveInsc]
  cases o1.insc with
  | some i => exact ⟨rfl, rfl, rfl⟩
  | none =>
      dsimp only
      by_cases hif : isTextType m.contentType = true ∧ m.contentLength ≤ 1000
      · rw [if_pos hif]
        cases ordfsContent (if o1.outpoint.isEmpty then src else o1.outpoint) with
        | some s => exact ⟨rfl, rfl, rfl⟩
        | none => exact ⟨rfl, rfl, rfl⟩
      · rw [if_neg hif]
        exact ⟨rfl, rfl, rfl⟩

theorem originParentCheck_core (ordfsMeta : Str → OrdfsRes) (ownOutpoint : Str)
    (ip : Option Str) (o1 o2 : OriginM)
    (h : originParentCheck ordfsMeta ownOutpoint ip o1 = Except.ok o2) :
    o2.outpoint = o1.outpoint ∧ o2.nonce = o1.nonce ∧ o2.map = o1.map := by
  rw [originParentCheck.eq_def] at h
  cases ip with
  | none =>
      injection h with h
      subst h
      exact ⟨rfl, rfl, rfl⟩
  | some p =>
      dsimp only at h
      by_cases hpe : p.isEmpty = true
      · rw [if_pos hpe] at h
        injection h with h
        subst h
        exact ⟨rfl, rfl, rfl⟩
      · rw [if_neg hpe] at h
        cases hm : ordfsMeta ownOutpoint with
        | fail =>
            rw [hm] at h
            cases h
        | notFound =>
            rw [hm] at h
            injection h with h
            subst h
            exact clearParent_core o1
        | ok m2 =>
            rw [hm] at h
            dsimp only at h
            by_cases hp2 : m2.parent = some p
            · rw [if_pos hp2] at h
              injection h with h
              subst h
              exact ⟨rfl, rfl, rfl⟩
            · rw [if_neg hp2] at h
              injection h with h
              subst h
              exact clearParent_core o1

theorem resolveOne_spec (ordfsMeta : Str → OrdfsRes) (ordfsContent : Str → Option Str)
    (owners : List Str) (spends : List OSpend) (outSat : Nat) (txo txo' : OTxo)
    (od : OriginEntry)
    (h : resolveOne ordfsMeta ordfsContent owners spends outSat txo = Except.ok txo')
    (ho : txo.origin = some od) :
    ∃ od', txo'.origin = some od' ∧
      (findSourceAux spends outSat 0 = none → od'.data.outpoint = txo.outpoint) ∧
      (∀ src, findSourceAux spends outSat 0 = some src →
        (ordfsMeta src = OrdfsRes.notFound → od'.data.outpoint = txo.outpoint) ∧
        (∀ m, ordfsMeta src = OrdfsRes.ok m →
          od'.data.outpoint = jsOrStr m.origin src ∧
          od'.data.nonce = m.sequence + 1 ∧
          (∀ im, m.map = some im →
            od'.data.map = some (mergeMaps im (od.data.map.getD []))) ∧
          (m.map = none → od'.data.map = od.data.map))) := by
  rw [resolveOne.eq_def, ho] at h
  dsimp only at h
  rw [resolveStep1.eq_def] at h
  cases hfs : findSourceAux spends outSat 0 with
  | none =>
      rw [hfs] at h
      dsimp only at h
      cases hpc : originParentCheck ordfsMeta txo.outpoint (txo.insc.bind InscM.parent)
          { od.data with outpoint := txo.outpoint } with
      | error e =>
          rw [hpc] at h
          cases h
      | ok o2 =>
          rw [hpc] at h
          dsimp only at h
          injection h with h
          subst h
          refine ⟨_, rfl, ?_, ?_⟩
          · intro _
            show (clearLargeContent o2).outpoint = txo.outpoint
            rw [(clearLargeContent_core o2).1,
              (originParentCheck_core _ _ _ _ _ hpc).1]
          · intro src hsrc
            exact Option.noConfusion hsrc
  | some src0 =>
      rw [hfs] at h
      dsimp only at h
      cases hm : ordfsMeta src0 with
      | fail =>
          rw [hm] at h
          cases h
      | notFound =>
          rw [hm] at h
          dsimp only at h
          cases hpc : originParentCheck ordfsMeta txo.outpoint (txo.insc.bind InscM.parent)
              { od.data with outpoint := txo.outpoint } with
          | error e =>
              rw [hpc] at h
              cases h
          | ok o2 =>
              rw [hpc] at h
              dsimp only at h
              injection h with h
              subst h
              refine ⟨_, rfl, ?_, ?_⟩
              · intro hnone
                exact Option.noConfusion hnone
              · intro src hsrc
                injection hsrc with hsrc
                subst hsrc
                refine ⟨?_, ?_⟩
                · intro _
                  show (clearLargeContent o2).outpoint = txo.outpoint
                  rw [(clearLargeContent_core o2).1,
                    (originParentCheck_core _ _ _ _ _ hpc).1]
                · intro m hm2
                  rw [hm2] at hm
                  exact OrdfsRes.noConfusion hm
      | ok m0 =>
          rw [hm] at h
          dsimp only at h
          cases hres : resolveInsc ordfsContent m0 src0
              (originTransferUpdate m0 src0 od.data) od.content with
          | mk o1 c1 =>
              rw [hres] at h
              dsimp only at h
              have ho1 : o1 = (resolveInsc ordfsContent m0 src0
                  (originTransferUpdate m0 src0 od.data) od.content).1 := by
                rw [hres]
              cases hpc : originParentCheck ordfsMeta txo.outpoint
                  (txo.insc.bind InscM.parent) o1 with
              | error e =>
                  rw [hpc] at h
                  cases h
              | ok o2 =>
                  rw [hpc] at h
                  dsimp only at h
                  injection h with h
                  subst h
                  have hcore : (clearLargeContent o2).outpoint =
                      (originTransferUpdate m0 src0 od.data).outpoint ∧
                      (clearLargeContent o2).nonce =
                        (originTransferUpdate m0 src0 od.data).nonce ∧
                      (clearLargeContent o2).map =
                        (originTransferUpdate m0 src0 od.data).map := by
                    refine ⟨?_, ?_, ?_⟩
                    · rw [(clearLargeContent_core o2).1,
                        (originParentCheck_core _ _ _ _ _ hpc).1, ho1,
                        (resolveInsc_core _ _ _ _ _).1]
                    · rw [(clearLargeContent_core o2).2.1,
                        (originParentCheck_core _ _ _ _ _ hpc).2.1, ho1,
                        (resolveInsc_core _ _ _ _ _).2.1]
                    · rw [(clearLargeContent_core o2).2.2,
                        (originParentCheck_core _ _ _ _ _ hpc).2.2, ho1,
                        (resolveInsc_core _ _ _ _ _).2.2]
                  refine ⟨_, rfl, ?_, ?_⟩
                  · intro hnone
                    exact Option.noConfusion hnone
                  · intro src hsrc
                    injection hsrc with hsrc
                    subst hsrc
                    refine ⟨?_, ?_⟩
                    · intro hnf
                      rw [hnf] at hm
                      exact OrdfsRes.noConfusion hm
                    · intro m hm2
                      rw [hm2] at hm
                      injection hm with hm
                      subst hm
                      refine ⟨?_, ?_, ?_, ?_⟩
                      · show (clearLargeContent o2).outpoint = jsOrStr m.origin src0
                        rw [hcore.1]
                        rfl
                      · show (clearLargeContent o2).nonce = m.sequence + 1
                        rw [hcore.2.1]
                        rfl
                      · intro im him
                        show (clearLargeContent o2).map =
                          some (mergeMaps im (od.data.map.getD []))
                        rw [hcore.2.2]
                        have hup : (originTransferUpdate m src0 od.data).map =
                            (match m.map with
                              | some im' => some (mergeMaps im' (od.data.map.getD []))
                              | none => od.data.map) := rfl
                        rw [hup, him]
                      · intro hmn
                        show (clearLargeContent o2).map = od.data.map
                        rw [hcore.2.2]
                        have hup : (originTransferUpdate m src0 od.data).map =
                            (match m.map with
                              | some im' => some (mergeMaps im' (od.data.map.getD []))
                              | none => od.data.map) := rfl
                        rw [hup, hmn]

theorem resolveOriginsAux_spec (ordfsMeta : Str → OrdfsRes)
    (ordfsContent : Str → Option Str) (owners : List Str) (spends : List OSpend) :
    ∀ (txos : List OTxo) (cum : Nat) (txos' : List OTxo),
      resolveOriginsAux ordfsMeta ordfsContent owners spends txos cum = Except.ok txos' →
      txos'.length = txos.length ∧
      ∀ j (hj : j < txos.length) (hj' : j < txos'.length),
        resolveOne ordfsMeta ordfsContent owners spends
          (cum + sumTxoSats (txos.take j)) (txos.get ⟨j, hj⟩) =
          Except.ok (txos'.get ⟨j, hj'⟩) := by
  intro txos
  induction txos with
  | nil =>
      intro cum txos' h
      cases h
      exact ⟨rfl, fun j hj hj' => absurd hj (Nat.not_lt_zero j)⟩
  | cons t rest ih =>
      intro cum txos' h
      rw [resolveOriginsAux] at h
      cases h1 : resolveOne ordfsMeta ordfsContent owners spends cum t with
      | error e =>
          rw [h1] at h
          cases h
      | ok t' =>
          rw [h1] at h
          dsimp only at h
          cases h2 : resolveOriginsAux ordfsMeta ordfsContent owners spends rest
              (cum + t.satoshis) with
          | error e =>
              rw [h2] at h
              cases h
          | ok rest' =>
              rw [h2] at h
              dsimp only at h
              injection h with h
              subst h
              obtain ⟨hlen, hall⟩ := ih (cum + t.satoshis) rest' h2
              refine ⟨?_, ?_⟩
              · rw [List.length_cons, List.length_cons, hlen]
              · intro j hj hj'
                cases j with
                | zero =>
                    have hz : cum + sumTxoSats ((t :: rest).take 0) = cum := by
                      have h0 : sumTxoSats ((t :: rest).take 0) = 0 := rfl
                      rw [h0, Nat.add_zero]
                    rw [hz]
                    exact h1
                | succ j =>
                    have heq : cum + sumTxoSats ((t :: rest).take (j + 1)) =
                        (cum + t.satoshis) + sumTxoSats (rest.take j) := by
                      have hsum : sumTxoSats ((t :: rest).take (j + 1)) =
                          t.satoshis + sumTxoSats (rest.take j) := by
                        rw [List.take_succ_cons, sumTxoSats, List.map_cons, List.sum_cons]
                        rfl
                      rw [hsum, Nat.add_assoc]
                    rw [heq]
                    exact hall j (Nat.lt_of_succ_lt_succ hj) (Nat.lt_of_succ_lt_succ hj')

/-- C7: in `OriginIndexer.resolveOrigins`, each output carrying origin
data is located at its cumulative satoshi position; an input of exactly
one satoshi whose cumulative input position equals it makes the output a
transfer, whose OrdFS metadata yields `origin.outpoint =
metadata.origin || sourceOutpoint`, `origin.nonce = metadata.sequence + 1`
and MAP data merged with inherited entries overridden by current ones;
with no aligned input (or a 404 for the source) the output is its own
origin. -/
theorem origin_transfer_or_new_origin (ordfsMeta : Str → OrdfsRes)
    (ordfsContent : Str → Option Str) (owners : List Str) (spends : List OSpend)
    (txos txos' : List OTxo)
    (h : resolveOrigins ordfsMeta ordfsContent owners spends txos = Except.ok txos')
    (vout : Nat) (hv : vout < txos.length) (txo : OTxo)
    (ht : txos.get ⟨vout, hv⟩ = txo) (od : OriginEntry) (ho : txo.origin = some od) :
    ∃ hv' : vout < txos'.length, ∃ od',
      (txos'.get ⟨vout, hv'⟩).origin = some od' ∧
      (findSourceAux spends (satsBefore txos vout) 0 = none →
        od'.data.outpoint = txo.outpoint ∧
        ∀ j (hj : j < spends.length),
          ¬(sumSpendSats (spends.take j) = satsBefore txos vout ∧
            (spends.get ⟨j, hj⟩).satoshis = 1)) ∧
      (∀ src, findSourceAux spends (satsBefore txos vout) 0 = some src →
        (∃ j, ∃ hj : j < spends.length,
          sumSpendSats (spends.take j) = satsBefore txos vout ∧
          (spends.get ⟨j, hj⟩).satoshis = 1 ∧ (spends.get ⟨j, hj⟩).outpoint = src) ∧
        (ordfsMeta src = OrdfsRes.notFound → od'.data.outpoint = txo.outpoint) ∧
        (∀ m, ordfsMeta src = OrdfsRes.ok m →
          od'.data.outpoint = jsOrStr m.origin src ∧
          od'.data.nonce = m.sequence + 1 ∧
          (∀ im, m.map = some im →
            od'.data.map = some (mergeMaps im (od.data.map.getD [])) ∧
            ∀ k, alLookup (mergeMaps im (od.data.map.getD [])) k =
              (match alLookup (od.data.map.getD []) k with
                | some v => some v
                | none => alLookup im k)) ∧
          (m.map = none → od'.data.map = od.data.map))) := by
  rw [resolveOrigins] at h
  obtain ⟨hlen, hall⟩ :=
    resolveOriginsAux_spec ordfsMeta ordfsContent owners spends txos 0 txos' h
  have hv' : vout < txos'.length := by
    rw [hlen]
    exact hv
  have h1 := hall vout hv hv'
  rw [Nat.zero_add, ht] at h1
  obtain ⟨od', hod', hnone, hsome⟩ :=
    resolveOne_spec ordfsMeta ordfsContent owners spends (sumTxoSats (txos.take vout))
      txo (txos'.get ⟨vout, hv'⟩) od h1 ho
  refine ⟨hv', od', hod', ?_, ?_⟩
  · intro hfs
    refine ⟨hnone hfs, ?_⟩
    intro j hj hand
    refine findSourceAux_none spends (satsBefore txos vout) 0 hfs j hj ⟨?_, hand.2⟩
    rw [Nat.zero_add]
    exact hand.1
  · intro src hsrc
    obtain ⟨j, hj, hsum, hsat, hout⟩ :=
      findSourceAux_some spends (satsBefore txos vout) 0 src hsrc
    rw [Nat.zero_add] at hsum
    refine ⟨⟨j, hj, hsum, hsat, hout⟩, (hsome src hsrc).1, ?_⟩
    intro m hm
    obtain ⟨ho1, ho2, ho3, ho4⟩ := (hsome src hsrc).2 m hm
    refine ⟨ho1, ho2, ?_, ho4⟩
    intro im him
    exact ⟨ho3 im him, fun k => alLookup_mergeMaps im (od.data.map.getD []) k⟩

/-- Concrete witness for the C7 theorem: one 1-satoshi output at
position 0 aligned with a 1-satoshi input; the OrdFS metadata yields
outpoint `OG`, nonce 5, and the merged MAP overrides the inherited `b`
entry with the current output's value. -/
theorem origin_transfer_or_new_origin_witness :
    ∃ hv' : 0 < wOTxosFin.length, ∃ od',
      (wOTxosFin.get ⟨0, hv'⟩).origin = some od' ∧
      (findSourceAux wOSpends (satsBefore wOTxos 0) 0 = none →
        od'.data.outpoint = wOTxo.outpoint ∧
        ∀ j (hj : j < wOSpends.length),
          ¬(sumSpendSats (wOSpends.take j) = satsBefore wOTxos 0 ∧
            (wOSpends.get ⟨j, hj⟩).satoshis = 1)) ∧
      (∀ src, findSourceAux wOSpends (satsBefore wOTxos 0) 0 = some src →
        (∃ j, ∃ hj : j < wOSpends.length,
          sumSpendSats (wOSpends.take j) = satsBefore wOTxos 0 ∧
          (wOSpends.get ⟨j, hj⟩).satoshis = 1 ∧ (wOSpends.get ⟨j, hj⟩).outpoint = src) ∧
        (wOrdfsMeta src = OrdfsRes.notFound → od'.data.outpoint = wOTxo.outpoint) ∧
        (∀ m, wOrdfsMeta src = OrdfsRes.ok m →
          od'.data.outpoint = jsOrStr m.origin src ∧
          od'.data.nonce = m.sequence + 1 ∧
          (∀ im, m.map = some im →
            od'.data.map = some (mergeMaps im (wOrigEntry.data.map.getD [])) ∧
            ∀ k, alLookup (mergeMaps im (wOrigEntry.data.map.getD [])) k =
              (match alLookup (wOrigEntry.data.map.getD []) k with
                | some v => some v
                | none => alLookup im k)) ∧
          (m.map = none → od'.data.map = wOrigEntry.data.map))) :=
  origin_transfer_or_new_origin wOrdfsMeta wOrdfsContent [] wOSpends wOTxos wOTxosFin
    rfl 0 (by decide) wOTxo rfl wOrigEntry rfl

theorem txInListSize_append : ∀ a b : List TxInM,
    txInListSize (a ++ b) = txInListSize a + txInListSize b := by
  intro a b
  induction a with
  | nil => simp [txInListSize]
  | cons x xs ihx => rw [List.cons_append, txInListSize, txInListSize, ihx, Nat.add_assoc]

theorem findOrInsertBasket_txs (st : Storage) (u : Nat) (n : Str) :
    (findOrInsertBasket st u n).1.txs = st.txs := by
  rw [findOrInsertBasket]
  cases st.baskets.find? (fun b => decide (b.userId = u) && decide (b.name = n)) with
  | some b => rfl
  | none => rfl

theorem findOrInsertBasket_outputs (st : Storage) (u : Nat) (n : Str) :
    (findOrInsertBasket st u n).1.outputs = st.outputs := by
  rw [findOrInsertBasket]
  cases st.baskets.find? (fun b => decide (b.userId = u) && decide (b.name = n)) with
  | some b => rfl
  | none => rfl

theorem findOrInsertTag_txs (st : Storage) (u : Nat) (tg : Str) :
    (findOrInsertTag st u tg).1.txs = st.txs := by
  rw [findOrInsertTag]
  cases st.outputTags.find? (fun b => decide (b.userId = u) && decide (b.tag = tg)) with
  | some b => rfl
  | none => rfl

theorem findOrInsertTag_outputs (st : Storage) (u : Nat) (tg : Str) :
    (findOrInsertTag st u tg).1.outputs = st.outputs := by
  rw [findOrInsertTag]
  cases st.outputTags.find? (fun b => decide (b.userId = u) && decide (b.tag = tg)) with
  | some b => rfl
  | none => rfl

theorem findOrInsertTagMap_txs (st : Storage) (oid tid : Nat) :
    (findOrInsertTagMap st oid tid).txs = st.txs := by
  rw [findOrInsertTagMap]
  by_cases h : st.outputTagMaps.any
      (fun m => decide (m.outputId = oid) && decide (m.outputTagId = tid)) = true
  · rw [if_pos h]
  · rw [if_neg h]

theorem findOrInsertTagMap_outputs (st : Storage) (oid tid : Nat) :
    (findOrInsertTagMap st oid tid).outputs = st.outputs := by
  rw [findOrInsertTagMap]
  by_cases h : st.outputTagMaps.any
      (fun m => decide (m.outputId = oid) && decide (m.outputTagId = tid)) = true
  · rw [if_pos h]
  · rw [if_neg h]

theorem findOrInsertTxLabel_txs (st : Storage) (u : Nat) (l : Str) :
    (findOrInsertTxLabel st u l).1.txs = st.txs := by
  rw [findOrInsertTxLabel]
  cases st.txLabels.find? (fun b => decide (b.userId = u) && decide (b.label = l)) with
  | some b => rfl
  | none => rfl

theorem findOrInsertTxLabelMap_txs (st : Storage) (tid lid : Nat) :
    (findOrInsertTxLabelMap st tid lid).txs = st.txs := by
  rw [findOrInsertTxLabelMap]
  by_cases h : st.txLabelMaps.any
      (fun m => decide (m.transactionId = tid) && decide (m.txLabelId = lid)) = true
  · rw [if_pos h]
  · rw [if_neg h]

theorem applyTags_txs (u oid : Nat) :
    ∀ (tags : List Str) (st : Storage), (applyTags u oid tags st).txs = st.txs := by
  intro tags
  induction tags with
  | nil =>
      intro st
      rw [applyTags]
  | cons tg rest ih =>
      intro st
      rw [applyTags]
      by_cases h : (findOrInsertTag st u tg).2 ≠ 0
      · rw [if_pos h, ih, findOrInsertTagMap_txs, findOrInsertTag_txs]
      · rw [if_neg h, ih, findOrInsertTag_txs]

theorem applyTags_outputs (u oid : Nat) :
    ∀ (tags : List Str) (st : Storage), (applyTags u oid tags st).outputs = st.outputs := by
  intro tags
  induction tags with
  | nil =>
      intro st
      rw [applyTags]
  | cons tg rest ih =>
      intro st
      rw [applyTags]
      by_cases h : (findOrInsertTag st u tg).2 ≠ 0
      · rw [if_pos h, ih, findOrInsertTagMap_outputs, findOrInsertTag_outputs]
      · rw [if_neg h, ih, findOrInsertTag_outputs]

theorem applyLabels_txs (u txId : Nat) :
    ∀ (ls : List Str) (st : Storage), (applyLabels u txId ls st).txs = st.txs := by
  intro ls
  induction ls with
  | nil =>
      intro st
      rw [applyLabels]
  | cons l rest ih =>
      intro st
      rw [applyLabels]
      by_cases h : (findOrInsertTxLabel st u l).2 ≠ 0
      · rw [if_pos h, ih, findOrInsertTxLabelMap_txs, findOrInsertTxLabel_txs]
      · rw [if_neg h, ih, findOrInsertTxLabel_txs]

theorem flipSpends_txs (u txId : Nat) :
    ∀ (l : List TxInM) (st : Storage), (flipSpends u txId l st).txs = st.txs := by
  intro l
  induction l with
  | nil =>
      intro st
      rw [flipSpends]
  | cons i rest ih =>
      intro st
      rw [flipSpends]
      cases hs : i.sourceTXID with
      | none => exact ih st
      | some stx =>
          dsimp only
          by_cases he : stx.isEmpty = true
          · rw [if_pos he]
            exact ih st
          · rw [if_neg he]
            cases findOutputs st u stx i.sourceOutputIndex with
            | nil => exact ih st
            | cons o os =>
                dsimp only
                by_cases ho : o.outputId ≠ 0
                · rw [if_pos ho, ih]
                  rfl
                · rw [if_neg ho]
                  exact ih st

theorem persistSources_mem (u now : Nat) (refs : Nat → Str) :
    ∀ n, ∀ q : List TxInM, txInListSize q ≤ n →
      ∀ st r, r ∈ st.txs → r ∈ (persistSources u now refs q st).txs := by
  intro n
  induction n with
  | zero =>
      intro q hq st r hr
      cases q with
      | nil =>
          rw [persistSources]
          exact hr
      | cons i rest =>
          exfalso
          have h1 : 1 ≤ txInSize i := by
            cases i with
            | mk a c s =>
                cases s with
                | none => simp [txInSize]
                | some s0 =>
                    simp [txInSize]
          have h2 : txInListSize (i :: rest) = txInSize i + txInListSize rest := by
            simp [txInListSize]
          omega
  | succ n ih =>
      intro q hq st r hr
      cases q with
      | nil =>
          rw [persistSources]
          exact hr
      | cons i rest =>
          have h2 : txInListSize (i :: rest) = txInSize i + txInListSize rest := by
            simp [txInListSize]
          cases i with
          | mk a c s =>
              cases s with
              | none =>
                  rw [persistSources]
                  refine ih rest ?_ st r hr
                  have h1 : txInSize (TxInM.mk a c none) = 1 := by simp [txInSize]
                  omega
              | some s0 =>
                  rw [persistSources]
                  have h1 : txInSize (TxInM.mk a c (some s0)) = 1 + txMSize s0 := by
                    simp [txInSize]
                  by_cases hf : (findTransactions st u s0.txid).length > 0
                  · rw [if_pos hf]
                    refine ih rest ?_ st r hr
                    omega
                  · rw [if_neg hf]
                    refine ih (rest ++ s0.inputs) ?_ _ r ?_
                    · rw [txInListSize_append]
                      cases s0 with
                      | mk t v lk rb inp =>
                          have h3 : txMSize (TxM.mk t v lk rb inp) = 1 + txInListSize inp := by
                            simp [txMSize]
                          have h4 : (TxM.mk t v lk rb inp).inputs = inp := rfl
                          rw [h4]
                          omega
                    · rw [insertTx]
                      exact List.mem_append_left _ hr

theorem findTransactions_ne {st : Storage} {u : Nat} {t : Str} {r : TransactionRow}
    (hr : r ∈ st.txs) (h1 : r.userId = u) (h2 : r.txid = t) :
    findTransactions st u t ≠ [] := by
  rw [findTransactions]
  intro hnil
  have hm : r ∈ st.txs.filter (fun r => decide (r.userId = u) && decide (r.txid = t)) :=
    List.mem_filter.mpr ⟨hr, by simp [h1, h2]⟩
  rw [hnil] at hm
  exact List.not_mem_nil r hm

theorem findOutputs_pos {st : Storage} {u : Nat} {t : Str} {v : Nat} :
    0 < (findOutputs st u t v).length ↔
      ∃ r ∈ st.outputs, r.userId = u ∧ r.txid = t ∧ r.vout = v := by
  rw [findOutputs]
  constructor
  · intro h
    have hne : st.outputs.filter (fun r =>
        decide (r.userId = u) && decide (r.txid = t) && decide (r.vout = v)) ≠ [] := by
      intro hnil
      rw [hnil] at h
      exact Nat.lt_irrefl 0 h
    obtain ⟨r, hrmem⟩ := List.exists_mem_of_ne_nil _ hne
    obtain ⟨hm, hp⟩ := List.mem_filter.mp hrmem
    simp only [Bool.and_eq_true, decide_eq_true_eq] at hp
    exact ⟨r, hm, hp.1.1, hp.1.2, hp.2⟩
  · intro h
    obtain ⟨r, hm, h1, h2, h3⟩ := h
    have hmem : r ∈ st.outputs.filter (fun r =>
        decide (r.userId = u) && decide (r.txid = t) && decide (r.vout = v)) :=
      List.mem_filter.mpr ⟨hm, by simp [h1, h2, h3]⟩
    exact List.length_pos.mpr (List.ne_nil_of_mem hmem)

theorem insertOutput_outputs (st : Storage) (row : OutputRow) :
    (insertOutput st row).1.outputs = st.outputs ++ [{ row with outputId := st.nextId }] := rfl

theorem insertOutput_txs (st : Storage) (row : OutputRow) :
    (insertOutput st row).1.txs = st.txs := rfl

theorem insertTx_mem (st : Storage) (row : TransactionRow) :
    ∃ r ∈ (insertTx st row).1.txs, r.userId = row.userId ∧ r.txid = row.txid := by
  refine ⟨{ row with transactionId := st.nextId }, ?_, rfl, rfl⟩
  rw [insertTx]
  exact List.mem_append_right _ (List.mem_singleton.mpr rfl)

theorem processOwned_txs (u : Nat) (txid : Str) (txId now : Nat) :
    ∀ (l : List TxoM) (st : Storage) (acc : Nat),
      (processOwned u txid txId now l st acc).1.txs = st.txs := by
  intro l
  induction l with
  | nil =>
      intro st acc
      rw [processOwned]
  | cons t rest ih =>
      intro st acc
      rw [processOwned]
      dsimp only
      by_cases hf : (findOutputs st u txid t.vout).length > 0
      · rw [if_pos hf]
        exact ih st acc
      · rw [if_neg hf]
        rw [ih, applyTags_txs, insertOutput_txs, findOrInsertBasket_txs]

theorem processOwned_key_mono (u : Nat) (txid : Str) (txId now : Nat) :
    ∀ (l : List TxoM) (st : Storage) (acc : Nat) (u' : Nat) (t' : Str) (v' : Nat),
      (∃ r ∈ st.outputs, r.userId = u' ∧ r.txid = t' ∧ r.vout = v') →
      ∃ r ∈ (processOwned u txid txId now l st acc).1.outputs,
        r.userId = u' ∧ r.txid = t' ∧ r.vout = v' := by
  intro l
  induction l with
  | nil =>
      intro st acc u' t' v' h
      rw [processOwned]
      exact h
  | cons t rest ih =>
      intro st acc u' t' v' h
      rw [processOwned]
      dsimp only
      by_cases hf : (findOutputs st u txid t.vout).length > 0
      · rw [if_pos hf]
        exact ih st acc u' t' v' h
      · rw [if_neg hf]
        refine ih _ _ u' t' v' ?_
        obtain ⟨r, hm, hp⟩ := h
        refine ⟨r, ?_, hp⟩
        rw [applyTags_outputs, insertOutput_outputs, findOrInsertBasket_outputs]
        exact List.mem_append_left _ hm

theorem processOwned_key_all (u : Nat) (txid : Str) (txId now : Nat) :
    ∀ (l : List TxoM) (st : Storage) (acc : Nat), ∀ t' ∈ l,
      ∃ r ∈ (processOwned u txid txId now l st acc).1.outputs,
        r.userId = u ∧ r.txid = txid ∧ r.vout = t'.vout := by
  intro l
  induction l with
  | nil =>
      intro st acc t' ht'
      exact absurd ht' (List.not_mem_nil t')
  | cons t rest ih =>
      intro st acc t' ht'
      rw [processOwned]
      dsimp only
      by_cases hf : (findOutputs st u txid t.vout).length > 0
      · rw [if_pos hf]
        cases List.mem_cons.mp ht' with
        | inl he =>
            subst he
            exact processOwned_key_mono u txid txId now rest st acc u txid t'.vout
              (findOutputs_pos.mp hf)
        | inr hmem => exact ih st acc t' hmem
      · rw [if_neg hf]
        cases List.mem_cons.mp ht' with
        | inl he =>
            subst he
            refine processOwned_key_mono u txid txId now rest _ _ u txid t'.vout ?_
            rw [applyTags_outputs, insertOutput_outputs]
            exact ⟨_, List.mem_append_right _ (List.mem_singleton.mpr rfl), rfl, rfl, rfl⟩
        | inr hmem => exact ih _ _ t' hmem

theorem processOwned_skip_all (u : Nat) (txid : Str) (txId now : Nat) :
    ∀ (l : List TxoM) (st : Storage) (acc : Nat),
      (∀ t' ∈ l, (findOutputs st u txid t'.vout).length > 0) →
      processOwned u txid txId now l st acc = (st, acc) := by
  intro l
  induction l with
  | nil =>
      intro st acc _
      rw [processOwned]
  | cons t rest ih =>
      intro st acc h
      rw [processOwned]
      dsimp only
      rw [if_pos (h t (List.mem_cons_self t rest))]
      exact ih st acc (fun t' ht' => h t' (List.mem_cons_of_mem t ht'))

theorem ingest_post (u : Nat) (owners : List Str) (tx : TxM) (ctx : List TxoM)
    (d : Str) (l : Option (List Str)) (b : Bool) (now : Nat) (refs : Nat → Str)
    (st0 : Storage) :
    (∃ r ∈ (ingestTransaction u owners tx ctx d l b now refs st0).1.txs,
      r.userId = u ∧ r.txid = tx.txid) ∧
    ∀ t' ∈ ctx.filter (isOwned owners),
      ∃ r ∈ (ingestTransaction u owners tx ctx d l b now refs st0).1.outputs,
        r.userId = u ∧ r.txid = tx.txid ∧ r.vout = t'.vout := by
  rw [ingestTransaction]
  dsimp only
  cases hftx : findTransactions st0 u tx.txid with
  | cons r0 rest0 =>
      dsimp only
      constructor
      · have hmem : r0 ∈ findTransactions st0 u tx.txid := by
          rw [hftx]
          exact List.mem_cons_self r0 rest0
        rw [findTransactions] at hmem
        obtain ⟨hm, hp⟩ := List.mem_filter.mp hmem
        simp only [Bool.and_eq_true, decide_eq_true_eq] at hp
        refine ⟨r0, ?_, hp.1, hp.2⟩
        rw [processOwned_txs]
        exact hm
      · intro t' ht'
        exact processOwned_key_all u tx.txid r0.transactionId now _ st0 0 t' ht'
  | nil =>
      dsimp only
      constructor
      · obtain ⟨r, hm, h1, h2⟩ := insertTx_mem st0
          (newTxRow u tx.txid now (refs st0.nextId) b
            (computeOutgoing st0 u tx.inputs false 0).1
            ((((ctx.filter (isOwned owners)).map TxoM.satoshis).sum : Int) -
              ((computeOutgoing st0 u tx.inputs false 0).2 : Int)) d tx)
        refine ⟨r, ?_, ?_, ?_⟩
        · rw [processOwned_txs, flipSpends_txs, applyLabels_txs]
          exact persistSources_mem u now refs (txInListSize tx.inputs) tx.inputs
            (Nat.le_refl _) _ r hm
        · rw [h1]
          rfl
        · rw [h2]
          rfl
      · intro t' ht'
        exact processOwned_key_all u tx.txid _ now _ _ 0 t' ht'

/-- C3: the storage-writing phase of `ingestTransaction` is idempotent:
a second call with the same transaction and parse context (and any
clock, randomness, description, labels or broadcast flag) reuses the
stored transaction row, performs no insert, spend patch or other write,
and returns `internalizedCount = 0` with the storage unchanged. -/
theorem ingest_transaction_idempotent (u : Nat) (owners : List Str) (tx : TxM)
    (ctx : List TxoM) (d1 d2 : Str) (l1 l2 : Option (List Str)) (b1 b2 : Bool)
    (now1 now2 : Nat) (refs1 refs2 : Nat → Str) (st0 : Storage) :
    ingestTransaction u owners tx ctx d2 l2 b2 now2 refs2
        (ingestTransaction u owners tx ctx d1 l1 b1 now1 refs1 st0).1 =
      ((ingestTransaction u owners tx ctx d1 l1 b1 now1 refs1 st0).1, 0) := by
  obtain ⟨⟨r1, hr1, hu1, ht1⟩, hkeys⟩ := ingest_post u owners tx ctx d1 l1 b1 now1 refs1 st0
  rw [ingestTransaction]
  dsimp only
  cases hftx : findTransactions
      (ingestTransaction u owners tx ctx d1 l1 b1 now1 refs1 st0).1 u tx.txid with
  | nil => exact absurd hftx (findTransactions_ne hr1 hu1 ht1)
  | cons r2 rest2 =>
      dsimp only
      refine processOwned_skip_all u tx.txid r2.transactionId now2 _ _ 0 ?_
      intro t' ht'
      exact findOutputs_pos.mpr (hkeys t' ht')

/-- Concrete witness for the C10 theorem: amount 0 is rejected, amount 5
is parsed and lies in range. -/
theorem bsv21_parse_amount_range_witness :
    bsv21Parse (some wDecodedBad) wOutpointA0 wFund [] none = none ∧
      (0 < wParsedRes.data.amt ∧ wParsedRes.data.amt ≤ 2 ^ 64 - 1) :=
  ⟨(bsv21_parse_amount_range (some wDecodedBad) wOutpointA0 wFund [] none).1
      wDecodedBad rfl (by decide),
   (bsv21_parse_amount_range (some wDecodedGood) wOutpointA0 wFund [] none).2
      wParsedRes (by decide)⟩

/-- Concrete witness for the C4 theorem: tip height 200, one eligible
event (score 100) and one event inside the re-org window (score 199). -/
theorem handle_sync_output_reorg_safe_witness :
    (handleSyncOutput 200 7 wState0 wOut100).sync = ⟨100, some 7⟩ ∧
    (handleSyncOutput 200 8 wState0 wOut199).sync = wState0.sync ∧
    ((runStream 200 [(7, wOut100), (8, wOut199)] wState0).sync.lastQueuedScore =
        wState0.sync.lastQueuedScore ∨
      ∃ e ∈ [(7, wOut100), (8, wOut199)],
        Rat.floor e.2.score ≤ 200 - REORG_SAFE_DEPTH ∧
        (runStream 200 [(7, wOut100), (8, wOut199)] wState0).sync.lastQueuedScore =
          e.2.score) :=
  ⟨(handle_sync_output_reorg_safe 200 7 wState0 wOut100 [] wState0).1 (by decide),
   (handle_sync_output_reorg_safe 200 8 wState0 wOut199 [] wState0).2.1 (by decide),
   (handle_sync_output_reorg_safe 200 7 wState0 wOut100
      [(7, wOut100), (8, wOut199)] wState0).2.2.1⟩

end OneSat
